import Mathlib

/-!
# Red-black tree of `rbtree.hpp` (namespace `xi`)

A shallow embedding of the pointer program.  Nodes live in a heap, a list of
cells indexed by address; a pointer is an optional address (`none` is
`nullptr`).  Every dereference is checked: reading through `nullptr` or through
a freed cell is undefined behaviour in the source and is the failure
`null_deref` here.  An operation returns either its result or the failure
together with the tree as it stood at that moment, so that "the tree is left
unmodified" can be stated.  Loops carry a fuel argument that is consumed once
per iteration.
-/

namespace xi

/-- Colour of a node. -/
inductive Color
  | RED
  | BLACK
deriving DecidableEq, Repr

/-- A pointer to a node: an address of the heap, or `none` for `nullptr`. -/
abbrev Ptr := Option Nat

/-- The fields of `RBTree::Node`; `Element` is instantiated with the integers. -/
structure Node where
  key : Int
  color : Color
  left : Ptr
  right : Ptr
  parent : Ptr
deriving DecidableEq, Repr

/-- The heap: cell `a` holds the node allocated at address `a`, `none` once freed. -/
abbrev Heap := List (Option Node)

/-- Debug events sent to the dumper (`IRBTreeDumper::RBTreeDumperEvent`). -/
inductive DumpEvent
  | DE_AFTER_BST_INS
  | DE_AFTER_INSERT
  | DE_AFTER_RECOLOR1
  | DE_AFTER_RECOLOR3D
  | DE_AFTER_RECOLOR3G
  | DE_AFTER_LROT
  | DE_AFTER_RROT
deriving DecidableEq, Repr

/-- What one call `rbTreeEvent(ev, this, nd)` shows to the dumper: the event, the tree
as it is at that moment, and the node. -/
structure DumpRecord where
  event : DumpEvent
  heap : Heap
  root : Ptr
  nd : Ptr
deriving DecidableEq, Repr

/-- The tree object: `_root`, `_dumper` (`none` when no dumper is attached, otherwise
the records it has received so far) and the heap its nodes live in. -/
structure RBTree where
  heap : Heap
  root : Ptr
  dumper : Option (List DumpRecord)
deriving DecidableEq, Repr

/-- The ways an operation can stop early. -/
inductive Failure
  | logic_error
  | invalid_argument
  | null_deref
  | out_of_fuel
deriving DecidableEq, Repr

/-- Result of running a piece of the program: a value, or a failure together with the
tree at the moment of the failure. -/
abbrev Run (α : Type) := Except (Failure × RBTree) α

/-- Handler matching of C++ for the exception classes the program throws, from
`<stdexcept>` (included at line 15 of rbtree.hpp): `handler.catches thrown` tells whether a
`catch (handler&)` clause stops an exception of dynamic class `thrown`.
`std::invalid_argument` derives from `std::logic_error`, so a handler for
`std::logic_error` stops both classes and a handler for `std::invalid_argument` stops only
the derived one.  A null dereference and a loop that ran out of fuel are not exceptions:
no handler stops them. -/
def Failure.catches : Failure → Failure → Bool
  | Failure.logic_error, Failure.logic_error => true
  | Failure.logic_error, Failure.invalid_argument => true
  | Failure.invalid_argument, Failure.invalid_argument => true
  | _, _ => false

/-- The node stored at address `a`, if the cell is allocated and not freed. -/
def Heap.read (h : Heap) (a : Nat) : Option Node :=
  (h.get? a).join

/-- Dereference `p`: undefined behaviour (here `null_deref`) for `nullptr` and freed cells. -/
def RBTree.load (t : RBTree) (p : Ptr) : Run Node :=
  match p with
  | none => throw (Failure.null_deref, t)
  | some a =>
    match t.heap.read a with
    | none => throw (Failure.null_deref, t)
    | some n => pure n

/-- Overwrite the node at address `a`. -/
def RBTree.store (t : RBTree) (a : Nat) (n : Node) : RBTree :=
  { t with heap := t.heap.set a (some n) }

/-- Member assignment `p->field = v`, given as the update `f` of the node. -/
def RBTree.modify (t : RBTree) (p : Ptr) (f : Node → Node) : Run RBTree :=
  match p with
  | none => throw (Failure.null_deref, t)
  | some a =>
    match t.heap.read a with
    | none => throw (Failure.null_deref, t)
    | some n => pure (t.store a (f n))

/-- Evaluate `p->_parent`. -/
def RBTree.parentOf (t : RBTree) (p : Ptr) : Run Ptr :=
  do let n ← t.load p; pure n.parent

/-- Evaluate `p->_left`. -/
def RBTree.leftOf (t : RBTree) (p : Ptr) : Run Ptr :=
  do let n ← t.load p; pure n.left

/-- Evaluate `p->_right`. -/
def RBTree.rightOf (t : RBTree) (p : Ptr) : Run Ptr :=
  do let n ← t.load p; pure n.right

/-- The call `if (_dumper) _dumper->rbTreeEvent(ev, this, nd)`. -/
def RBTree.dump (t : RBTree) (ev : DumpEvent) (nd : Ptr) : RBTree :=
  match t.dumper with
  | none => t
  | some log => { t with dumper := some (log ++ [⟨ev, t.heap, t.root, nd⟩]) }

/-- Modelled from the spec: `Node::isLeftChild` is declared in rbtree.h, which is not
part of the sources; §4.1 "true iff this node is installed in its parent's left slot".
A node without parent is installed in no slot. -/
def RBTree.isLeftChild (t : RBTree) (p : Ptr) : Run Bool :=
  do
    let n ← t.load p
    match n.parent with
    | none => pure false
    | some pa =>
      let pn ← t.load (some pa)
      pure (decide (pn.left = p))

/-- Modelled from the spec: `Node::isRed` of rbtree.h (§4.1 helper query). -/
def RBTree.isRed (t : RBTree) (p : Ptr) : Run Bool :=
  do let n ← t.load p; pure (decide (n.color = Color.RED))

/-- Modelled from the spec: `Node::isBlack` of rbtree.h (§4.1 helper query). -/
def RBTree.isBlack (t : RBTree) (p : Ptr) : Run Bool :=
  do let n ← t.load p; pure (decide (n.color = Color.BLACK))

/-- Modelled from the spec: `Node::setBlack` of rbtree.h, the colour setter used by the
fixup ("recolor ... to BLACK"). -/
def RBTree.setBlack (t : RBTree) (p : Ptr) : Run RBTree :=
  t.modify p (fun n => { n with color := Color.BLACK })

/-- Modelled from the spec: `Node::setRed` of rbtree.h, the colour setter used by the
fixup ("recolor ... to RED"). -/
def RBTree.setRed (t : RBTree) (p : Ptr) : Run RBTree :=
  t.modify p (fun n => { n with color := Color.RED })

/-- The constructor `RBTree()`: no root, no dumper; nothing allocated yet. -/
def RBTree.empty : RBTree :=
  { heap := [], root := none, dumper := none }

/-- The loop of `RBTree::find`, started at `i`. -/
def findLoop (t : RBTree) (key : Int) : Nat → Ptr → Run Ptr
  | _, none => pure none
  | 0, some _ => throw (Failure.out_of_fuel, t)
  | fuel + 1, some a => do
    let n ← t.load (some a)
    if key = n.key then pure (some a)
    else if key < n.key then findLoop t key fuel n.left
    else findLoop t key fuel n.right

/-- `RBTree::find`. -/
def find (fuel : Nat) (t : RBTree) (key : Int) : Run Ptr :=
  findLoop t key fuel t.root

/-- The descent loop of `RBTree::insertNewBstEl`; returns `last`. -/
def insertDescend (t : RBTree) (key : Int) : Nat → Ptr → Ptr → Run Ptr
  | _, none, last => pure last
  | 0, some _, _ => throw (Failure.out_of_fuel, t)
  | fuel + 1, some a, _ => do
    let n ← t.load (some a)
    if key < n.key then insertDescend t key fuel n.left (some a)
    else insertDescend t key fuel n.right (some a)

/-- Modelled from the spec: `new Node` runs the default constructor of rbtree.h; §3
"a Node is created only as a fresh RED leaf", so the new cell has no children.  The
cell is placed at the first unused address; the fields `_parent`, `_key`, `_color` are
the ones `insertNewBstEl` assigns right after the allocation. -/
def RBTree.newNode (t : RBTree) (key : Int) (last : Ptr) : RBTree × Nat :=
  ({ t with heap := t.heap ++ [some ⟨key, Color.RED, none, none, last⟩] }, t.heap.length)

/-- `RBTree::insertNewBstEl`. -/
def insertNewBstEl (fuel : Nat) (t : RBTree) (key : Int) : Run (RBTree × Ptr) :=
  do
    let last ← insertDescend t key fuel t.root none
    let (t1, a) := t.newNode key last
    match last with
    | none => pure ({ t1 with root := some a }, some a)
    | some _ =>
      let ln ← t1.load last
      if key < ln.key then
        let t2 ← t1.modify last (fun n => { n with left := some a })
        pure (t2, some a)
      else
        let t2 ← t1.modify last (fun n => { n with right := some a })
        pure (t2, some a)

/-- `RBTree::rotLeft`. -/
def rotLeft (t : RBTree) (nd : Ptr) : Run RBTree :=
  do
    let y ← t.rightOf nd
    if y = none then throw (Failure.invalid_argument, t)
    let yl ← t.leftOf y
    let t ← t.modify nd (fun n => { n with right := yl })
    let yl ← t.leftOf y
    let t ← if yl ≠ none then t.modify yl (fun n => { n with parent := nd }) else pure t
    let np ← t.parentOf nd
    let t ← t.modify y (fun n => { n with parent := np })
    let np ← t.parentOf nd
    let t ←
      if np = none then pure { t with root := y }
      else do
        let pl ← t.leftOf np
        if nd = pl then t.modify np (fun n => { n with left := y })
        else t.modify np (fun n => { n with right := y })
    let t ← t.modify y (fun n => { n with left := nd })
    let t ← t.modify nd (fun n => { n with parent := y })
    pure (t.dump DumpEvent.DE_AFTER_LROT nd)

/-- `RBTree::rotRight`. -/
def rotRight (t : RBTree) (nd : Ptr) : Run RBTree :=
  if nd = none then pure t
  else do
    let x ← t.leftOf nd
    if x = none then throw (Failure.invalid_argument, t)
    let xr ← t.rightOf x
    let t ← t.modify nd (fun n => { n with left := xr })
    let xr ← t.rightOf x
    let t ← if xr ≠ none then t.modify xr (fun n => { n with parent := nd }) else pure t
    let np ← t.parentOf nd
    let t ← t.modify x (fun n => { n with parent := np })
    let np ← t.parentOf nd
    let t ←
      if np = none then pure { t with root := x }
      else do
        let pl ← t.leftOf np
        if nd = pl then t.modify np (fun n => { n with left := x })
        else do
          let pr ← t.rightOf np
          if nd = pr then t.modify np (fun n => { n with right := x })
          else pure t
    let t ← t.modify x (fun n => { n with right := nd })
    let t ← t.modify nd (fun n => { n with parent := x })
    pure (t.dump DumpEvent.DE_AFTER_RROT nd)

/-- `RBTree::rebalanceDUG`: one fixup step at `nd`; returns the node to continue from. -/
def rebalanceDUG (t : RBTree) (nd : Ptr) : Run (RBTree × Ptr) :=
  do
    let p ← t.parentOf nd
    let isLeft ← t.isLeftChild p
    let g ← t.parentOf p
    let uncle ← if isLeft then t.rightOf g else t.leftOf g
    let uncleRed ← if uncle ≠ none then t.isRed uncle else pure false
    if uncleRed then
      let t ← t.setBlack uncle
      let p ← t.parentOf nd
      let t ← t.setBlack p
      let p ← t.parentOf nd
      let g ← t.parentOf p
      let t ← t.setRed g
      let p ← t.parentOf nd
      let nd ← t.parentOf p
      pure (t.dump DumpEvent.DE_AFTER_RECOLOR1 nd, nd)
    else
      let p ← t.parentOf nd
      let nextoUncle ← if isLeft then t.rightOf p else t.leftOf p
      let (t, nd) ←
        if nd = nextoUncle ∧ nextoUncle ≠ none then do
          let nd ← t.parentOf nd
          let t ← if isLeft then rotLeft t nd else rotRight t nd
          pure (t, nd)
        else pure (t, nd)
      let t := t.dump DumpEvent.DE_AFTER_RECOLOR3D nd
      let p ← t.parentOf nd
      let t ← t.setBlack p
      let p ← t.parentOf nd
      let g ← t.parentOf p
      let t ← t.setRed g
      let p ← t.parentOf nd
      let g ← t.parentOf p
      let t ← if isLeft then rotRight t g else rotLeft t g
      pure (t.dump DumpEvent.DE_AFTER_RECOLOR3G nd, nd)

/-- The loop of `RBTree::rebalance`.  The guard is
`nd->_parent->_color == RED && nd->_parent`: the colour of the parent is read first. -/
def rebalanceLoop : Nat → RBTree → Ptr → Run RBTree
  | fuel, t, nd => do
    let p ← t.parentOf nd
    let pn ← t.load p
    if pn.color = Color.RED ∧ p ≠ none then
      match fuel with
      | 0 => throw (Failure.out_of_fuel, t)
      | fuel + 1 => do
        let (t, nd) ← rebalanceDUG t nd
        rebalanceLoop fuel t nd
    else pure t

/-- `RBTree::rebalance`. -/
def rebalance (fuel : Nat) (t : RBTree) (nd : Ptr) : Run RBTree :=
  do
    let t ← rebalanceLoop fuel t nd
    t.modify t.root (fun n => { n with color := Color.BLACK })

/-- `RBTree::insert`. -/
def insert (fuel : Nat) (t : RBTree) (key : Int) : Run RBTree :=
  do
    let (t, newNode) ← insertNewBstEl fuel t key
    let t := t.dump DumpEvent.DE_AFTER_BST_INS newNode
    let t ← rebalance fuel t newNode
    pure (t.dump DumpEvent.DE_AFTER_INSERT newNode)

/-- Modelled from the spec: `Node::predecessor` is declared in rbtree.h, which is not
part of the sources; §4.1 "rightmost node of the left subtree".  This is the walk to
the right, started at `p`. -/
def rightmostLoop (t : RBTree) : Nat → Ptr → Run Ptr
  | fuel, p => do
    let r ← t.rightOf p
    if r = none then pure p
    else
      match fuel with
      | 0 => throw (Failure.out_of_fuel, t)
      | fuel + 1 => rightmostLoop t fuel r

/-- Modelled from the spec: `Node::predecessor` of rbtree.h, §4.1 "rightmost node of the
left subtree — used only when both children are present during deletion". -/
def predecessor (fuel : Nat) (t : RBTree) (p : Ptr) : Run Ptr :=
  do
    let l ← t.leftOf p
    rightmostLoop t fuel l

/-- `delete nd`: the destructor `Node::~Node` deletes the left and the right child, then
the cell itself is released. -/
def destroy : Nat → RBTree → Ptr → Run RBTree
  | _, t, none => pure t
  | 0, t, some _ => throw (Failure.out_of_fuel, t)
  | fuel + 1, t, some a => do
    let n ← t.load (some a)
    let t ← destroy fuel t n.left
    let t ← destroy fuel t n.right
    pure { t with heap := t.heap.set a none }

/-- `RBTree::deleteNode`. -/
def deleteNode (fuel : Nat) (t : RBTree) (nd : Ptr) : Run RBTree :=
  if nd = none then pure t else destroy fuel t nd

/-- `RBTree::remove`.  The member `deleteFixUp` it calls is declared in rbtree.h and
defined nowhere in the sources, so it is an argument here. -/
def remove (deleteFixUp : RBTree → Ptr → Run RBTree) (fuel : Nat) (t : RBTree) (key : Int) :
    Run RBTree :=
  do
    let node ← find fuel t key
    if node = none then throw (Failure.logic_error, t)
    let r ← t.rightOf node
    let l ← t.leftOf node
    let (t, node) ←
      if r ≠ none ∧ l ≠ none then do
        let pred ← predecessor fuel t node
        let pn ← t.load pred
        let t ← t.modify node (fun n => { n with key := pn.key })
        pure (t, pred)
      else pure (t, node)
    let l ← t.leftOf node
    let (t, child) ←
      if l ≠ none then do
        let t ← t.modify node (fun n => { n with left := none })
        pure (t, l)
      else do
        let r ← t.rightOf node
        let t ← t.modify node (fun n => { n with right := none })
        pure (t, r)
    let t ←
      if child ≠ none then do
        let t ←
          if node = t.root then pure { t with root := child }
          else do
            let isL ← t.isLeftChild node
            let p ← t.parentOf node
            let t ←
              if isL then t.modify p (fun n => { n with left := child })
              else t.modify p (fun n => { n with right := child })
            let p ← t.parentOf node
            t.modify child (fun n => { n with parent := p })
        let b ← t.isBlack node
        if b then deleteFixUp t child else pure t
      else if node = t.root then pure { t with root := none }
      else do
        let b ← t.isBlack node
        let t ← if b then deleteFixUp t node else pure t
        let p ← t.parentOf node
        if p ≠ none then do
          let pl ← t.leftOf p
          let t ←
            if pl = node then t.modify p (fun n => { n with left := none })
            else do
              let pr ← t.rightOf p
              if pr = node then t.modify p (fun n => { n with right := none })
              else pure t
          t.modify node (fun n => { n with parent := none })
        else pure t
    deleteNode fuel t node

/-! ## Abstract trees and what it means for the heap to hold one -/

/-- A binary tree of node addresses with the key and the colour stored at each. -/
inductive Tree
  | nil
  | node (a : Nat) (c : Color) (l : Tree) (k : Int) (r : Tree)
deriving DecidableEq, Repr

/-- The pointer to the top node of a tree. -/
def Tree.ptr : Tree → Ptr
  | Tree.nil => none
  | Tree.node a _ _ _ _ => some a

/-- Addresses of the nodes, in order. -/
def Tree.addrs : Tree → List Nat
  | Tree.nil => []
  | Tree.node a _ l _ r => l.addrs ++ a :: r.addrs

/-- Keys of the nodes, in order (the in-order key sequence). -/
def Tree.keys : Tree → List Int
  | Tree.nil => []
  | Tree.node _ _ l k r => l.keys ++ k :: r.keys

/-- Number of nodes on the longest path from the top to a leaf. -/
def Tree.height : Tree → Nat
  | Tree.nil => 0
  | Tree.node _ _ l _ r => max l.height r.height + 1

/-- Number of nodes. -/
def Tree.size : Tree → Nat
  | Tree.nil => 0
  | Tree.node _ _ l _ r => l.size + 1 + r.size

/-- The child links of the heap, followed from the top of `tr`, spell out `tr` with
its keys and colours.  Parent references are not looked at. -/
def Shape (h : Heap) : Tree → Prop
  | Tree.nil => True
  | Tree.node a c l k r =>
    (match h.read a with
      | none => False
      | some n => n.key = k ∧ n.color = c ∧ n.left = l.ptr ∧ n.right = r.ptr)
    ∧ Shape h l ∧ Shape h r

/-- As `Shape`, and every node's parent reference points to the node holding it;
`par` is the parent reference of the top node. -/
def Linked (h : Heap) : Ptr → Tree → Prop
  | _, Tree.nil => True
  | par, Tree.node a c l k r =>
    h.read a = some ⟨k, c, l.ptr, r.ptr, par⟩ ∧ Linked h (some a) l ∧ Linked h (some a) r

/-- The tree object holds `tr`: the root reference points to its top and the child
links spell it out, no node occurring twice. -/
def RBTree.Holds (t : RBTree) (tr : Tree) : Prop :=
  t.root = tr.ptr ∧ Shape t.heap tr ∧ tr.addrs.Nodup

/-- The tree object holds `tr` and is consistently linked: as `Holds`, each present
child's parent reference points to the node holding it, the root's is absent. -/
def RBTree.WellLinked (t : RBTree) (tr : Tree) : Prop :=
  t.root = tr.ptr ∧ Linked t.heap none tr ∧ tr.addrs.Nodup

/-- Keys in binary-search-tree order: the in-order key sequence is strictly ascending. -/
def Tree.Ordered (tr : Tree) : Prop :=
  tr.keys.Pairwise (fun x y => x < y)

/-- The result of a left rotation at address `nd`, on the abstract tree. -/
def Tree.rotL (nd : Nat) : Tree → Tree
  | Tree.nil => Tree.nil
  | Tree.node a c l k r =>
    if a = nd then
      match r with
      | Tree.nil => Tree.node a c l k r
      | Tree.node y cy ly ky ry => Tree.node y cy (Tree.node a c l k ly) ky ry
    else Tree.node a c (Tree.rotL nd l) k (Tree.rotL nd r)

/-- The result of a right rotation at address `nd`, on the abstract tree. -/
def Tree.rotR (nd : Nat) : Tree → Tree
  | Tree.nil => Tree.nil
  | Tree.node a c l k r =>
    if a = nd then
      match l with
      | Tree.nil => Tree.node a c l k r
      | Tree.node x cx lx kx rx => Tree.node x cx lx kx (Tree.node a c rx k r)
    else Tree.node a c (Tree.rotR nd l) k (Tree.rotR nd r)

instance decShape (h : Heap) : (tr : Tree) → Decidable (Shape h tr)
  | Tree.nil => isTrue trivial
  | Tree.node a c l k r =>
    have := decShape h l
    have := decShape h r
    match hr : h.read a with
    | none => isFalse (by simp [Shape, hr])
    | some n =>
      decidable_of_iff
        ((n.key = k ∧ n.color = c ∧ n.left = l.ptr ∧ n.right = r.ptr) ∧ Shape h l ∧ Shape h r)
        (by simp [Shape, hr])

instance decLinked (h : Heap) : (par : Ptr) → (tr : Tree) → Decidable (Linked h par tr)
  | _, Tree.nil => isTrue trivial
  | par, Tree.node a c l k r =>
    have := decLinked h (some a) l
    have := decLinked h (some a) r
    decidable_of_iff
      (h.read a = some ⟨k, c, l.ptr, r.ptr, par⟩ ∧ Linked h (some a) l ∧ Linked h (some a) r)
      (by simp [Linked])

instance decHolds (t : RBTree) (tr : Tree) : Decidable (t.Holds tr) :=
  by unfold RBTree.Holds; exact inferInstance

instance decWellLinked (t : RBTree) (tr : Tree) : Decidable (t.WellLinked tr) :=
  by unfold RBTree.WellLinked; exact inferInstance

instance decOrdered (tr : Tree) : Decidable tr.Ordered :=
  by unfold Tree.Ordered; exact inferInstance

deriving instance DecidableEq for Except

/-- Colour of the top node; an absent node counts as BLACK. -/
def Tree.color : Tree → Color
  | Tree.nil => Color.BLACK
  | Tree.node _ c _ _ _ => c

/-- Invariant: the root is absent or BLACK. -/
def Tree.RootBlack (tr : Tree) : Prop :=
  tr.color = Color.BLACK

/-- Invariant: no RED node has a RED child (so no RED node has a RED parent). -/
def Tree.NoRedRed : Tree → Prop
  | Tree.nil => True
  | Tree.node _ c l _ r =>
    (c = Color.RED → l.color = Color.BLACK ∧ r.color = Color.BLACK) ∧ l.NoRedRed ∧ r.NoRedRed

/-- Number of BLACK nodes on the leftmost path from the top to a nil position. -/
def Tree.blackHeight : Tree → Nat
  | Tree.nil => 0
  | Tree.node _ c l _ _ => l.blackHeight + (if c = Color.BLACK then 1 else 0)

/-- Invariant: every path from the top to a nil position has the same number of BLACK
nodes. -/
def Tree.Balanced : Tree → Prop
  | Tree.nil => True
  | Tree.node _ _ l _ r => l.blackHeight = r.blackHeight ∧ l.Balanced ∧ r.Balanced

/-- The four red-black invariants of §8. -/
def Tree.RedBlack (tr : Tree) : Prop :=
  tr.RootBlack ∧ tr.NoRedRed ∧ tr.Balanced ∧ tr.Ordered

instance decNoRedRed : (tr : Tree) → Decidable tr.NoRedRed
  | Tree.nil => isTrue trivial
  | Tree.node _ c l _ r =>
    have := decNoRedRed l
    have := decNoRedRed r
    decidable_of_iff
      ((c = Color.RED → l.color = Color.BLACK ∧ r.color = Color.BLACK) ∧ l.NoRedRed ∧ r.NoRedRed)
      (by simp [Tree.NoRedRed])

instance decBalanced : (tr : Tree) → Decidable tr.Balanced
  | Tree.nil => isTrue trivial
  | Tree.node _ _ l _ r =>
    have := decBalanced l
    have := decBalanced r
    decidable_of_iff (l.blackHeight = r.blackHeight ∧ l.Balanced ∧ r.Balanced)
      (by simp [Tree.Balanced])

instance decRedBlack (tr : Tree) : Decidable tr.RedBlack :=
  by unfold Tree.RedBlack Tree.RootBlack; exact inferInstance

/-- The in-order key sequence read off the heap by following child links from `p`. -/
def inorderFrom (h : Heap) : Nat → Ptr → List Int
  | _, none => []
  | 0, some _ => []
  | fuel + 1, some a =>
    match h.read a with
    | none => []
    | some n => inorderFrom h fuel n.left ++ n.key :: inorderFrom h fuel n.right

/-- The in-order key sequence of the whole tree. -/
def RBTree.inorder (fuel : Nat) (t : RBTree) : List Int :=
  inorderFrom t.heap fuel t.root

/-- A tree with keys 10, 20, 30: the BLACK root 20 at address 0, RED leaves 10 and 30 at
addresses 1 and 2. -/
def sample3 : RBTree :=
  { heap := [some ⟨20, Color.BLACK, some 1, some 2, none⟩,
             some ⟨10, Color.RED, none, none, some 0⟩,
             some ⟨30, Color.RED, none, none, some 0⟩],
    root := some 0,
    dumper := none }

/-- The abstract tree held by `sample3`. -/
def sampleTree3 : Tree :=
  Tree.node 0 Color.BLACK (Tree.node 1 Color.RED Tree.nil 10 Tree.nil) 20
    (Tree.node 2 Color.RED Tree.nil 30 Tree.nil)

/-- Successive calls of `insert` on the same tree object, one per key of the list. -/
def insertAll (fuel : Nat) : RBTree → List Int → Run RBTree
  | t, [] => pure t
  | t, k :: ks => do
    let t ← insert fuel t k
    insertAll fuel t ks

/-- Colour of the parent of the reported node, in the tree as a dump record shows it. -/
def DumpRecord.parentColor (r : DumpRecord) : Option Color :=
  do
    let a ← r.nd
    let n ← r.heap.read a
    let p ← n.parent
    let pn ← r.heap.read p
    pure pn.color

/-- Colour of the grandparent of the reported node, in the tree as a dump record shows
it. -/
def DumpRecord.grandColor (r : DumpRecord) : Option Color :=
  do
    let a ← r.nd
    let n ← r.heap.read a
    let p ← n.parent
    let pn ← r.heap.read p
    let g ← pn.parent
    let gn ← r.heap.read g
    pure gn.color

/-- The root reference of the tree as a dump record shows it. -/
def DumpRecord.summary (r : DumpRecord) : DumpEvent × Ptr × Option Color × Option Color :=
  (r.event, r.root, r.parentColor, r.grandColor)

/-- A tree with keys 20, 30 and a dumper attached that has received nothing yet: the
BLACK root 20 at address 0 and its RED right child 30 at address 1. -/
def sample2 : RBTree :=
  { heap := [some ⟨20, Color.BLACK, none, some 1, none⟩,
             some ⟨30, Color.RED, none, none, some 0⟩],
    root := some 0,
    dumper := some [] }

/-- A tree with keys 10, 20: the root 20 of colour `c` at address 0 and its RED left
child 10 at address 1. -/
def sampleRootChild (c : Color) : RBTree :=
  { heap := [some ⟨20, c, some 1, none, none⟩,
             some ⟨10, Color.RED, none, none, some 0⟩],
    root := some 0,
    dumper := none }

/-- The abstract tree held by `sampleRootChild c`. -/
def sampleTreeRootChild (c : Color) : Tree :=
  Tree.node 0 c (Tree.node 1 Color.RED Tree.nil 10 Tree.nil) 20 Tree.nil

/-- A tree that consists of the single BLACK node 20 at address 0. -/
def sample1 : RBTree :=
  { heap := [some ⟨20, Color.BLACK, none, none, none⟩], root := some 0, dumper := none }

/-- `RBTree::Node::setLeft`, called on the node `this` with the argument `lf`.  The result
is the pointer the method returns (the previous left child, or `nullptr` when nothing was
assigned). -/
def setLeft (t : RBTree) (this : Ptr) (lf : Ptr) : Run (RBTree × Ptr) :=
  do
    let l ← t.leftOf this
    if l = lf then pure (t, none)
    else
      let t ←
        if lf ≠ none then do
          let lp ← t.parentOf lf
          let t ←
            if lp ≠ none then do
              let pl ← t.leftOf lp
              if pl = lf then t.modify lp (fun n => { n with left := none })
              else t.modify lp (fun n => { n with right := none })
            else pure t
          t.modify lf (fun n => { n with parent := this })
        else pure t
      let prevLeft ← t.leftOf this
      let t ← t.modify this (fun n => { n with left := lf })
      let t ←
        if prevLeft ≠ none then t.modify prevLeft (fun n => { n with parent := none })
        else pure t
      pure (t, prevLeft)

/-- `RBTree::Node::setRight`, called on the node `this` with the argument `rg`. -/
def setRight (t : RBTree) (this : Ptr) (rg : Ptr) : Run (RBTree × Ptr) :=
  do
    let r ← t.rightOf this
    if r = rg then pure (t, none)
    else
      let t ←
        if rg ≠ none then do
          let rp ← t.parentOf rg
          let t ←
            if rp ≠ none then do
              let pl ← t.leftOf rp
              if pl = rg then t.modify rp (fun n => { n with left := none })
              else t.modify rp (fun n => { n with right := none })
            else pure t
          t.modify rg (fun n => { n with parent := this })
        else pure t
      let prevRight ← t.rightOf this
      let t ← t.modify this (fun n => { n with right := rg })
      let t ←
        if prevRight ≠ none then t.modify prevRight (fun n => { n with parent := none })
        else pure t
      pure (t, prevRight)

/-- The links of the node `n` stored at address `a` are consistent: a present child
exists and its parent reference is `a`; a present parent exists and holds `a` in one of
its slots; the node does not have the same child in both slots. -/
def NodeLinked (h : Heap) (a : Nat) (n : Node) : Prop :=
  (∀ c ∈ n.left, ∃ nc ∈ h.read c, nc.parent = some a) ∧
  (∀ c ∈ n.right, ∃ nc ∈ h.read c, nc.parent = some a) ∧
  (∀ p ∈ n.parent, ∃ np ∈ h.read p, np.left = some a ∨ np.right = some a) ∧
  (n.left = n.right → n.left = none)

/-- A consistently linked set of nodes: every node of the heap has consistent links. -/
def HeapLinked (h : Heap) : Prop :=
  ∀ a, a < h.length → ∀ n ∈ h.read a, NodeLinked h a n

instance decNodeLinked (h : Heap) (a : Nat) (n : Node) : Decidable (NodeLinked h a n) :=
  by unfold NodeLinked; exact inferInstance

instance decHeapLinked (h : Heap) : Decidable (HeapLinked h) :=
  by unfold HeapLinked; exact inferInstance

/-- The heap with the node at address `a`, if there is one, replaced by its image under
`f`. -/
def Heap.upd (h : Heap) (a : Nat) (f : Node → Node) : Heap :=
  match h.read a with
  | none => h
  | some n => h.set a (some (f n))

/-- As `Heap.upd`, at the node a pointer refers to; nothing happens for `nullptr`. -/
def Heap.updOpt (h : Heap) (p : Ptr) (f : Node → Node) : Heap :=
  match p with
  | none => h
  | some a => h.upd a f

/-! ## Heap and search lemmas -/
theorem Heap.read_set_ne (h : Heap) (a b : Nat) (v : Option Node) (hab : a ≠ b) :
    Heap.read (h.set a v) b = Heap.read h b := by
  simp [Heap.read, List.getElem?_set_ne hab]

theorem Heap.read_set_eq (h : Heap) (a : Nat) (v : Option Node) (n : Node)
    (hr : Heap.read h a = some n) : Heap.read (h.set a v) a = v := by
  have hlt : a < h.length := by
    by_contra hc
    have : h[a]? = none := List.getElem?_eq_none (by omega)
    simp [Heap.read, this] at hr
  simp [Heap.read, List.getElem?_set, hlt]

theorem Heap.read_lt (h : Heap) (a : Nat) (n : Node) (hr : Heap.read h a = some n) :
    a < h.length := by
  by_contra hc
  have : h[a]? = none := List.getElem?_eq_none (by omega)
  simp [Heap.read, this] at hr

theorem shape_node (h : Heap) (a : Nat) (c : Color) (l : Tree) (k : Int) (r : Tree) :
    Shape h (Tree.node a c l k r) ↔
      ∃ n, Heap.read h a = some n ∧ n.key = k ∧ n.color = c ∧ n.left = l.ptr ∧
        n.right = r.ptr ∧ Shape h l ∧ Shape h r := by
  cases hr : Heap.read h a with
  | none => simp [Shape, hr]
  | some n => simp [Shape, hr, and_assoc]

theorem load_of_read (t : RBTree) (a : Nat) (n : Node) (hr : Heap.read t.heap a = some n) :
    t.load (some a) = Except.ok n := by
  simp [RBTree.load, hr, pure, Except.pure]

theorem findLoop_absent (t : RBTree) (key : Int) :
    ∀ (tr : Tree) (fuel : Nat), Shape t.heap tr → key ∉ tr.keys → tr.height ≤ fuel →
      findLoop t key fuel tr.ptr = Except.ok none := by
  intro tr
  induction tr with
  | nil => intro fuel _ _ _; cases fuel <;> rfl
  | node a c l k r ihl ihr =>
    intro fuel hs hk hf
    obtain ⟨n, hr, hkey, -, hl, hrr, hsl, hsr⟩ := (shape_node _ _ _ _ _ _).1 hs
    cases fuel with
    | zero => simp [Tree.height] at hf
    | succ fuel =>
      simp only [Tree.height] at hf
      simp only [Tree.keys, List.mem_append, List.mem_cons, not_or] at hk
      have h1 : ¬ key = n.key := by rw [hkey]; exact hk.2.1
      simp only [Tree.ptr, findLoop, load_of_read t a n hr, bind, Except.bind, h1, if_false, hl, hrr]
      split
      · exact ihl fuel hsl hk.1 (by omega)
      · exact ihr fuel hsr hk.2.2 (by omega)

theorem findLoop_present (t : RBTree) (key : Int) :
    ∀ (tr : Tree) (fuel : Nat), Shape t.heap tr → tr.Ordered → key ∈ tr.keys →
      tr.height ≤ fuel →
      ∃ a n, findLoop t key fuel tr.ptr = Except.ok (some a) ∧ a ∈ tr.addrs ∧
        Heap.read t.heap a = some n ∧ n.key = key := by
  intro tr
  induction tr with
  | nil => intro fuel _ _ hk _; simp [Tree.keys] at hk
  | node a c l k r ihl ihr =>
    intro fuel hs ho hk hf
    obtain ⟨n, hr, hkey, -, hl, hrr, hsl, hsr⟩ := (shape_node _ _ _ _ _ _).1 hs
    cases fuel with
    | zero => simp [Tree.height] at hf
    | succ fuel =>
      simp only [Tree.height] at hf
      simp only [Tree.Ordered, Tree.keys, List.pairwise_append, List.pairwise_cons,
        List.mem_cons] at ho
      obtain ⟨hol, ⟨hkr, hor⟩, hlr⟩ := ho
      simp only [Tree.keys, List.mem_append, List.mem_cons] at hk
      simp only [Tree.ptr, findLoop, load_of_read t a n hr, bind, Except.bind, hl, hrr, hkey]
      by_cases h1 : key = k
      · simp only [h1, if_true]
        exact ⟨a, n, rfl, by simp [Tree.addrs], hr, hkey⟩
      · simp only [h1, if_false]
        by_cases h2 : key < k
        · simp only [h2, if_true]
          have hkl : key ∈ l.keys := by
            rcases hk with hk | hk | hk
            · exact hk
            · exact absurd hk h1
            · exact absurd (hkr key hk) (by omega)
          obtain ⟨b, m, e1, e2, e3⟩ := ihl fuel hsl hol hkl (by omega)
          exact ⟨b, m, e1, by simp [Tree.addrs, e2], e3⟩
        · simp only [h2, if_false]
          have hkl : key ∈ r.keys := by
            rcases hk with hk | hk | hk
            · exact absurd (hlr key hk k (Or.inl rfl)) h2
            · exact absurd hk h1
            · exact hk
          obtain ⟨b, m, e1, e2, e3⟩ := ihr fuel hsr hor hkl (by omega)
          exact ⟨b, m, e1, by simp [Tree.addrs, e2], e3⟩

theorem Heap.read_set (h : Heap) (a b : Nat) (v : Option Node) :
    Heap.read (h.set a v) b = if a = b then (if a < h.length then v else none) else Heap.read h b := by
  by_cases hab : a = b
  · subst hab
    by_cases hlt : a < h.length
    · simp [Heap.read, List.getElem?_set, hlt]
    · have : (h.set a v)[a]? = none := List.getElem?_eq_none (by simp; omega)
      simp [Heap.read, this, hlt]
  · simp [Heap.read, List.getElem?_set_ne hab, hab]

@[simp] theorem RBTree.dump_heap (t : RBTree) (ev : DumpEvent) (p : Ptr) :
    (t.dump ev p).heap = t.heap := by
  unfold RBTree.dump; cases t.dumper <;> rfl

@[simp] theorem RBTree.dump_root (t : RBTree) (ev : DumpEvent) (p : Ptr) :
    (t.dump ev p).root = t.root := by
  unfold RBTree.dump; cases t.dumper <;> rfl

theorem rotLeft_run (t : RBTree) (nd y : Nat) (n ny : Node)
    (hn : Heap.read t.heap nd = some n) (hy : Heap.read t.heap y = some ny)
    (hny : n.right = some y) (hne : nd ≠ y)
    (hb : ∀ b, ny.left = some b → b ≠ nd ∧ b ≠ y ∧ ∃ nb, Heap.read t.heap b = some nb)
    (hp : ∀ pa, n.parent = some pa →
      pa ≠ nd ∧ pa ≠ y ∧ ny.left ≠ some pa ∧ ∃ np, Heap.read t.heap pa = some np) :
    ∃ t', rotLeft t (some nd) = Except.ok t' ∧
      Heap.read t'.heap nd = some { n with right := ny.left, parent := some y } ∧
      Heap.read t'.heap y = some { ny with left := some nd, parent := n.parent } ∧
      (∀ b nb, ny.left = some b → Heap.read t.heap b = some nb →
        Heap.read t'.heap b = some { nb with parent := some nd }) ∧
      (∀ pa np, n.parent = some pa → Heap.read t.heap pa = some np →
        Heap.read t'.heap pa =
          some (if np.left = some nd then { np with left := some y }
                else { np with right := some y })) ∧
      (∀ x, x ≠ nd → x ≠ y → ny.left ≠ some x → n.parent ≠ some x →
        Heap.read t'.heap x = Heap.read t.heap x) ∧
      t'.root = (if n.parent = none then some y else t.root) := by
  have hndlt := Heap.read_lt _ _ _ hn
  have hylt := Heap.read_lt _ _ _ hy
  generalize hrun : rotLeft t (some nd) = res
  rcases hyl : ny.left with _ | b
  · rcases hpar : n.parent with _ | pa
    · simp [rotLeft, RBTree.rightOf, RBTree.leftOf, RBTree.parentOf, RBTree.load, RBTree.modify,
          RBTree.store, Heap.read_set, bind, Except.bind, pure, Except.pure, hn, hy, hny, hne,
          hne.symm, hyl, hpar, hndlt, hylt] at hrun
      subst hrun
      refine ⟨_, rfl, ?_, ?_, ?_, ?_, ?_, ?_⟩
      · simp [Heap.read_set, hndlt, hylt, hne, hne.symm]
      · simp [Heap.read_set, hndlt, hylt, hne, hne.symm]
      · intro b1 nb1 e1
        cases e1
      · intro pa1 np1 e1
        cases e1
      · intro x h1 h2 h3 h4
        simp only [ne_eq, Option.some.injEq, not_false_eq_true, reduceCtorEq] at h3 h4
        simp [Heap.read_set, hndlt, hylt, hne, hne.symm, h1, h2, Ne.symm h1, Ne.symm h2]
      · simp
    · obtain ⟨hpa1, hpa2, -, np, hnp⟩ := hp pa hpar
      have hplt := Heap.read_lt _ _ _ hnp
      by_cases hleft : np.left = some nd
      · simp [rotLeft, RBTree.rightOf, RBTree.leftOf, RBTree.parentOf, RBTree.load, RBTree.modify,
          RBTree.store, Heap.read_set, bind, Except.bind, pure, Except.pure, hn, hy, hny, hne,
          hne.symm, hyl, hpar, hndlt, hylt, hnp, hplt, hpa1, hpa2, Ne.symm hpa1, Ne.symm hpa2, hleft] at hrun
        subst hrun
        refine ⟨_, rfl, ?_, ?_, ?_, ?_, ?_, ?_⟩
        · simp [Heap.read_set, hndlt, hylt, hne, hne.symm, hnp, hplt, hpa1, hpa2, Ne.symm hpa1, Ne.symm hpa2, hleft]
        · simp [Heap.read_set, hndlt, hylt, hne, hne.symm, hnp, hplt, hpa1, hpa2, Ne.symm hpa1, Ne.symm hpa2, hleft]
        · intro b1 nb1 e1
          cases e1
        · intro pa1 np1 e1 e2
          cases e1
          rw [hnp] at e2
          cases e2
          simp [Heap.read_set, hndlt, hylt, hne, hne.symm, hnp, hplt, hpa1, hpa2, Ne.symm hpa1, Ne.symm hpa2, hleft]
        · intro x h1 h2 h3 h4
          simp only [ne_eq, Option.some.injEq, not_false_eq_true, reduceCtorEq] at h3 h4
          simp [Heap.read_set, hndlt, hylt, hne, hne.symm, hnp, hplt, hpa1, hpa2, Ne.symm hpa1, Ne.symm hpa2, hleft, h1, h2, Ne.symm h1, Ne.symm h2, h4, Ne.symm h4]
        · simp
      · have hleft2 : ¬ some nd = np.left := fun h => hleft h.symm
        simp [rotLeft, RBTree.rightOf, RBTree.leftOf, RBTree.parentOf, RBTree.load, RBTree.modify,
          RBTree.store, Heap.read_set, bind, Except.bind, pure, Except.pure, hn, hy, hny, hne,
          hne.symm, hyl, hpar, hndlt, hylt, hnp, hplt, hpa1, hpa2, Ne.symm hpa1, Ne.symm hpa2, hleft, hleft2] at hrun
        subst hrun
        refine ⟨_, rfl, ?_, ?_, ?_, ?_, ?_, ?_⟩
        · simp [Heap.read_set, hndlt, hylt, hne, hne.symm, hnp, hplt, hpa1, hpa2, Ne.symm hpa1, Ne.symm hpa2, hleft, hleft2]
        · simp [Heap.read_set, hndlt, hylt, hne, hne.symm, hnp, hplt, hpa1, hpa2, Ne.symm hpa1, Ne.symm hpa2, hleft, hleft2]
        · intro b1 nb1 e1
          cases e1
        · intro pa1 np1 e1 e2
          cases e1
          rw [hnp] at e2
          cases e2
          simp [Heap.read_set, hndlt, hylt, hne, hne.symm, hnp, hplt, hpa1, hpa2, Ne.symm hpa1, Ne.symm hpa2, hleft, hleft2]
        · intro x h1 h2 h3 h4
          simp only [ne_eq, Option.some.injEq, not_false_eq_true, reduceCtorEq] at h3 h4
          simp [Heap.read_set, hndlt, hylt, hne, hne.symm, hnp, hplt, hpa1, hpa2, Ne.symm hpa1, Ne.symm hpa2, hleft, hleft2, h1, h2, Ne.symm h1, Ne.symm h2, h4, Ne.symm h4]
        · simp
  · obtain ⟨hb1, hb2, nb, hnb⟩ := hb b hyl
    have hblt := Heap.read_lt _ _ _ hnb
    rcases hpar : n.parent with _ | pa
    · simp [rotLeft, RBTree.rightOf, RBTree.leftOf, RBTree.parentOf, RBTree.load, RBTree.modify,
          RBTree.store, Heap.read_set, bind, Except.bind, pure, Except.pure, hn, hy, hny, hne,
          hne.symm, hyl, hpar, hndlt, hylt, hnb, hblt, hb1, hb2, Ne.symm hb1, Ne.symm hb2] at hrun
      subst hrun
      refine ⟨_, rfl, ?_, ?_, ?_, ?_, ?_, ?_⟩
      · simp [Heap.read_set, hndlt, hylt, hne, hne.symm, hnb, hblt, hb1, hb2, Ne.symm hb1, Ne.symm hb2]
      · simp [Heap.read_set, hndlt, hylt, hne, hne.symm, hnb, hblt, hb1, hb2, Ne.symm hb1, Ne.symm hb2]
      · intro b1 nb1 e1 e2
        cases e1
        rw [hnb] at e2
        cases e2
        simp [Heap.read_set, hndlt, hylt, hne, hne.symm, hnb, hblt, hb1, hb2, Ne.symm hb1, Ne.symm hb2]
      · intro pa1 np1 e1
        cases e1
      · intro x h1 h2 h3 h4
        simp only [ne_eq, Option.some.injEq, not_false_eq_true, reduceCtorEq] at h3 h4
        simp [Heap.read_set, hndlt, hylt, hne, hne.symm, hnb, hblt, hb1, hb2, Ne.symm hb1, Ne.symm hb2, h1, h2, Ne.symm h1, Ne.symm h2, h3, Ne.symm h3]
      · simp
    · obtain ⟨hpa1, hpa2, hpa3, np, hnp⟩ := hp pa hpar
      have hpb : b ≠ pa := fun h => hpa3 (by rw [hyl, h])
      have hplt := Heap.read_lt _ _ _ hnp
      by_cases hleft : np.left = some nd
      · simp [rotLeft, RBTree.rightOf, RBTree.leftOf, RBTree.parentOf, RBTree.load, RBTree.modify,
          RBTree.store, Heap.read_set, bind, Except.bind, pure, Except.pure, hn, hy, hny, hne,
          hne.symm, hyl, hpar, hndlt, hylt, hnb, hblt, hb1, hb2, Ne.symm hb1, Ne.symm hb2, hnp, hplt, hpa1, hpa2, Ne.symm hpa1, Ne.symm hpa2, hpb, Ne.symm hpb, hleft] at hrun
        subst hrun
        refine ⟨_, rfl, ?_, ?_, ?_, ?_, ?_, ?_⟩
        · simp [Heap.read_set, hndlt, hylt, hne, hne.symm, hnb, hblt, hb1, hb2, Ne.symm hb1, Ne.symm hb2, hnp, hplt, hpa1, hpa2, Ne.symm hpa1, Ne.symm hpa2, hpb, Ne.symm hpb, hleft]
        · simp [Heap.read_set, hndlt, hylt, hne, hne.symm, hnb, hblt, hb1, hb2, Ne.symm hb1, Ne.symm hb2, hnp, hplt, hpa1, hpa2, Ne.symm hpa1, Ne.symm hpa2, hpb, Ne.symm hpb, hleft]
        · intro b1 nb1 e1 e2
          cases e1
          rw [hnb] at e2
          cases e2
          simp [Heap.read_set, hndlt, hylt, hne, hne.symm, hnb, hblt, hb1, hb2, Ne.symm hb1, Ne.symm hb2, hnp, hplt, hpa1, hpa2, Ne.symm hpa1, Ne.symm hpa2, hpb, Ne.symm hpb, hleft]
        · intro pa1 np1 e1 e2
          cases e1
          rw [hnp] at e2
          cases e2
          simp [Heap.read_set, hndlt, hylt, hne, hne.symm, hnb, hblt, hb1, hb2, Ne.symm hb1, Ne.symm hb2, hnp, hplt, hpa1, hpa2, Ne.symm hpa1, Ne.symm hpa2, hpb, Ne.symm hpb, hleft]
        · intro x h1 h2 h3 h4
          simp only [ne_eq, Option.some.injEq, not_false_eq_true, reduceCtorEq] at h3 h4
          simp [Heap.read_set, hndlt, hylt, hne, hne.symm, hnb, hblt, hb1, hb2, Ne.symm hb1, Ne.symm hb2, hnp, hplt, hpa1, hpa2, Ne.symm hpa1, Ne.symm hpa2, hpb, Ne.symm hpb, hleft, h1, h2, Ne.symm h1, Ne.symm h2, h3, Ne.symm h3, h4, Ne.symm h4]
        · simp
      · have hleft2 : ¬ some nd = np.left := fun h => hleft h.symm
        simp [rotLeft, RBTree.rightOf, RBTree.leftOf, RBTree.parentOf, RBTree.load, RBTree.modify,
          RBTree.store, Heap.read_set, bind, Except.bind, pure, Except.pure, hn, hy, hny, hne,
          hne.symm, hyl, hpar, hndlt, hylt, hnb, hblt, hb1, hb2, Ne.symm hb1, Ne.symm hb2, hnp, hplt, hpa1, hpa2, Ne.symm hpa1, Ne.symm hpa2, hpb, Ne.symm hpb, hleft, hleft2] at hrun
        subst hrun
        refine ⟨_, rfl, ?_, ?_, ?_, ?_, ?_, ?_⟩
        · simp [Heap.read_set, hndlt, hylt, hne, hne.symm, hnb, hblt, hb1, hb2, Ne.symm hb1, Ne.symm hb2, hnp, hplt, hpa1, hpa2, Ne.symm hpa1, Ne.symm hpa2, hpb, Ne.symm hpb, hleft, hleft2]
        · simp [Heap.read_set, hndlt, hylt, hne, hne.symm, hnb, hblt, hb1, hb2, Ne.symm hb1, Ne.symm hb2, hnp, hplt, hpa1, hpa2, Ne.symm hpa1, Ne.symm hpa2, hpb, Ne.symm hpb, hleft, hleft2]
        · intro b1 nb1 e1 e2
          cases e1
          rw [hnb] at e2
          cases e2
          simp [Heap.read_set, hndlt, hylt, hne, hne.symm, hnb, hblt, hb1, hb2, Ne.symm hb1, Ne.symm hb2, hnp, hplt, hpa1, hpa2, Ne.symm hpa1, Ne.symm hpa2, hpb, Ne.symm hpb, hleft, hleft2]
        · intro pa1 np1 e1 e2
          cases e1
          rw [hnp] at e2
          cases e2
          simp [Heap.read_set, hndlt, hylt, hne, hne.symm, hnb, hblt, hb1, hb2, Ne.symm hb1, Ne.symm hb2, hnp, hplt, hpa1, hpa2, Ne.symm hpa1, Ne.symm hpa2, hpb, Ne.symm hpb, hleft, hleft2]
        · intro x h1 h2 h3 h4
          simp only [ne_eq, Option.some.injEq, not_false_eq_true, reduceCtorEq] at h3 h4
          simp [Heap.read_set, hndlt, hylt, hne, hne.symm, hnb, hblt, hb1, hb2, Ne.symm hb1, Ne.symm hb2, hnp, hplt, hpa1, hpa2, Ne.symm hpa1, Ne.symm hpa2, hpb, Ne.symm hpb, hleft, hleft2, h1, h2, Ne.symm h1, Ne.symm h2, h3, Ne.symm h3, h4, Ne.symm h4]
        · simp

theorem rotRight_run (t : RBTree) (nd y : Nat) (n ny : Node)
    (hn : Heap.read t.heap nd = some n) (hy : Heap.read t.heap y = some ny)
    (hny : n.left = some y) (hne : nd ≠ y)
    (hb : ∀ b, ny.right = some b → b ≠ nd ∧ b ≠ y ∧ ∃ nb, Heap.read t.heap b = some nb)
    (hp : ∀ pa, n.parent = some pa →
      pa ≠ nd ∧ pa ≠ y ∧ ny.right ≠ some pa ∧ ∃ np, Heap.read t.heap pa = some np) :
    ∃ t', rotRight t (some nd) = Except.ok t' ∧
      Heap.read t'.heap nd = some { n with left := ny.right, parent := some y } ∧
      Heap.read t'.heap y = some { ny with right := some nd, parent := n.parent } ∧
      (∀ b nb, ny.right = some b → Heap.read t.heap b = some nb →
        Heap.read t'.heap b = some { nb with parent := some nd }) ∧
      (∀ pa np, n.parent = some pa → Heap.read t.heap pa = some np →
        Heap.read t'.heap pa =
          some (if np.left = some nd then { np with left := some y }
                else if np.right = some nd then { np with right := some y } else np)) ∧
      (∀ x, x ≠ nd → x ≠ y → ny.right ≠ some x → n.parent ≠ some x →
        Heap.read t'.heap x = Heap.read t.heap x) ∧
      t'.root = (if n.parent = none then some y else t.root) := by
  have hndlt := Heap.read_lt _ _ _ hn
  have hylt := Heap.read_lt _ _ _ hy
  generalize hrun : rotRight t (some nd) = res
  rcases hyl : ny.right with _ | b
  · rcases hpar : n.parent with _ | pa
    · simp [rotRight, RBTree.rightOf, RBTree.leftOf, RBTree.parentOf, RBTree.load, RBTree.modify,
          RBTree.store, Heap.read_set, bind, Except.bind, pure, Except.pure, hn, hy, hny, hne,
          hne.symm, hyl, hpar, hndlt, hylt] at hrun
      subst hrun
      refine ⟨_, rfl, ?_, ?_, ?_, ?_, ?_, ?_⟩
      · simp [Heap.read_set, hndlt, hylt, hne, hne.symm]
      · simp [Heap.read_set, hndlt, hylt, hne, hne.symm]
      · intro b1 nb1 e1
        cases e1
      · intro pa1 np1 e1
        cases e1
      · intro x h1 h2 h3 h4
        simp only [ne_eq, Option.some.injEq, not_false_eq_true, reduceCtorEq] at h3 h4
        simp [Heap.read_set, hndlt, hylt, hne, hne.symm, h1, h2, Ne.symm h1, Ne.symm h2]
      · simp
    · obtain ⟨hpa1, hpa2, -, np, hnp⟩ := hp pa hpar
      have hplt := Heap.read_lt _ _ _ hnp
      by_cases hleft : np.left = some nd
      · simp [rotRight, RBTree.rightOf, RBTree.leftOf, RBTree.parentOf, RBTree.load, RBTree.modify,
          RBTree.store, Heap.read_set, bind, Except.bind, pure, Except.pure, hn, hy, hny, hne,
          hne.symm, hyl, hpar, hndlt, hylt, hnp, hplt, hpa1, hpa2, Ne.symm hpa1, Ne.symm hpa2, hleft] at hrun
        subst hrun
        refine ⟨_, rfl, ?_, ?_, ?_, ?_, ?_, ?_⟩
        · simp [Heap.read_set, hndlt, hylt, hne, hne.symm, hnp, hplt, hpa1, hpa2, Ne.symm hpa1, Ne.symm hpa2, hleft]
        · simp [Heap.read_set, hndlt, hylt, hne, hne.symm, hnp, hplt, hpa1, hpa2, Ne.symm hpa1, Ne.symm hpa2, hleft]
        · intro b1 nb1 e1
          cases e1
        · intro pa1 np1 e1 e2
          cases e1
          rw [hnp] at e2
          cases e2
          simp [Heap.read_set, hndlt, hylt, hne, hne.symm, hnp, hplt, hpa1, hpa2, Ne.symm hpa1, Ne.symm hpa2, hleft]
        · intro x h1 h2 h3 h4
          simp only [ne_eq, Option.some.injEq, not_false_eq_true, reduceCtorEq] at h3 h4
          simp [Heap.read_set, hndlt, hylt, hne, hne.symm, hnp, hplt, hpa1, hpa2, Ne.symm hpa1, Ne.symm hpa2, hleft, h1, h2, Ne.symm h1, Ne.symm h2, h4, Ne.symm h4]
        · simp
      · have hleft2 : ¬ some nd = np.left := fun h => hleft h.symm
        by_cases hright : np.right = some nd
        · simp [rotRight, RBTree.rightOf, RBTree.leftOf, RBTree.parentOf, RBTree.load, RBTree.modify,
          RBTree.store, Heap.read_set, bind, Except.bind, pure, Except.pure, hn, hy, hny, hne,
          hne.symm, hyl, hpar, hndlt, hylt, hnp, hplt, hpa1, hpa2, Ne.symm hpa1, Ne.symm hpa2, hleft, hleft2, hright] at hrun
          subst hrun
          refine ⟨_, rfl, ?_, ?_, ?_, ?_, ?_, ?_⟩
          · simp [Heap.read_set, hndlt, hylt, hne, hne.symm, hnp, hplt, hpa1, hpa2, Ne.symm hpa1, Ne.symm hpa2, hleft, hleft2, hright]
          · simp [Heap.read_set, hndlt, hylt, hne, hne.symm, hnp, hplt, hpa1, hpa2, Ne.symm hpa1, Ne.symm hpa2, hleft, hleft2, hright]
          · intro b1 nb1 e1
            cases e1
          · intro pa1 np1 e1 e2
            cases e1
            rw [hnp] at e2
            cases e2
            simp [Heap.read_set, hndlt, hylt, hne, hne.symm, hnp, hplt, hpa1, hpa2, Ne.symm hpa1, Ne.symm hpa2, hleft, hleft2, hright]
          · intro x h1 h2 h3 h4
            simp only [ne_eq, Option.some.injEq, not_false_eq_true, reduceCtorEq] at h3 h4
            simp [Heap.read_set, hndlt, hylt, hne, hne.symm, hnp, hplt, hpa1, hpa2, Ne.symm hpa1, Ne.symm hpa2, hleft, hleft2, hright, h1, h2, Ne.symm h1, Ne.symm h2, h4, Ne.symm h4]
          · simp
        · have hright2 : ¬ some nd = np.right := fun h => hright h.symm
          simp [rotRight, RBTree.rightOf, RBTree.leftOf, RBTree.parentOf, RBTree.load, RBTree.modify,
          RBTree.store, Heap.read_set, bind, Except.bind, pure, Except.pure, hn, hy, hny, hne,
          hne.symm, hyl, hpar, hndlt, hylt, hnp, hplt, hpa1, hpa2, Ne.symm hpa1, Ne.symm hpa2, hleft, hleft2, hright, hright2] at hrun
          subst hrun
          refine ⟨_, rfl, ?_, ?_, ?_, ?_, ?_, ?_⟩
          · simp [Heap.read_set, hndlt, hylt, hne, hne.symm, hnp, hplt, hpa1, hpa2, Ne.symm hpa1, Ne.symm hpa2, hleft, hleft2, hright, hright2]
          · simp [Heap.read_set, hndlt, hylt, hne, hne.symm, hnp, hplt, hpa1, hpa2, Ne.symm hpa1, Ne.symm hpa2, hleft, hleft2, hright, hright2]
          · intro b1 nb1 e1
            cases e1
          · intro pa1 np1 e1 e2
            cases e1
            rw [hnp] at e2
            cases e2
            simp [Heap.read_set, hndlt, hylt, hne, hne.symm, hnp, hplt, hpa1, hpa2, Ne.symm hpa1, Ne.symm hpa2, hleft, hleft2, hright, hright2]
          · intro x h1 h2 h3 h4
            simp only [ne_eq, Option.some.injEq, not_false_eq_true, reduceCtorEq] at h3 h4
            simp [Heap.read_set, hndlt, hylt, hne, hne.symm, hnp, hplt, hpa1, hpa2, Ne.symm hpa1, Ne.symm hpa2, hleft, hleft2, hright, hright2, h1, h2, Ne.symm h1, Ne.symm h2, h4, Ne.symm h4]
          · simp
  · obtain ⟨hb1, hb2, nb, hnb⟩ := hb b hyl
    have hblt := Heap.read_lt _ _ _ hnb
    rcases hpar : n.parent with _ | pa
    · simp [rotRight, RBTree.rightOf, RBTree.leftOf, RBTree.parentOf, RBTree.load, RBTree.modify,
          RBTree.store, Heap.read_set, bind, Except.bind, pure, Except.pure, hn, hy, hny, hne,
          hne.symm, hyl, hpar, hndlt, hylt, hnb, hblt, hb1, hb2, Ne.symm hb1, Ne.symm hb2] at hrun
      subst hrun
      refine ⟨_, rfl, ?_, ?_, ?_, ?_, ?_, ?_⟩
      · simp [Heap.read_set, hndlt, hylt, hne, hne.symm, hnb, hblt, hb1, hb2, Ne.symm hb1, Ne.symm hb2]
      · simp [Heap.read_set, hndlt, hylt, hne, hne.symm, hnb, hblt, hb1, hb2, Ne.symm hb1, Ne.symm hb2]
      · intro b1 nb1 e1 e2
        cases e1
        rw [hnb] at e2
        cases e2
        simp [Heap.read_set, hndlt, hylt, hne, hne.symm, hnb, hblt, hb1, hb2, Ne.symm hb1, Ne.symm hb2]
      · intro pa1 np1 e1
        cases e1
      · intro x h1 h2 h3 h4
        simp only [ne_eq, Option.some.injEq, not_false_eq_true, reduceCtorEq] at h3 h4
        simp [Heap.read_set, hndlt, hylt, hne, hne.symm, hnb, hblt, hb1, hb2, Ne.symm hb1, Ne.symm hb2, h1, h2, Ne.symm h1, Ne.symm h2, h3, Ne.symm h3]
      · simp
    · obtain ⟨hpa1, hpa2, hpa3, np, hnp⟩ := hp pa hpar
      have hpb : b ≠ pa := fun h => hpa3 (by rw [hyl, h])
      have hplt := Heap.read_lt _ _ _ hnp
      by_cases hleft : np.left = some nd
      · simp [rotRight, RBTree.rightOf, RBTree.leftOf, RBTree.parentOf, RBTree.load, RBTree.modify,
          RBTree.store, Heap.read_set, bind, Except.bind, pure, Except.pure, hn, hy, hny, hne,
          hne.symm, hyl, hpar, hndlt, hylt, hnb, hblt, hb1, hb2, Ne.symm hb1, Ne.symm hb2, hnp, hplt, hpa1, hpa2, Ne.symm hpa1, Ne.symm hpa2, hpb, Ne.symm hpb, hleft] at hrun
        subst hrun
        refine ⟨_, rfl, ?_, ?_, ?_, ?_, ?_, ?_⟩
        · simp [Heap.read_set, hndlt, hylt, hne, hne.symm, hnb, hblt, hb1, hb2, Ne.symm hb1, Ne.symm hb2, hnp, hplt, hpa1, hpa2, Ne.symm hpa1, Ne.symm hpa2, hpb, Ne.symm hpb, hleft]
        · simp [Heap.read_set, hndlt, hylt, hne, hne.symm, hnb, hblt, hb1, hb2, Ne.symm hb1, Ne.symm hb2, hnp, hplt, hpa1, hpa2, Ne.symm hpa1, Ne.symm hpa2, hpb, Ne.symm hpb, hleft]
        · intro b1 nb1 e1 e2
          cases e1
          rw [hnb] at e2
          cases e2
          simp [Heap.read_set, hndlt, hylt, hne, hne.symm, hnb, hblt, hb1, hb2, Ne.symm hb1, Ne.symm hb2, hnp, hplt, hpa1, hpa2, Ne.symm hpa1, Ne.symm hpa2, hpb, Ne.symm hpb, hleft]
        · intro pa1 np1 e1 e2
          cases e1
          rw [hnp] at e2
          cases e2
          simp [Heap.read_set, hndlt, hylt, hne, hne.symm, hnb, hblt, hb1, hb2, Ne.symm hb1, Ne.symm hb2, hnp, hplt, hpa1, hpa2, Ne.symm hpa1, Ne.symm hpa2, hpb, Ne.symm hpb, hleft]
        · intro x h1 h2 h3 h4
          simp only [ne_eq, Option.some.injEq, not_false_eq_true, reduceCtorEq] at h3 h4
          simp [Heap.read_set, hndlt, hylt, hne, hne.symm, hnb, hblt, hb1, hb2, Ne.symm hb1, Ne.symm hb2, hnp, hplt, hpa1, hpa2, Ne.symm hpa1, Ne.symm hpa2, hpb, Ne.symm hpb, hleft, h1, h2, Ne.symm h1, Ne.symm h2, h3, Ne.symm h3, h4, Ne.symm h4]
        · simp
      · have hleft2 : ¬ some nd = np.left := fun h => hleft h.symm
        by_cases hright : np.right = some nd
        · simp [rotRight, RBTree.rightOf, RBTree.leftOf, RBTree.parentOf, RBTree.load, RBTree.modify,
          RBTree.store, Heap.read_set, bind, Except.bind, pure, Except.pure, hn, hy, hny, hne,
          hne.symm, hyl, hpar, hndlt, hylt, hnb, hblt, hb1, hb2, Ne.symm hb1, Ne.symm hb2, hnp, hplt, hpa1, hpa2, Ne.symm hpa1, Ne.symm hpa2, hpb, Ne.symm hpb, hleft, hleft2, hright] at hrun
          subst hrun
          refine ⟨_, rfl, ?_, ?_, ?_, ?_, ?_, ?_⟩
          · simp [Heap.read_set, hndlt, hylt, hne, hne.symm, hnb, hblt, hb1, hb2, Ne.symm hb1, Ne.symm hb2, hnp, hplt, hpa1, hpa2, Ne.symm hpa1, Ne.symm hpa2, hpb, Ne.symm hpb, hleft, hleft2, hright]
          · simp [Heap.read_set, hndlt, hylt, hne, hne.symm, hnb, hblt, hb1, hb2, Ne.symm hb1, Ne.symm hb2, hnp, hplt, hpa1, hpa2, Ne.symm hpa1, Ne.symm hpa2, hpb, Ne.symm hpb, hleft, hleft2, hright]
          · intro b1 nb1 e1 e2
            cases e1
            rw [hnb] at e2
            cases e2
            simp [Heap.read_set, hndlt, hylt, hne, hne.symm, hnb, hblt, hb1, hb2, Ne.symm hb1, Ne.symm hb2, hnp, hplt, hpa1, hpa2, Ne.symm hpa1, Ne.symm hpa2, hpb, Ne.symm hpb, hleft, hleft2, hright]
          · intro pa1 np1 e1 e2
            cases e1
            rw [hnp] at e2
            cases e2
            simp [Heap.read_set, hndlt, hylt, hne, hne.symm, hnb, hblt, hb1, hb2, Ne.symm hb1, Ne.symm hb2, hnp, hplt, hpa1, hpa2, Ne.symm hpa1, Ne.symm hpa2, hpb, Ne.symm hpb, hleft, hleft2, hright]
          · intro x h1 h2 h3 h4
            simp only [ne_eq, Option.some.injEq, not_false_eq_true, reduceCtorEq] at h3 h4
            simp [Heap.read_set, hndlt, hylt, hne, hne.symm, hnb, hblt, hb1, hb2, Ne.symm hb1, Ne.symm hb2, hnp, hplt, hpa1, hpa2, Ne.symm hpa1, Ne.symm hpa2, hpb, Ne.symm hpb, hleft, hleft2, hright, h1, h2, Ne.symm h1, Ne.symm h2, h3, Ne.symm h3, h4, Ne.symm h4]
          · simp
        · have hright2 : ¬ some nd = np.right := fun h => hright h.symm
          simp [rotRight, RBTree.rightOf, RBTree.leftOf, RBTree.parentOf, RBTree.load, RBTree.modify,
          RBTree.store, Heap.read_set, bind, Except.bind, pure, Except.pure, hn, hy, hny, hne,
          hne.symm, hyl, hpar, hndlt, hylt, hnb, hblt, hb1, hb2, Ne.symm hb1, Ne.symm hb2, hnp, hplt, hpa1, hpa2, Ne.symm hpa1, Ne.symm hpa2, hpb, Ne.symm hpb, hleft, hleft2, hright, hright2] at hrun
          subst hrun
          refine ⟨_, rfl, ?_, ?_, ?_, ?_, ?_, ?_⟩
          · simp [Heap.read_set, hndlt, hylt, hne, hne.symm, hnb, hblt, hb1, hb2, Ne.symm hb1, Ne.symm hb2, hnp, hplt, hpa1, hpa2, Ne.symm hpa1, Ne.symm hpa2, hpb, Ne.symm hpb, hleft, hleft2, hright, hright2]
          · simp [Heap.read_set, hndlt, hylt, hne, hne.symm, hnb, hblt, hb1, hb2, Ne.symm hb1, Ne.symm hb2, hnp, hplt, hpa1, hpa2, Ne.symm hpa1, Ne.symm hpa2, hpb, Ne.symm hpb, hleft, hleft2, hright, hright2]
          · intro b1 nb1 e1 e2
            cases e1
            rw [hnb] at e2
            cases e2
            simp [Heap.read_set, hndlt, hylt, hne, hne.symm, hnb, hblt, hb1, hb2, Ne.symm hb1, Ne.symm hb2, hnp, hplt, hpa1, hpa2, Ne.symm hpa1, Ne.symm hpa2, hpb, Ne.symm hpb, hleft, hleft2, hright, hright2]
          · intro pa1 np1 e1 e2
            cases e1
            rw [hnp] at e2
            cases e2
            simp [Heap.read_set, hndlt, hylt, hne, hne.symm, hnb, hblt, hb1, hb2, Ne.symm hb1, Ne.symm hb2, hnp, hplt, hpa1, hpa2, Ne.symm hpa1, Ne.symm hpa2, hpb, Ne.symm hpb, hleft, hleft2, hright, hright2]
          · intro x h1 h2 h3 h4
            simp only [ne_eq, Option.some.injEq, not_false_eq_true, reduceCtorEq] at h3 h4
            simp [Heap.read_set, hndlt, hylt, hne, hne.symm, hnb, hblt, hb1, hb2, Ne.symm hb1, Ne.symm hb2, hnp, hplt, hpa1, hpa2, Ne.symm hpa1, Ne.symm hpa2, hpb, Ne.symm hpb, hleft, hleft2, hright, hright2, h1, h2, Ne.symm h1, Ne.symm h2, h3, Ne.symm h3, h4, Ne.symm h4]
          · simp

theorem Tree.ptr_mem_addrs (s : Tree) (z : Nat) (h : s.ptr = some z) : z ∈ s.addrs := by
  cases s with
  | nil => simp [Tree.ptr] at h
  | node a c l k r =>
    simp only [Tree.ptr, Option.some.injEq] at h
    simp [Tree.addrs, h]

theorem linked_mem (h : Heap) (x : Nat) :
    ∀ (s : Tree) (par : Ptr), Linked h par s → x ∈ s.addrs →
      ∃ nx, Heap.read h x = some nx ∧ (∀ z, nx.left = some z → z ∈ s.addrs) ∧
        (∀ z, nx.right = some z → z ∈ s.addrs) ∧
        ((nx.parent = par ∧ s.ptr = some x) ∨ ∃ q, nx.parent = some q ∧ q ∈ s.addrs) := by
  intro s
  induction s with
  | nil => intro par _ hx; simp [Tree.addrs] at hx
  | node a c l k r ihl ihr =>
    intro par hL hx
    obtain ⟨hr, hl, hrr⟩ := hL
    simp only [Tree.addrs, List.mem_append, List.mem_cons] at hx
    rcases hx with hx | hx | hx
    · obtain ⟨nx, e1, e2, e3, e4⟩ := ihl _ hl hx
      refine ⟨nx, e1, ?_, ?_, ?_⟩
      · intro z hz; simp [Tree.addrs, e2 z hz]
      · intro z hz; simp [Tree.addrs, e3 z hz]
      · right
        rcases e4 with ⟨e4, -⟩ | ⟨q, e4, e5⟩
        · exact ⟨a, e4, by simp [Tree.addrs]⟩
        · exact ⟨q, e4, by simp [Tree.addrs, e5]⟩
    · subst hx
      refine ⟨_, hr, ?_, ?_, ?_⟩
      · intro z hz; simp [Tree.addrs, Tree.ptr_mem_addrs l z hz]
      · intro z hz; simp [Tree.addrs, Tree.ptr_mem_addrs r z hz]
      · left; exact ⟨rfl, rfl⟩
    · obtain ⟨nx, e1, e2, e3, e4⟩ := ihr _ hrr hx
      refine ⟨nx, e1, ?_, ?_, ?_⟩
      · intro z hz; simp [Tree.addrs, e2 z hz]
      · intro z hz; simp [Tree.addrs, e3 z hz]
      · right
        rcases e4 with ⟨e4, -⟩ | ⟨q, e4, e5⟩
        · exact ⟨a, e4, by simp [Tree.addrs]⟩
        · exact ⟨q, e4, by simp [Tree.addrs, e5]⟩

theorem linked_frame (h h2 : Heap) :
    ∀ (s : Tree) (par : Ptr), Linked h par s →
      (∀ x, x ∈ s.addrs → Heap.read h2 x = Heap.read h x) → Linked h2 par s := by
  intro s
  induction s with
  | nil => intro par _ _; trivial
  | node a c l k r ihl ihr =>
    intro par hL hx
    obtain ⟨hr, hl, hrr⟩ := hL
    refine ⟨?_, ihl _ hl ?_, ihr _ hrr ?_⟩
    · rw [hx a (by simp [Tree.addrs]), hr]
    · intro x hx1; exact hx x (by simp [Tree.addrs, hx1])
    · intro x hx1; exact hx x (by simp [Tree.addrs, hx1])

theorem linked_reparent (h h2 : Heap) (s : Tree) (par par2 : Ptr) (hL : Linked h par s)
    (hnd : s.addrs.Nodup)
    (hx : ∀ x, x ∈ s.addrs → s.ptr ≠ some x → Heap.read h2 x = Heap.read h x)
    (hb : ∀ b nb, s.ptr = some b → Heap.read h b = some nb →
      Heap.read h2 b = some { nb with parent := par2 }) :
    Linked h2 par2 s := by
  cases s with
  | nil => trivial
  | node a c l k r =>
    obtain ⟨hr, hl, hrr⟩ := hL
    simp only [Tree.addrs] at hnd
    have hal : a ∉ l.addrs := fun hm =>
      (List.nodup_append.1 hnd).2.2 hm (by simp)
    have har : a ∉ r.addrs := fun hm =>
      ((List.nodup_cons.1 (List.nodup_append.1 hnd).2.1).1) hm
    refine ⟨?_, linked_frame h h2 l _ hl ?_, linked_frame h h2 r _ hrr ?_⟩
    · rw [hb a _ rfl hr]
    · intro x hx1
      exact hx x (by simp [Tree.addrs, hx1]) (by
        simp only [Tree.ptr, ne_eq, Option.some.injEq]
        intro e; exact hal (e ▸ hx1))
    · intro x hx1
      exact hx x (by simp [Tree.addrs, hx1]) (by
        simp only [Tree.ptr, ne_eq, Option.some.injEq]
        intro e; exact har (e ▸ hx1))

theorem Tree.rotL_not_mem (nd : Nat) :
    ∀ (s : Tree), nd ∉ s.addrs → Tree.rotL nd s = s := by
  intro s
  induction s with
  | nil => intro _; rfl
  | node a c l k r ihl ihr =>
    intro hx
    simp only [Tree.addrs, List.mem_append, List.mem_cons, not_or] at hx
    have : ¬ a = nd := fun e => hx.2.1 e.symm
    simp [Tree.rotL, this, ihl hx.1, ihr hx.2.2]

theorem Tree.rotL_addrs (nd : Nat) : ∀ (s : Tree), (Tree.rotL nd s).addrs = s.addrs := by
  intro s
  induction s with
  | nil => rfl
  | node a c l k r ihl ihr =>
    by_cases ha : a = nd
    · cases r with
      | nil => simp [Tree.rotL, ha]
      | node y cy ly ky ry => simp [Tree.rotL, ha, Tree.addrs]
    · simp [Tree.rotL, ha, Tree.addrs, ihl, ihr]

theorem Tree.rotL_keys (nd : Nat) : ∀ (s : Tree), (Tree.rotL nd s).keys = s.keys := by
  intro s
  induction s with
  | nil => rfl
  | node a c l k r ihl ihr =>
    by_cases ha : a = nd
    · cases r with
      | nil => simp [Tree.rotL, ha]
      | node y cy ly ky ry => simp [Tree.rotL, ha, Tree.keys]
    · simp [Tree.rotL, ha, Tree.keys, ihl, ihr]


theorem Tree.rotR_not_mem (nd : Nat) :
    ∀ (s : Tree), nd ∉ s.addrs → Tree.rotR nd s = s := by
  intro s
  induction s with
  | nil => intro _; rfl
  | node a c l k r ihl ihr =>
    intro hx
    simp only [Tree.addrs, List.mem_append, List.mem_cons, not_or] at hx
    have : ¬ a = nd := fun e => hx.2.1 e.symm
    simp [Tree.rotR, this, ihl hx.1, ihr hx.2.2]

theorem Tree.rotR_addrs (nd : Nat) : ∀ (s : Tree), (Tree.rotR nd s).addrs = s.addrs := by
  intro s
  induction s with
  | nil => rfl
  | node a c l k r ihl ihr =>
    by_cases ha : a = nd
    · cases l with
      | nil => simp [Tree.rotR, ha]
      | node y cy ly ky ry => simp [Tree.rotR, ha, Tree.addrs]
    · simp [Tree.rotR, ha, Tree.addrs, ihl, ihr]

theorem Tree.rotR_keys (nd : Nat) : ∀ (s : Tree), (Tree.rotR nd s).keys = s.keys := by
  intro s
  induction s with
  | nil => rfl
  | node a c l k r ihl ihr =>
    by_cases ha : a = nd
    · cases l with
      | nil => simp [Tree.rotR, ha]
      | node y cy ly ky ry => simp [Tree.rotR, ha, Tree.keys]
    · simp [Tree.rotR, ha, Tree.keys, ihl, ihr]

theorem nodup_node (l r : List Nat) (a : Nat) :
    (l ++ a :: r).Nodup ↔
      l.Nodup ∧ r.Nodup ∧ a ∉ l ∧ a ∉ r ∧ ∀ x, x ∈ l → x ∉ r := by
  rw [List.nodup_append, List.nodup_cons]
  constructor
  · rintro ⟨h1, ⟨h2, h3⟩, h4⟩
    refine ⟨h1, h3, ?_, h2, ?_⟩
    · intro hm; exact h4 hm (by simp)
    · intro x hx hx2; exact h4 hx (by simp [hx2])
  · rintro ⟨h1, h2, h3, h4, h5⟩
    refine ⟨h1, ⟨h4, h2⟩, ?_⟩
    intro x hx hx2
    rcases List.mem_cons.1 hx2 with e | e
    · exact h3 (e ▸ hx)
    · exact h5 x hx e

theorem rotL_linked (h h2 : Heap) (nd y : Nat) (n ny : Node)
    (hn : Heap.read h nd = some n) (hy : Heap.read h y = some ny) (hny : n.right = some y)
    (f1 : Heap.read h2 nd = some { n with right := ny.left, parent := some y })
    (f2 : Heap.read h2 y = some { ny with left := some nd, parent := n.parent })
    (f3 : ∀ b nb, ny.left = some b → Heap.read h b = some nb →
      Heap.read h2 b = some { nb with parent := some nd })
    (f4 : ∀ pa np, n.parent = some pa → Heap.read h pa = some np →
      Heap.read h2 pa =
        some (if np.left = some nd then { np with left := some y }
              else { np with right := some y }))
    (f5 : ∀ x, x ≠ nd → x ≠ y → ny.left ≠ some x → n.parent ≠ some x →
      Heap.read h2 x = Heap.read h x) :
    ∀ (s : Tree) (par : Ptr), Linked h par s → s.addrs.Nodup →
      (∀ q, par = some q → q ∉ s.addrs) → nd ∈ s.addrs →
      Linked h2 par (Tree.rotL nd s) ∧
        (Tree.rotL nd s).ptr = (if s.ptr = some nd then some y else s.ptr) := by
  intro s
  induction s with
  | nil => intro par _ _ _ hx; simp [Tree.addrs] at hx
  | node a c l k r ihl ihr =>
    intro par hL hnd hpar hx
    obtain ⟨hr, hl, hrr⟩ := hL
    simp only [Tree.addrs] at hnd hpar hx
    obtain ⟨hln, hrn, hal, har, hlr⟩ := (nodup_node _ _ _).1 hnd
    by_cases ha : a = nd
    · subst ha
      have en : n = ⟨k, c, l.ptr, r.ptr, par⟩ := by
        rw [hn] at hr; exact Option.some.inj hr
      subst en
      simp only at hny f1 f2 f4 f5
      cases r with
      | nil => simp [Tree.ptr] at hny
      | node y1 cy ly ky ry =>
        simp only [Tree.ptr, Option.some.injEq] at hny
        subst hny
        obtain ⟨hyr, hly, hry⟩ := hrr
        have eny : ny = ⟨ky, cy, ly.ptr, ry.ptr, some a⟩ := by
          rw [hy] at hyr; exact Option.some.inj hyr
        subst eny
        simp only at f1 f2 f3 f5
        simp only [Tree.addrs] at hrn har hlr hpar
        obtain ⟨hlyn, hryn, hyly, hyry, hlyry⟩ := (nodup_node _ _ _).1 hrn
        simp only [List.mem_append, List.mem_cons, not_or] at har hlr hpar
        refine ⟨?_, by simp [Tree.rotL, Tree.ptr]⟩
        simp only [Tree.rotL, if_true]
        refine ⟨by simpa [Tree.ptr] using f2, ⟨by simpa [Tree.ptr] using f1, ?_, ?_⟩, ?_⟩
        · refine linked_frame h h2 l _ hl ?_
          intro x hxl
          refine f5 x ?_ ?_ ?_ ?_
          · intro e; exact hal (e ▸ hxl)
          · exact (hlr x hxl).2.1
          · intro e; exact (hlr x hxl).1 (Tree.ptr_mem_addrs ly x e)
          · intro e; exact (hpar x e).1 hxl
        · refine linked_reparent h h2 ly _ _ hly hlyn ?_ ?_
          · intro x hxl hroot
            refine f5 x ?_ ?_ ?_ ?_
            · intro e; exact har.1 (e ▸ hxl)
            · intro e; exact hyly (e ▸ hxl)
            · exact hroot
            · intro e; exact (hpar x e).2.2.1 hxl
          · intro b nb e1 e2
            exact f3 b nb e1 e2
        · refine linked_frame h h2 ry _ hry ?_
          intro x hxl
          refine f5 x ?_ ?_ ?_ ?_
          · intro e; exact har.2.2 (e ▸ hxl)
          · intro e; exact hyry (e ▸ hxl)
          · intro e; exact hlyry x (Tree.ptr_mem_addrs ly x e) hxl
          · intro e; exact (hpar x e).2.2.2.2 hxl
    · have hnda : nd ≠ a := fun e => ha e.symm
      simp only [List.mem_append, List.mem_cons, hnda, false_or] at hx
      simp only [List.mem_append, List.mem_cons, not_or] at hpar
      rcases hx with hx | hx
      · -- the node is in the left subtree
        have hxr : nd ∉ r.addrs := hlr nd hx
        obtain ⟨ih1, ih2⟩ := ihl (some a) hl hln (by intro q e; cases e; exact hal) hx
        obtain ⟨nx, e1, e2, e3, e4⟩ := linked_mem h nd l (some a) hl hx
        rw [hn] at e1; cases e1
        have hyl : y ∈ l.addrs := e3 y hny
        obtain ⟨nx, g1, g2, g3, g4⟩ := linked_mem h y l (some a) hl hyl
        rw [hy] at g1; cases g1
        simp only [Tree.rotL, ha, if_false, Tree.rotL_not_mem nd r hxr, Tree.ptr]
        refine ⟨⟨?_, ih1, ?_⟩, ?_⟩
        · by_cases hroot : l.ptr = some nd
          · have hp : n.parent = some a := by
              rcases e4 with ⟨e4, -⟩ | ⟨q, e4, e5⟩
              · exact e4
              · cases l with
                | nil => simp [Tree.ptr] at hroot
                | node a1 c1 l1 k1 r1 =>
                  simp only [Tree.ptr, Option.some.injEq] at hroot
                  subst hroot
                  obtain ⟨hr1, -, -⟩ := hl
                  rw [hn] at hr1; cases hr1; rfl
            rw [f4 a _ hp hr, ih2]
            simp [hroot]
          · have hp : n.parent ≠ some a := by
              rcases e4 with ⟨-, e4⟩ | ⟨q, e4, e5⟩
              · exact absurd e4 hroot
              · rw [e4]; intro e; cases e; exact hal e5
            rw [f5 a ha (fun e => hal (e ▸ hyl)) (fun e => hal (g2 a e)) hp, hr, ih2]
            simp [hroot]
        · refine linked_frame h h2 r _ hrr ?_
          intro x hxr1
          refine f5 x ?_ ?_ ?_ ?_
          · intro e; exact hxr (e ▸ hxr1)
          · intro e; exact hlr y hyl (e ▸ hxr1)
          · intro e; exact hlr x (g2 x e) hxr1
          · intro e
            rcases e4 with ⟨e4, -⟩ | ⟨q, e4, e5⟩
            · rw [e4] at e; cases e; exact har hxr1
            · rw [e4] at e; cases e; exact hlr x e5 hxr1
        · simp [hnda.symm]
      · -- the node is in the right subtree
        have hxl : nd ∉ l.addrs := fun hm => hlr nd hm hx
        obtain ⟨ih1, ih2⟩ := ihr (some a) hrr hrn (by intro q e; cases e; exact har) hx
        obtain ⟨nx, e1, e2, e3, e4⟩ := linked_mem h nd r (some a) hrr hx
        rw [hn] at e1; cases e1
        have hyl : y ∈ r.addrs := e3 y hny
        obtain ⟨nx, g1, g2, g3, g4⟩ := linked_mem h y r (some a) hrr hyl
        rw [hy] at g1; cases g1
        have hlroot : l.ptr ≠ some nd := fun e => hxl (Tree.ptr_mem_addrs l nd e)
        simp only [Tree.rotL, ha, if_false, Tree.rotL_not_mem nd l hxl, Tree.ptr]
        refine ⟨⟨?_, ?_, ih1⟩, ?_⟩
        · by_cases hroot : r.ptr = some nd
          · have hp : n.parent = some a := by
              rcases e4 with ⟨e4, -⟩ | ⟨q, e4, e5⟩
              · exact e4
              · cases r with
                | nil => simp [Tree.ptr] at hroot
                | node a1 c1 l1 k1 r1 =>
                  simp only [Tree.ptr, Option.some.injEq] at hroot
                  subst hroot
                  obtain ⟨hr1, -, -⟩ := hrr
                  rw [hn] at hr1; cases hr1; rfl
            rw [f4 a _ hp hr, ih2]
            simp [hroot, hlroot]
          · have hp : n.parent ≠ some a := by
              rcases e4 with ⟨-, e4⟩ | ⟨q, e4, e5⟩
              · exact absurd e4 hroot
              · rw [e4]; intro e; cases e; exact har e5
            rw [f5 a ha (fun e => har (e ▸ hyl)) (fun e => har (g2 a e)) hp, hr, ih2]
            simp [hroot]
        · refine linked_frame h h2 l _ hl ?_
          intro x hxl1
          refine f5 x ?_ ?_ ?_ ?_
          · intro e; exact hxl (e ▸ hxl1)
          · intro e; exact hlr x hxl1 (e ▸ hyl)
          · intro e; exact hlr x hxl1 (g2 x e)
          · intro e
            rcases e4 with ⟨e4, -⟩ | ⟨q, e4, e5⟩
            · rw [e4] at e; cases e; exact hal hxl1
            · rw [e4] at e; cases e; exact hlr x hxl1 e5
        · simp [hnda.symm]

theorem rotR_linked (h h2 : Heap) (nd y : Nat) (n ny : Node)
    (hn : Heap.read h nd = some n) (hy : Heap.read h y = some ny) (hny : n.left = some y)
    (f1 : Heap.read h2 nd = some { n with left := ny.right, parent := some y })
    (f2 : Heap.read h2 y = some { ny with right := some nd, parent := n.parent })
    (f3 : ∀ b nb, ny.right = some b → Heap.read h b = some nb →
      Heap.read h2 b = some { nb with parent := some nd })
    (f4 : ∀ pa np, n.parent = some pa → Heap.read h pa = some np →
      Heap.read h2 pa =
        some (if np.left = some nd then { np with left := some y }
              else if np.right = some nd then { np with right := some y } else np))
    (f5 : ∀ x, x ≠ nd → x ≠ y → ny.right ≠ some x → n.parent ≠ some x →
      Heap.read h2 x = Heap.read h x) :
    ∀ (s : Tree) (par : Ptr), Linked h par s → s.addrs.Nodup →
      (∀ q, par = some q → q ∉ s.addrs) → nd ∈ s.addrs →
      Linked h2 par (Tree.rotR nd s) ∧
        (Tree.rotR nd s).ptr = (if s.ptr = some nd then some y else s.ptr) := by
  intro s
  induction s with
  | nil => intro par _ _ _ hx; simp [Tree.addrs] at hx
  | node a c l k r ihl ihr =>
    intro par hL hnd hpar hx
    obtain ⟨hr, hl, hrr⟩ := hL
    simp only [Tree.addrs] at hnd hpar hx
    obtain ⟨hln, hrn, hal, har, hlr⟩ := (nodup_node _ _ _).1 hnd
    by_cases ha : a = nd
    · subst ha
      have en : n = ⟨k, c, l.ptr, r.ptr, par⟩ := by
        rw [hn] at hr; exact Option.some.inj hr
      subst en
      simp only at hny f1 f2 f4 f5
      cases l with
      | nil => simp [Tree.ptr] at hny
      | node y1 cy ly ky ry =>
        simp only [Tree.ptr, Option.some.injEq] at hny
        subst hny
        obtain ⟨hyr, hly, hry⟩ := hl
        have eny : ny = ⟨ky, cy, ly.ptr, ry.ptr, some a⟩ := by
          rw [hy] at hyr; exact Option.some.inj hyr
        subst eny
        simp only at f1 f2 f3 f5
        simp only [Tree.addrs] at hln hal hlr hpar
        obtain ⟨hlyn, hryn, hyly, hyry, hlyry⟩ := (nodup_node _ _ _).1 hln
        simp only [List.mem_append, List.mem_cons, not_or] at hal hlr hpar
        refine ⟨?_, by simp [Tree.rotR, Tree.ptr]⟩
        simp only [Tree.rotR, if_true]
        refine ⟨by simpa [Tree.ptr] using f2, ?_, ⟨by simpa [Tree.ptr] using f1, ?_, ?_⟩⟩
        · refine linked_frame h h2 ly _ hly ?_
          intro x hxl
          refine f5 x ?_ ?_ ?_ ?_
          · intro e; exact hal.1 (e ▸ hxl)
          · intro e; exact hyly (e ▸ hxl)
          · intro e; exact hlyry x hxl (Tree.ptr_mem_addrs ry x e)
          · intro e; exact (hpar x e).1.1 hxl
        · refine linked_reparent h h2 ry _ _ hry hryn ?_ ?_
          · intro x hxl hroot
            refine f5 x ?_ ?_ ?_ ?_
            · intro e; exact hal.2.2 (e ▸ hxl)
            · intro e; exact hyry (e ▸ hxl)
            · exact hroot
            · intro e; exact (hpar x e).1.2.2 hxl
          · intro b nb e1 e2
            exact f3 b nb e1 e2
        · refine linked_frame h h2 r _ hrr ?_
          intro x hxl
          refine f5 x ?_ ?_ ?_ ?_
          · intro e; exact har (e ▸ hxl)
          · intro e; exact hlr x (Or.inr (Or.inl e)) hxl
          · intro e; exact hlr x (Or.inr (Or.inr (Tree.ptr_mem_addrs ry x e))) hxl
          · intro e; exact (hpar x e).2.2 hxl
    · have hnda : nd ≠ a := fun e => ha e.symm
      simp only [List.mem_append, List.mem_cons, hnda, false_or] at hx
      simp only [List.mem_append, List.mem_cons, not_or] at hpar
      rcases hx with hx | hx
      · -- the node is in the left subtree
        have hxr : nd ∉ r.addrs := hlr nd hx
        obtain ⟨ih1, ih2⟩ := ihl (some a) hl hln (by intro q e; cases e; exact hal) hx
        obtain ⟨nx, e1, e2, e3, e4⟩ := linked_mem h nd l (some a) hl hx
        rw [hn] at e1; cases e1
        have hyl : y ∈ l.addrs := e2 y hny
        obtain ⟨nx, g1, g2, g3, g4⟩ := linked_mem h y l (some a) hl hyl
        rw [hy] at g1; cases g1
        simp only [Tree.rotR, ha, if_false, Tree.rotR_not_mem nd r hxr, Tree.ptr]
        refine ⟨⟨?_, ih1, ?_⟩, ?_⟩
        · by_cases hroot : l.ptr = some nd
          · have hp : n.parent = some a := by
              rcases e4 with ⟨e4, -⟩ | ⟨q, e4, e5⟩
              · exact e4
              · cases l with
                | nil => simp [Tree.ptr] at hroot
                | node a1 c1 l1 k1 r1 =>
                  simp only [Tree.ptr, Option.some.injEq] at hroot
                  subst hroot
                  obtain ⟨hr1, -, -⟩ := hl
                  rw [hn] at hr1; cases hr1; rfl
            rw [f4 a _ hp hr, ih2]
            simp [hroot]
          · have hp : n.parent ≠ some a := by
              rcases e4 with ⟨-, e4⟩ | ⟨q, e4, e5⟩
              · exact absurd e4 hroot
              · rw [e4]; intro e; cases e; exact hal e5
            rw [f5 a ha (fun e => hal (e ▸ hyl)) (fun e => hal (g3 a e)) hp, hr, ih2]
            simp [hroot]
        · refine linked_frame h h2 r _ hrr ?_
          intro x hxr1
          refine f5 x ?_ ?_ ?_ ?_
          · intro e; exact hxr (e ▸ hxr1)
          · intro e; exact hlr y hyl (e ▸ hxr1)
          · intro e; exact hlr x (g3 x e) hxr1
          · intro e
            rcases e4 with ⟨e4, -⟩ | ⟨q, e4, e5⟩
            · rw [e4] at e; cases e; exact har hxr1
            · rw [e4] at e; cases e; exact hlr x e5 hxr1
        · simp [hnda.symm]
      · -- the node is in the right subtree
        have hxl : nd ∉ l.addrs := fun hm => hlr nd hm hx
        obtain ⟨ih1, ih2⟩ := ihr (some a) hrr hrn (by intro q e; cases e; exact har) hx
        obtain ⟨nx, e1, e2, e3, e4⟩ := linked_mem h nd r (some a) hrr hx
        rw [hn] at e1; cases e1
        have hyl : y ∈ r.addrs := e2 y hny
        obtain ⟨nx, g1, g2, g3, g4⟩ := linked_mem h y r (some a) hrr hyl
        rw [hy] at g1; cases g1
        have hlroot : l.ptr ≠ some nd := fun e => hxl (Tree.ptr_mem_addrs l nd e)
        simp only [Tree.rotR, ha, if_false, Tree.rotR_not_mem nd l hxl, Tree.ptr]
        refine ⟨⟨?_, ?_, ih1⟩, ?_⟩
        · by_cases hroot : r.ptr = some nd
          · have hp : n.parent = some a := by
              rcases e4 with ⟨e4, -⟩ | ⟨q, e4, e5⟩
              · exact e4
              · cases r with
                | nil => simp [Tree.ptr] at hroot
                | node a1 c1 l1 k1 r1 =>
                  simp only [Tree.ptr, Option.some.injEq] at hroot
                  subst hroot
                  obtain ⟨hr1, -, -⟩ := hrr
                  rw [hn] at hr1; cases hr1; rfl
            rw [f4 a _ hp hr, ih2]
            simp [hroot, hlroot]
          · have hp : n.parent ≠ some a := by
              rcases e4 with ⟨-, e4⟩ | ⟨q, e4, e5⟩
              · exact absurd e4 hroot
              · rw [e4]; intro e; cases e; exact har e5
            rw [f5 a ha (fun e => har (e ▸ hyl)) (fun e => har (g3 a e)) hp, hr, ih2]
            simp [hroot]
        · refine linked_frame h h2 l _ hl ?_
          intro x hxl1
          refine f5 x ?_ ?_ ?_ ?_
          · intro e; exact hxl (e ▸ hxl1)
          · intro e; exact hlr x hxl1 (e ▸ hyl)
          · intro e; exact hlr x hxl1 (g3 x e)
          · intro e
            rcases e4 with ⟨e4, -⟩ | ⟨q, e4, e5⟩
            · rw [e4] at e; cases e; exact hal hxl1
            · rw [e4] at e; cases e; exact hlr x hxl1 e5
        · simp [hnda.symm]

theorem linked_sub (h : Heap) (nd : Nat) :
    ∀ (s : Tree) (par : Ptr), Linked h par s → s.addrs.Nodup →
      (∀ q, par = some q → q ∉ s.addrs ∧ ∃ nq, Heap.read h q = some nq) → nd ∈ s.addrs →
      ∃ par1 c l k r, Linked h par1 (Tree.node nd c l k r) ∧
        (Tree.node nd c l k r).addrs.Nodup ∧
        (∀ q, par1 = some q →
          q ∉ (Tree.node nd c l k r).addrs ∧ ∃ nq, Heap.read h q = some nq) := by
  intro s
  induction s with
  | nil => intro par _ _ _ hx; simp [Tree.addrs] at hx
  | node a c l k r ihl ihr =>
    intro par hL hnd hpar hx
    by_cases ha : a = nd
    · subst ha
      exact ⟨par, c, l, k, r, hL, hnd, hpar⟩
    · obtain ⟨hr, hl, hrr⟩ := hL
      simp only [Tree.addrs] at hnd hx
      obtain ⟨hln, hrn, hal, har, hlr⟩ := (nodup_node _ _ _).1 hnd
      have hnda : nd ≠ a := fun e => ha e.symm
      simp only [List.mem_append, List.mem_cons, hnda, false_or] at hx
      rcases hx with hx | hx
      · exact ihl (some a) hl hln (by intro q e; cases e; exact ⟨hal, _, hr⟩) hx
      · exact ihr (some a) hrr hrn (by intro q e; cases e; exact ⟨har, _, hr⟩) hx

theorem rotLeft_wellLinked (t : RBTree) (tr : Tree) (nd y : Nat) (n : Node)
    (hw : t.WellLinked tr) (hmem : nd ∈ tr.addrs) (hn : Heap.read t.heap nd = some n)
    (hny : n.right = some y) :
    ∃ t', rotLeft t (some nd) = Except.ok t' ∧ t'.WellLinked (Tree.rotL nd tr) := by
  obtain ⟨hroot, hL, hnd⟩ := hw
  obtain ⟨par1, c, l, k, r, hsub, hsn, hsp⟩ :=
    linked_sub t.heap nd tr none hL hnd (by intro q e; cases e) hmem
  obtain ⟨hr, hl, hrr⟩ := hsub
  have en : n = ⟨k, c, l.ptr, r.ptr, par1⟩ := by
    rw [hn] at hr; exact Option.some.inj hr
  subst en
  simp only at hny
  cases r with
  | nil => simp [Tree.ptr] at hny
  | node y1 cy ly ky ry =>
    simp only [Tree.ptr, Option.some.injEq] at hny
    subst hny
    obtain ⟨hyr, hly, hry⟩ := hrr
    simp only [Tree.addrs] at hsn hsp
    obtain ⟨hln, hrn, hal, har, hlr⟩ := (nodup_node _ _ _).1 hsn
    obtain ⟨hlyn, hryn, hyly, hyry, hlyry⟩ := (nodup_node _ _ _).1 hrn
    simp only [List.mem_append, List.mem_cons, not_or] at har hlr hsp
    obtain ⟨t', hrun, f1, f2, f3, f4, f5, f6⟩ :=
      rotLeft_run t nd y1 _ _ hn hyr rfl har.2.1
        (by
          intro b hb
          simp only at hb
          have hbm := Tree.ptr_mem_addrs ly b hb
          obtain ⟨nb, hnb, -⟩ := linked_mem t.heap b ly _ hly hbm
          exact ⟨fun e => har.1 (e ▸ hbm), fun e => hyly (e ▸ hbm), nb, hnb⟩)
        (by
          intro pa hpa
          simp only at hpa
          obtain ⟨hq, nq⟩ := hsp pa hpa
          refine ⟨hq.2.1, hq.2.2.2.1, ?_, nq⟩
          intro e
          exact hq.2.2.1 (Tree.ptr_mem_addrs ly pa e))
    obtain ⟨g1, g2⟩ :=
      rotL_linked t.heap t'.heap nd y1 _ _ hn hyr rfl f1 f2 f3 f4 f5 tr none hL hnd
        (by intro q e; cases e) hmem
    refine ⟨t', hrun, ?_, g1, by rw [Tree.rotL_addrs]; exact hnd⟩
    rw [f6, g2, ← hroot]
    obtain ⟨nx, e1, -, -, e4⟩ := linked_mem t.heap nd tr none hL hmem
    rw [hn] at e1; cases e1
    simp only at e4 ⊢
    by_cases hp : par1 = none
    · rcases e4 with ⟨-, e4⟩ | ⟨q, e4, -⟩
      · simp [hp, hroot, e4]
      · rw [hp] at e4; cases e4
    · have : tr.ptr ≠ some nd := by
        intro e
        cases tr with
        | nil => simp [Tree.ptr] at e
        | node a1 c1 l1 k1 r1 =>
          simp only [Tree.ptr, Option.some.injEq] at e
          subst e
          obtain ⟨hr1, -, -⟩ := hL
          rw [hn] at hr1
          exact hp (congrArg Node.parent (Option.some.inj hr1))
      simp [hp, hroot, this]

theorem rotRight_wellLinked (t : RBTree) (tr : Tree) (nd y : Nat) (n : Node)
    (hw : t.WellLinked tr) (hmem : nd ∈ tr.addrs) (hn : Heap.read t.heap nd = some n)
    (hny : n.left = some y) :
    ∃ t', rotRight t (some nd) = Except.ok t' ∧ t'.WellLinked (Tree.rotR nd tr) := by
  obtain ⟨hroot, hL, hnd⟩ := hw
  obtain ⟨par1, c, l, k, r, hsub, hsn, hsp⟩ :=
    linked_sub t.heap nd tr none hL hnd (by intro q e; cases e) hmem
  obtain ⟨hr, hl, hrr⟩ := hsub
  have en : n = ⟨k, c, l.ptr, r.ptr, par1⟩ := by
    rw [hn] at hr; exact Option.some.inj hr
  subst en
  simp only at hny
  cases l with
  | nil => simp [Tree.ptr] at hny
  | node y1 cy ly ky ry =>
    simp only [Tree.ptr, Option.some.injEq] at hny
    subst hny
    obtain ⟨hyr, hly, hry⟩ := hl
    simp only [Tree.addrs] at hsn hsp
    obtain ⟨hln, hrn, hal, har, hlr⟩ := (nodup_node _ _ _).1 hsn
    obtain ⟨hlyn, hryn, hyly, hyry, hlyry⟩ := (nodup_node _ _ _).1 hln
    simp only [List.mem_append, List.mem_cons, not_or] at hal hlr hsp
    obtain ⟨t', hrun, f1, f2, f3, f4, f5, f6⟩ :=
      rotRight_run t nd y1 _ _ hn hyr rfl hal.2.1
        (by
          intro b hb
          simp only at hb
          have hbm := Tree.ptr_mem_addrs ry b hb
          obtain ⟨nb, hnb, -⟩ := linked_mem t.heap b ry _ hry hbm
          exact ⟨fun e => hal.2.2 (e ▸ hbm), fun e => hyry (e ▸ hbm), nb, hnb⟩)
        (by
          intro pa hpa
          simp only at hpa
          obtain ⟨hq, nq⟩ := hsp pa hpa
          refine ⟨hq.2.1, hq.1.2.1, ?_, nq⟩
          intro e
          exact hq.1.2.2 (Tree.ptr_mem_addrs ry pa e))
    obtain ⟨g1, g2⟩ :=
      rotR_linked t.heap t'.heap nd y1 _ _ hn hyr rfl f1 f2 f3 f4 f5 tr none hL hnd
        (by intro q e; cases e) hmem
    refine ⟨t', hrun, ?_, g1, by rw [Tree.rotR_addrs]; exact hnd⟩
    rw [f6, g2, ← hroot]
    obtain ⟨nx, e1, -, -, e4⟩ := linked_mem t.heap nd tr none hL hmem
    rw [hn] at e1; cases e1
    simp only at e4 ⊢
    by_cases hp : par1 = none
    · rcases e4 with ⟨-, e4⟩ | ⟨q, e4, -⟩
      · simp [hp, hroot, e4]
      · rw [hp] at e4; cases e4
    · have : tr.ptr ≠ some nd := by
        intro e
        cases tr with
        | nil => simp [Tree.ptr] at e
        | node a1 c1 l1 k1 r1 =>
          simp only [Tree.ptr, Option.some.injEq] at e
          subst e
          obtain ⟨hr1, -, -⟩ := hL
          rw [hn] at hr1
          exact hp (congrArg Node.parent (Option.some.inj hr1))
      simp [hp, hroot, this]

theorem Tree.height_le_size : ∀ (s : Tree), s.height ≤ s.size := by
  intro s
  induction s with
  | nil => simp [Tree.height, Tree.size]
  | node a c l k r ihl ihr => simp only [Tree.height, Tree.size]; omega

theorem Tree.size_eq_length_addrs : ∀ (s : Tree), s.size = s.addrs.length := by
  intro s
  induction s with
  | nil => rfl
  | node a c l k r ihl ihr => simp [Tree.size, Tree.addrs, ihl, ihr]; omega

theorem linked_shape (h : Heap) : ∀ (s : Tree) (par : Ptr), Linked h par s → Shape h s := by
  intro s
  induction s with
  | nil => intro _ _; trivial
  | node a c l k r ihl ihr =>
    intro par hL
    obtain ⟨hr, hl, hrr⟩ := hL
    exact (shape_node _ _ _ _ _ _).2 ⟨_, hr, rfl, rfl, rfl, rfl, ihl _ hl, ihr _ hrr⟩

theorem inorderFrom_shape (h : Heap) :
    ∀ (s : Tree) (fuel : Nat), Shape h s → s.height ≤ fuel →
      inorderFrom h fuel s.ptr = s.keys := by
  intro s
  induction s with
  | nil => intro fuel _ _; cases fuel <;> rfl
  | node a c l k r ihl ihr =>
    intro fuel hs hf
    obtain ⟨n, hr, hkey, -, hl, hrr, hsl, hsr⟩ := (shape_node _ _ _ _ _ _).1 hs
    cases fuel with
    | zero => simp [Tree.height] at hf
    | succ fuel =>
      simp only [Tree.height] at hf
      rw [show (Tree.node a c l k r).ptr = some a from rfl]
      simp only [inorderFrom, hr, hl, hrr, hkey, Tree.keys]
      rw [ihl fuel hsl (by omega), ihr fuel hsr (by omega)]

theorem inorder_wellLinked (t : RBTree) (tr : Tree) (fuel : Nat) (hw : t.WellLinked tr)
    (hf : tr.size ≤ fuel) : t.inorder fuel = tr.keys := by
  obtain ⟨hroot, hL, -⟩ := hw
  unfold RBTree.inorder
  rw [hroot]
  exact inorderFrom_shape _ _ _ (linked_shape _ _ _ hL)
    (Nat.le_trans (Tree.height_le_size tr) hf)

theorem Heap.read_append_length (h : Heap) (n : Node) :
    Heap.read (h ++ [some n]) h.length = some n := by
  simp [Heap.read]

theorem insert_empty_eval (fuel : Nat) (key : Int) :
    insert fuel RBTree.empty key =
      Except.error (Failure.null_deref,
        { heap := [some ⟨key, Color.RED, none, none, none⟩], root := some 0,
          dumper := none }) := by
  cases fuel <;> rfl

/-! ## The claims -/

/-- C1 (defect in the code): the empty tree satisfies the four red-black invariants, yet
`insert` on it does not produce a tree.  After the new node has been linked in as the
root, the guard of the loop in `rebalance` reads the colour of the node's parent before
testing that the parent exists, and the root has no parent. -/
theorem insert_into_empty_tree_faults :
    RBTree.empty.Holds Tree.nil ∧ Tree.nil.RedBlack ∧
      ∀ (fuel : Nat) (key : Int),
        insert fuel RBTree.empty key =
          Except.error (Failure.null_deref,
            { heap := [some ⟨key, Color.RED, none, none, none⟩], root := some 0,
              dumper := none }) := by
  exact ⟨by decide, by decide, insert_empty_eval⟩

/-- C3: on a heap whose child links spell out a tree with strictly ascending in-order
keys, `find` with fuel at least the height returns the address of a node holding `key`
when `key` is stored, and returns `nullptr` (no failure) when it is not; on a tree with
no root it returns `nullptr` for every key and every fuel. -/
theorem find_correct (t : RBTree) (tr : Tree) (key : Int) (fuel : Nat)
    (hroot : t.root = tr.ptr) (hs : Shape t.heap tr) (ho : tr.Ordered)
    (hf : tr.height ≤ fuel) :
    (key ∈ tr.keys →
      ∃ a n, find fuel t key = Except.ok (some a) ∧ Heap.read t.heap a = some n ∧
        n.key = key) ∧
    (key ∉ tr.keys → find fuel t key = Except.ok none) ∧
    (t.root = none → ∀ f k, find f t k = Except.ok none) := by
  refine ⟨?_, ?_, ?_⟩
  · intro hk
    obtain ⟨a, n, e1, -, e3, e4⟩ := findLoop_present t key tr fuel hs ho hk hf
    exact ⟨a, n, by unfold find; rw [hroot]; exact e1, e3, e4⟩
  · intro hk
    unfold find
    rw [hroot]
    exact findLoop_absent t key tr fuel hs hk hf
  · intro hn f k
    unfold find
    rw [hn]
    cases f <;> rfl

/-- Witness of C3 on the tree 10, 20, 30 with the key 30. -/
theorem find_correct_witness :
    sample3.root = sampleTree3.ptr ∧ Shape sample3.heap sampleTree3 ∧ sampleTree3.Ordered ∧
      sampleTree3.height ≤ 2 ∧
      ((30 ∈ sampleTree3.keys →
        ∃ a n, find 2 sample3 30 = Except.ok (some a) ∧ Heap.read sample3.heap a = some n ∧
          n.key = 30) ∧
      (30 ∉ sampleTree3.keys → find 2 sample3 30 = Except.ok none) ∧
      (sample3.root = none → ∀ f k, find f sample3 k = Except.ok none)) :=
  ⟨by decide, by decide, by decide, by decide,
    find_correct sample3 sampleTree3 30 2 (by decide) (by decide) (by decide) (by decide)⟩

/-- C4 (defect in the code): the round trip insert-then-find cannot be run on the empty
tree: `insert` stops in the guard of the loop of `rebalance` (same defect as C1, C5, C8),
so `find` is never reached. -/
theorem insert_then_find_on_empty_tree_faults (fuel : Nat) (key : Int) :
    (insert fuel RBTree.empty key >>= fun t => find fuel t key) =
      Except.error (Failure.null_deref,
        { heap := [some ⟨key, Color.RED, none, none, none⟩], root := some 0,
          dumper := none }) := by
  rw [insert_empty_eval]
  rfl

/-- C5 (defect in the code): `insert` on the empty tree returns no tree at all, whatever
the fuel and the key, so there is no tree whose nodes could be counted (same defect as
C1, C4, C8). -/
theorem insert_into_empty_tree_returns_no_tree (fuel : Nat) (key : Int) (t : RBTree) :
    insert fuel RBTree.empty key ≠ Except.ok t := by
  simp [insert_empty_eval]

/-- C7: when `key` is not stored, `remove` throws `logic_error` and the tree at that
moment is the tree it was given, whatever fixup procedure is plugged in. -/
theorem remove_absent_key (deleteFixUp : RBTree → Ptr → Run RBTree) (t : RBTree) (tr : Tree)
    (key : Int) (fuel : Nat) (hroot : t.root = tr.ptr) (hs : Shape t.heap tr)
    (hk : key ∉ tr.keys) (hf : tr.height ≤ fuel) :
    remove deleteFixUp fuel t key = Except.error (Failure.logic_error, t) := by
  have hfind : find fuel t key = Except.ok none := by
    unfold find
    rw [hroot]
    exact findLoop_absent t key tr fuel hs hk hf
  simp [remove, hfind, bind, Except.bind, throw, throwThe, MonadExceptOf.throw]

/-- Witness of C7 on the tree 10, 20, 30 with the absent key 25 and a fixup that does
nothing. -/
theorem remove_absent_key_witness :
    sample3.root = sampleTree3.ptr ∧ Shape sample3.heap sampleTree3 ∧
      (25 : Int) ∉ sampleTree3.keys ∧ sampleTree3.height ≤ 2 ∧
      remove (fun t _ => pure t) 2 sample3 25 = Except.error (Failure.logic_error, sample3) :=
  ⟨by decide, by decide, by decide, by decide,
    remove_absent_key (fun t _ => pure t) sample3 sampleTree3 25 2 (by decide) (by decide)
      (by decide) (by decide)⟩

/-- C8 (defect in the code): whenever the tree has no root, whatever its heap and
dumper, `insert` stops with a null dereference: the new node is the root, and the guard
`nd->_parent->_color == RED && nd->_parent` of `rebalance` reads the colour of its absent
parent. -/
theorem insert_without_root_null_deref (fuel : Nat) (key : Int) (h : Heap)
    (d : Option (List DumpRecord)) :
    ∃ t, insert fuel { heap := h, root := none, dumper := d } key =
      Except.error (Failure.null_deref, t) := by
  generalize hrun : insert fuel { heap := h, root := none, dumper := d } key = res
  cases fuel <;>
    simp [insert, insertNewBstEl, insertDescend, RBTree.newNode, rebalance, rebalanceLoop,
      RBTree.parentOf, RBTree.load, Heap.read_append_length, bind, Except.bind, pure,
      Except.pure, throw, throwThe, MonadExceptOf.throw] at hrun <;>
    exact ⟨_, hrun.symm⟩


/-- When `key` is not stored, `remove` throws `logic_error` before any assignment,
whatever fixup procedure is plugged in. -/
theorem remove_absent_run (deleteFixUp : RBTree → Ptr → Run RBTree) (t : RBTree) (tr : Tree)
    (key : Int) (fuel : Nat) (hroot : t.root = tr.ptr) (hs : Shape t.heap tr)
    (hk : key ∉ tr.keys) (hf : tr.height ≤ fuel) :
    remove deleteFixUp fuel t key = Except.error (Failure.logic_error, t) := by
  have hfind : find fuel t key = Except.ok none := by
    unfold find
    rw [hroot]
    exact findLoop_absent t key tr fuel hs hk hf
  simp [remove, hfind, bind, Except.bind, throw, throwThe, MonadExceptOf.throw]

/-- C9: on an existing node without right child `rotLeft` throws `invalid_argument`, and
on an existing node without left child `rotRight` throws `invalid_argument`; in both
cases the tree at that moment is the tree that was given.  The kind is distinct from the
one of key-not-found: for every such rotation run `rot` and every run of `remove` on a
key that is not stored (any tree, any fixup procedure), the class `f` thrown by the
rotation and the class `g` thrown by `remove` differ, and a handler for `f` stops the
rotation error and does not stop key-not-found.  The separation is one-sided, as
`std::invalid_argument` derives from `std::logic_error`: a handler for `g` stops the
rotation error too. -/
theorem rotation_without_pivot (t : RBTree) (nd : Nat) (n : Node)
    (hn : Heap.read t.heap nd = some n) :
    (n.right = none → rotLeft t (some nd) = Except.error (Failure.invalid_argument, t)) ∧
    (n.left = none → rotRight t (some nd) = Except.error (Failure.invalid_argument, t)) ∧
    (∀ rot : Run RBTree,
      (n.right = none ∧ rot = rotLeft t (some nd)) ∨
        (n.left = none ∧ rot = rotRight t (some nd)) →
      ∀ (deleteFixUp : RBTree → Ptr → Run RBTree) (fuel : Nat) (t2 : RBTree) (tr : Tree)
        (key : Int),
        t2.root = tr.ptr → Shape t2.heap tr → key ∉ tr.keys → tr.height ≤ fuel →
        ∃ f g, rot = Except.error (f, t) ∧
          remove deleteFixUp fuel t2 key = Except.error (g, t2) ∧
          f ≠ g ∧ Failure.catches f f = true ∧ Failure.catches f g = false ∧
          Failure.catches g f = true) := by
  have hl : n.right = none →
      rotLeft t (some nd) = Except.error (Failure.invalid_argument, t) := by
    intro h
    simp [rotLeft, RBTree.rightOf, RBTree.load, hn, h, bind, Except.bind, pure, Except.pure,
      throw, throwThe, MonadExceptOf.throw]
  have hr : n.left = none →
      rotRight t (some nd) = Except.error (Failure.invalid_argument, t) := by
    intro h
    simp [rotRight, RBTree.leftOf, RBTree.load, hn, h, bind, Except.bind, pure, Except.pure,
      throw, throwThe, MonadExceptOf.throw]
  refine ⟨hl, hr, ?_⟩
  intro rot hrot deleteFixUp fuel t2 tr key hroot hs hk hf
  have hrm := remove_absent_run deleteFixUp t2 tr key fuel hroot hs hk hf
  have hrot2 : rot = Except.error (Failure.invalid_argument, t) := by
    rcases hrot with ⟨h, e⟩ | ⟨h, e⟩
    · rw [e]; exact hl h
    · rw [e]; exact hr h
  exact ⟨Failure.invalid_argument, Failure.logic_error, hrot2, hrm, by decide, rfl, rfl, rfl⟩

/-- Witness of C9 at the leaf 10 (address 1) of the tree 10, 20, 30, against the removal
of the absent key 25 from the same tree. -/
theorem rotation_without_pivot_witness :
    Heap.read sample3.heap 1 = some ⟨10, Color.RED, none, none, some 0⟩ ∧
      rotLeft sample3 (some 1) = Except.error (Failure.invalid_argument, sample3) ∧
      rotRight sample3 (some 1) = Except.error (Failure.invalid_argument, sample3) ∧
      ∃ f g, rotLeft sample3 (some 1) = Except.error (f, sample3) ∧
        remove (fun t _ => pure t) 2 sample3 25 = Except.error (g, sample3) ∧
        f ≠ g ∧ Failure.catches f f = true ∧ Failure.catches f g = false ∧
        Failure.catches g f = true :=
  have h := rotation_without_pivot sample3 1 ⟨10, Color.RED, none, none, some 0⟩ (by decide)
  ⟨by decide, h.1 rfl, h.2.1 rfl,
    h.2.2 (rotLeft sample3 (some 1)) (Or.inl ⟨rfl, rfl⟩) (fun t _ => pure t) 2 sample3
      sampleTree3 25 (by decide) (by decide) (by decide) (by decide)⟩

/-- C10: in a consistently linked tree, `rotLeft` at a node with a right child and
`rotRight` at a node with a left child succeed, leave a consistently linked tree, and the
in-order key sequence of the whole tree is the same before and after; so an ordered tree
stays ordered. -/
theorem rotations_preserve_inorder (t : RBTree) (tr : Tree) (nd : Nat) (n : Node)
    (hw : t.WellLinked tr) (hmem : nd ∈ tr.addrs) (hn : Heap.read t.heap nd = some n) :
    (∀ y, n.right = some y →
      ∃ t' tr', rotLeft t (some nd) = Except.ok t' ∧ t'.WellLinked tr' ∧
        tr'.keys = tr.keys ∧ (tr.Ordered → tr'.Ordered) ∧
        ∀ fuel, tr.size ≤ fuel → t'.inorder fuel = t.inorder fuel) ∧
    (∀ x, n.left = some x →
      ∃ t' tr', rotRight t (some nd) = Except.ok t' ∧ t'.WellLinked tr' ∧
        tr'.keys = tr.keys ∧ (tr.Ordered → tr'.Ordered) ∧
        ∀ fuel, tr.size ≤ fuel → t'.inorder fuel = t.inorder fuel) := by
  constructor
  · intro y hy
    obtain ⟨t', hrun, hw'⟩ := rotLeft_wellLinked t tr nd y n hw hmem hn hy
    refine ⟨t', _, hrun, hw', Tree.rotL_keys nd tr, ?_, ?_⟩
    · intro ho
      unfold Tree.Ordered
      rw [Tree.rotL_keys]
      exact ho
    · intro fuel hf
      rw [inorder_wellLinked t tr fuel hw hf, inorder_wellLinked t' _ fuel hw'
        (by rw [Tree.size_eq_length_addrs, Tree.rotL_addrs, ← Tree.size_eq_length_addrs]; exact hf),
        Tree.rotL_keys]
  · intro y hy
    obtain ⟨t', hrun, hw'⟩ := rotRight_wellLinked t tr nd y n hw hmem hn hy
    refine ⟨t', _, hrun, hw', Tree.rotR_keys nd tr, ?_, ?_⟩
    · intro ho
      unfold Tree.Ordered
      rw [Tree.rotR_keys]
      exact ho
    · intro fuel hf
      rw [inorder_wellLinked t tr fuel hw hf, inorder_wellLinked t' _ fuel hw'
        (by rw [Tree.size_eq_length_addrs, Tree.rotR_addrs, ← Tree.size_eq_length_addrs]; exact hf),
        Tree.rotR_keys]

/-- Witness of C10 at the root (address 0) of the tree 10, 20, 30. -/
theorem rotations_preserve_inorder_witness :
    sample3.WellLinked sampleTree3 ∧ 0 ∈ sampleTree3.addrs ∧
      Heap.read sample3.heap 0 = some ⟨20, Color.BLACK, some 1, some 2, none⟩ ∧
      ((∀ y, (some 2 : Ptr) = some y →
        ∃ t' tr', rotLeft sample3 (some 0) = Except.ok t' ∧ t'.WellLinked tr' ∧
          tr'.keys = sampleTree3.keys ∧ (sampleTree3.Ordered → tr'.Ordered) ∧
          ∀ fuel, sampleTree3.size ≤ fuel → t'.inorder fuel = sample3.inorder fuel) ∧
      (∀ x, (some 1 : Ptr) = some x →
        ∃ t' tr', rotRight sample3 (some 0) = Except.ok t' ∧ t'.WellLinked tr' ∧
          tr'.keys = sampleTree3.keys ∧ (sampleTree3.Ordered → tr'.Ordered) ∧
          ∀ fuel, sampleTree3.size ≤ fuel → t'.inorder fuel = sample3.inorder fuel)) :=
  ⟨by decide, by decide, by decide,
    rotations_preserve_inorder sample3 sampleTree3 0 ⟨20, Color.BLACK, some 1, some 2, none⟩
      (by decide) (by decide) (by decide)⟩

theorem insert_dup_eval (fuel : Nat) :
    insert (fuel + 2) sample3 10 =
      Except.error (Failure.null_deref,
        { heap := [some ⟨20, Color.RED, some 1, some 2, none⟩,
                   some ⟨10, Color.BLACK, none, some 3, some 0⟩,
                   some ⟨30, Color.BLACK, none, none, some 0⟩,
                   some ⟨10, Color.RED, none, none, some 1⟩],
          root := some 0, dumper := none }) := by
  simp [insert, insertNewBstEl, insertDescend, RBTree.newNode, rebalance, rebalanceLoop,
    rebalanceDUG, RBTree.parentOf, RBTree.leftOf, RBTree.rightOf, RBTree.isLeftChild,
    RBTree.isRed, RBTree.setBlack, RBTree.setRed, RBTree.modify, RBTree.store, RBTree.dump,
    RBTree.load, Heap.read, sample3, bind, Except.bind, pure, Except.pure, throw, throwThe,
    MonadExceptOf.throw]

theorem insertAll_empty_eval (fuel : Nat) (k : Int) (ks : List Int) :
    insertAll fuel RBTree.empty (k :: ks) =
      Except.error (Failure.null_deref,
        { heap := [some ⟨k, Color.RED, none, none, none⟩], root := some 0,
          dumper := none }) := by
  simp [insertAll, insert_empty_eval, bind, Except.bind]

/-- C11 (defect in the code): Scenario A cannot be run.  Whatever the three keys, the
first `insert` into the empty tree stops in the guard of the loop of `rebalance`, which
reads the colour of the absent parent of the new root (same defect as C1); the tree
left behind has the first key as a RED root and nothing else. -/
theorem scenario_a_faults_at_first_insert (fuel : Nat) (a b c : Int) :
    insertAll fuel RBTree.empty [a, b, c] =
      Except.error (Failure.null_deref,
        { heap := [some ⟨a, Color.RED, none, none, none⟩], root := some 0,
          dumper := none }) :=
  insertAll_empty_eval fuel a [b, c]

/-- C12: on a tree whose root is a node without children holding `k`, `remove k` succeeds
for every fixup procedure (none is called), the root reference becomes absent, the node
is freed, no other cell changes, and afterwards `find` returns `nullptr` for every key
and every fuel. -/
theorem remove_single_node (deleteFixUp : RBTree → Ptr → Run RBTree) (t : RBTree) (a : Nat)
    (k : Int) (c : Color) (p : Ptr) (fuel : Nat) (hroot : t.root = some a)
    (hnode : Heap.read t.heap a = some ⟨k, c, none, none, p⟩) :
    ∃ t', remove deleteFixUp (fuel + 1) t k = Except.ok t' ∧ t'.root = none ∧
      Heap.read t'.heap a = none ∧ (∀ x, x ≠ a → Heap.read t'.heap x = Heap.read t.heap x) ∧
      ∀ f key, find f t' key = Except.ok none := by
  have hlt := Heap.read_lt _ _ _ hnode
  generalize hrun : remove deleteFixUp (fuel + 1) t k = res
  simp [remove, find, findLoop, predecessor, deleteNode, destroy, RBTree.leftOf,
    RBTree.rightOf, RBTree.load, RBTree.modify, RBTree.store, Heap.read_set, hroot, hnode, hlt,
    bind, Except.bind, pure, Except.pure] at hrun
  subst hrun
  refine ⟨_, rfl, rfl, ?_, ?_, ?_⟩
  · simp [Heap.read_set, hlt]
  · intro x hx
    simp [Heap.read_set, Ne.symm hx]
  · intro f key
    cases f <;> rfl

/-- Witness of C12 on the tree that consists of the single node 20, with a fixup that
does nothing. -/
theorem remove_single_node_witness :
    sample1.root = some 0 ∧
      Heap.read sample1.heap 0 = some ⟨20, Color.BLACK, none, none, none⟩ ∧
      ∃ t', remove (fun t _ => pure t) (0 + 1) sample1 20 = Except.ok t' ∧ t'.root = none ∧
        Heap.read t'.heap 0 = none ∧
        (∀ x, x ≠ 0 → Heap.read t'.heap x = Heap.read sample1.heap x) ∧
        ∀ f key, find f t' key = Except.ok none :=
  ⟨by decide, by decide,
    remove_single_node (fun t _ => pure t) sample1 0 20 Color.BLACK none 0 (by decide)
      (by decide)⟩

/-- C14 (defect in the code): no tree at all is obtained from the empty tree by
inserting one or more keys, so there is no height to bound: the first `insert` stops in
the guard of the loop of `rebalance` (same defect as C1), for every fuel and every
sequence of keys; in particular for the descending sequence 50, 40, 30, 20, 10. -/
theorem height_scenario_faults_at_first_insert :
    (∀ (fuel : Nat) (k : Int) (ks : List Int),
      insertAll fuel RBTree.empty (k :: ks) =
        Except.error (Failure.null_deref,
          { heap := [some ⟨k, Color.RED, none, none, none⟩], root := some 0,
            dumper := none })) ∧
    ∀ (fuel : Nat) (t : RBTree),
      insertAll fuel RBTree.empty [50, 40, 30, 20, 10] ≠ Except.ok t := by
  refine ⟨insertAll_empty_eval, ?_⟩
  intro fuel t
  simp [insertAll_empty_eval]

/-- C16 (defect in the code): removing a root that has exactly one child leaves the
child as the new root with its parent reference still pointing to the removed node,
whose cell has been freed.  With a RED root no fixup is called, so this holds for every
fixup procedure; with a BLACK root the fixup is called on the RED child, here with the
procedure that turns that node BLACK. -/
theorem remove_root_with_one_child_keeps_stale_parent :
    (∀ c, (sampleRootChild c).WellLinked (sampleTreeRootChild c)) ∧
    (∀ (deleteFixUp : RBTree → Ptr → Run RBTree) (fuel : Nat),
      remove deleteFixUp (fuel + 1) (sampleRootChild Color.RED) 20 =
        Except.ok { heap := [none, some ⟨10, Color.RED, none, none, some 0⟩],
                    root := some 1, dumper := none }) ∧
    (∀ (fuel : Nat),
      remove (fun t x => t.setBlack x) (fuel + 1) (sampleRootChild Color.BLACK) 20 =
        Except.ok { heap := [none, some ⟨10, Color.BLACK, none, none, some 0⟩],
                    root := some 1, dumper := none }) := by
  refine ⟨by intro c; cases c <;> decide, ?_, ?_⟩
  · intro fix fuel
    simp [remove, find, findLoop, predecessor, deleteNode, destroy, RBTree.leftOf,
      RBTree.rightOf, RBTree.isBlack, RBTree.load, RBTree.modify, RBTree.store, Heap.read,
      sampleRootChild, bind, Except.bind, pure, Except.pure]
  · intro fuel
    simp [remove, find, findLoop, predecessor, deleteNode, destroy, RBTree.leftOf,
      RBTree.rightOf, RBTree.isBlack, RBTree.setBlack, RBTree.load, RBTree.modify,
      RBTree.store, Heap.read, sampleRootChild, bind, Except.bind, pure, Except.pure]

/-- C18 (defect in the code): on the tree 20, 30 with a dumper attached, `insert 40`
runs Case 3.  The records the dumper receives, each with the root reference and the
colours of the parent and the grandparent of the reported node at that moment, show
that at `DE_AFTER_RECOLOR3D` the parent is still RED and the grandparent still BLACK:
the event is sent before the recolouring.  The rotation comes after it, and
`DE_AFTER_RECOLOR3G` after the rotation. -/
theorem case3_pre_checkpoint_precedes_recolouring :
    (insert 2 sample2 40).map (fun t => (t.dumper.getD []).map DumpRecord.summary) =
      Except.ok
        [(DumpEvent.DE_AFTER_BST_INS, some 0, some Color.RED, some Color.BLACK),
         (DumpEvent.DE_AFTER_RECOLOR3D, some 0, some Color.RED, some Color.BLACK),
         (DumpEvent.DE_AFTER_LROT, some 1, some Color.BLACK, none),
         (DumpEvent.DE_AFTER_RECOLOR3G, some 1, some Color.BLACK, none),
         (DumpEvent.DE_AFTER_INSERT, some 1, some Color.BLACK, none)] := by
  decide

/-- C19 (defect in the code): the tree 10, 20, 30 satisfies the red-black invariants and
stores 10, yet `insert 10` returns no tree.  The duplicate is linked in as the right
child of the node 10, Case 1 recolours and moves up to the root, and the guard of the
loop of `rebalance` then reads the colour of the root's absent parent (same defect as
C1). -/
theorem insert_duplicate_faults :
    sample3.WellLinked sampleTree3 ∧ sampleTree3.RedBlack ∧ (10 : Int) ∈ sampleTree3.keys ∧
    (∀ fuel,
      insert (fuel + 2) sample3 10 =
        Except.error (Failure.null_deref,
          { heap := [some ⟨20, Color.RED, some 1, some 2, none⟩,
                     some ⟨10, Color.BLACK, none, some 3, some 0⟩,
                     some ⟨30, Color.BLACK, none, none, some 0⟩,
                     some ⟨10, Color.RED, none, none, some 1⟩],
            root := some 0, dumper := none })) ∧
    ∀ fuel t, insert fuel sample3 10 ≠ Except.ok t := by
  refine ⟨by decide, by decide, by decide, insert_dup_eval, ?_⟩
  intro fuel t
  match fuel with
  | 0 =>
    have h : insert 0 sample3 10 = Except.error (Failure.out_of_fuel, sample3) := by decide
    simp [h]
  | 1 =>
    have h : insert 1 sample3 10 = Except.error (Failure.out_of_fuel, sample3) := by decide
    simp [h]
  | fuel + 2 => simp [insert_dup_eval]

theorem linked_sub2 (h : Heap) (nd : Nat) :
    ∀ (s : Tree) (par : Ptr), Linked h par s → s.addrs.Nodup →
      (∀ q, par = some q → q ∉ s.addrs ∧ ∃ nq, Heap.read h q = some nq ∧
        ((nq.left = s.ptr ∧ ∀ z, nq.right = some z → z ∉ s.addrs) ∨
         (nq.right = s.ptr ∧ ∀ z, nq.left = some z → z ∉ s.addrs))) →
      nd ∈ s.addrs →
      ∃ par1 c l k r, Linked h par1 (Tree.node nd c l k r) ∧
        (Tree.node nd c l k r).addrs.Nodup ∧
        (∀ q, par1 = some q → q ∉ (Tree.node nd c l k r).addrs ∧
          ∃ nq, Heap.read h q = some nq ∧
            ((nq.left = some nd ∧ ∀ z, nq.right = some z → z ∉ (Tree.node nd c l k r).addrs) ∨
             (nq.right = some nd ∧
                ∀ z, nq.left = some z → z ∉ (Tree.node nd c l k r).addrs))) := by
  intro s
  induction s with
  | nil => intro par _ _ _ hx; simp [Tree.addrs] at hx
  | node a c l k r ihl ihr =>
    intro par hL hnd hpar hx
    by_cases ha : a = nd
    · subst ha
      exact ⟨par, c, l, k, r, hL, hnd, hpar⟩
    · obtain ⟨hr, hl, hrr⟩ := hL
      simp only [Tree.addrs] at hnd hx
      obtain ⟨hln, hrn, hal, har, hlr⟩ := (nodup_node _ _ _).1 hnd
      have hnda : nd ≠ a := fun e => ha e.symm
      simp only [List.mem_append, List.mem_cons, hnda, false_or] at hx
      rcases hx with hx | hx
      · refine ihl (some a) hl hln ?_ hx
        intro q e
        cases e
        refine ⟨hal, _, hr, Or.inl ⟨rfl, ?_⟩⟩
        intro z hz hzl
        exact hlr z hzl (Tree.ptr_mem_addrs r z hz)
      · refine ihr (some a) hrr hrn ?_ hx
        intro q e
        cases e
        refine ⟨har, _, hr, Or.inr ⟨rfl, ?_⟩⟩
        intro z hz hzr
        exact hlr z (Tree.ptr_mem_addrs l z hz) hzr

theorem wellLinked_root_of_no_parent (t : RBTree) (tr : Tree) (nd : Nat) (n : Node)
    (hw : t.WellLinked tr) (hmem : nd ∈ tr.addrs) (hn : Heap.read t.heap nd = some n) :
    (n.parent = none ↔ t.root = some nd) := by
  obtain ⟨hroot, hL, hnd⟩ := hw
  obtain ⟨nx, e1, -, -, e4⟩ := linked_mem t.heap nd tr none hL hmem
  rw [hn] at e1; cases e1
  constructor
  · intro hp
    rcases e4 with ⟨-, e4⟩ | ⟨q, e4, -⟩
    · rw [hroot]; exact e4
    · rw [hp] at e4; cases e4
  · intro hr
    rw [hroot] at hr
    cases tr with
    | nil => simp [Tree.ptr] at hr
    | node a1 c1 l1 k1 r1 =>
      simp only [Tree.ptr, Option.some.injEq] at hr
      subst hr
      obtain ⟨hr1, -, -⟩ := hL
      rw [hn] at hr1
      exact congrArg Node.parent (Option.some.inj hr1)

theorem rotLeft_pre (t : RBTree) (tr : Tree) (nd y : Nat) (n : Node)
    (hw : t.WellLinked tr) (hmem : nd ∈ tr.addrs) (hn : Heap.read t.heap nd = some n)
    (hny : n.right = some y) :
    ∃ ny, Heap.read t.heap y = some ny ∧ ny.parent = some nd ∧ nd ≠ y ∧
      (∀ b, ny.left = some b →
        b ≠ nd ∧ b ≠ y ∧ n.parent ≠ some b ∧
          ∃ nb, Heap.read t.heap b = some nb ∧ nb.parent = some y) ∧
      (∀ pa, n.parent = some pa →
        pa ≠ nd ∧ pa ≠ y ∧ ny.left ≠ some pa ∧
          ∃ np, Heap.read t.heap pa = some np ∧
            ((np.left = some nd ∧ np.right ≠ some nd ∧ np.right ≠ some y) ∨
             (np.right = some nd ∧ np.left ≠ some nd ∧ np.left ≠ some y))) := by
  obtain ⟨hroot, hL, hnd⟩ := hw
  obtain ⟨par1, c, l, k, r, hsub, hsn, hsp⟩ :=
    linked_sub2 t.heap nd tr none hL hnd (by intro q e; cases e) hmem
  obtain ⟨hr, hl, hrr⟩ := hsub
  have en : n = ⟨k, c, l.ptr, r.ptr, par1⟩ := by
    rw [hn] at hr; exact Option.some.inj hr
  subst en
  simp only at hny
  cases r with
  | nil => simp [Tree.ptr] at hny
  | node y1 cy ly ky ry =>
    simp only [Tree.ptr, Option.some.injEq] at hny
    subst hny
    obtain ⟨hyr, hly, hry⟩ := hrr
    simp only [Tree.addrs] at hsn hsp
    obtain ⟨hln, hrn, hal, har, hlr⟩ := (nodup_node _ _ _).1 hsn
    obtain ⟨hlyn, hryn, hyly, hyry, hlyry⟩ := (nodup_node _ _ _).1 hrn
    simp only [List.mem_append, List.mem_cons, not_or] at har hlr hsp
    refine ⟨_, hyr, rfl, har.2.1, ?_, ?_⟩
    · intro b hb
      simp only at hb
      have hbm := Tree.ptr_mem_addrs ly b hb
      refine ⟨fun e => har.1 (e ▸ hbm), fun e => hyly (e ▸ hbm), ?_, ?_⟩
      · intro e
        exact (hsp b e).1.2.2.1 hbm
      · cases ly with
        | nil => simp [Tree.ptr] at hb
        | node b1 cb lb kb rb =>
          simp only [Tree.ptr, Option.some.injEq] at hb
          subst hb
          exact ⟨_, hly.1, rfl⟩
    · intro pa hpa
      simp only at hpa
      obtain ⟨hq, nq, hnq, hslot⟩ := hsp pa hpa
      refine ⟨hq.2.1, hq.2.2.2.1, ?_, nq, hnq, ?_⟩
      · intro e
        exact hq.2.2.1 (Tree.ptr_mem_addrs ly pa e)
      · rcases hslot with ⟨h1, h2⟩ | ⟨h1, h2⟩
        · refine Or.inl ⟨h1, ?_, ?_⟩
          · intro e; exact (h2 nd e).2.1 rfl
          · intro e; exact (h2 y1 e).2.2.2.1 rfl
        · refine Or.inr ⟨h1, ?_, ?_⟩
          · intro e; exact (h2 nd e).2.1 rfl
          · intro e; exact (h2 y1 e).2.2.2.1 rfl

theorem rotRight_pre (t : RBTree) (tr : Tree) (nd y : Nat) (n : Node)
    (hw : t.WellLinked tr) (hmem : nd ∈ tr.addrs) (hn : Heap.read t.heap nd = some n)
    (hny : n.left = some y) :
    ∃ ny, Heap.read t.heap y = some ny ∧ ny.parent = some nd ∧ nd ≠ y ∧
      (∀ b, ny.right = some b →
        b ≠ nd ∧ b ≠ y ∧ n.parent ≠ some b ∧
          ∃ nb, Heap.read t.heap b = some nb ∧ nb.parent = some y) ∧
      (∀ pa, n.parent = some pa →
        pa ≠ nd ∧ pa ≠ y ∧ ny.right ≠ some pa ∧
          ∃ np, Heap.read t.heap pa = some np ∧
            ((np.left = some nd ∧ np.right ≠ some nd ∧ np.right ≠ some y) ∨
             (np.right = some nd ∧ np.left ≠ some nd ∧ np.left ≠ some y))) := by
  obtain ⟨hroot, hL, hnd⟩ := hw
  obtain ⟨par1, c, l, k, r, hsub, hsn, hsp⟩ :=
    linked_sub2 t.heap nd tr none hL hnd (by intro q e; cases e) hmem
  obtain ⟨hr, hl, hrr⟩ := hsub
  have en : n = ⟨k, c, l.ptr, r.ptr, par1⟩ := by
    rw [hn] at hr; exact Option.some.inj hr
  subst en
  simp only at hny
  cases l with
  | nil => simp [Tree.ptr] at hny
  | node y1 cy ly ky ry =>
    simp only [Tree.ptr, Option.some.injEq] at hny
    subst hny
    obtain ⟨hyr, hly, hry⟩ := hl
    simp only [Tree.addrs] at hsn hsp
    obtain ⟨hln, hrn, hal, har, hlr⟩ := (nodup_node _ _ _).1 hsn
    obtain ⟨hlyn, hryn, hyly, hyry, hlyry⟩ := (nodup_node _ _ _).1 hln
    simp only [List.mem_append, List.mem_cons, not_or] at hal hlr hsp
    refine ⟨_, hyr, rfl, hal.2.1, ?_, ?_⟩
    · intro b hb
      simp only at hb
      have hbm := Tree.ptr_mem_addrs ry b hb
      refine ⟨fun e => hal.2.2 (e ▸ hbm), fun e => hyry (e ▸ hbm), ?_, ?_⟩
      · intro e
        exact (hsp b e).1.1.2.2 hbm
      · cases ry with
        | nil => simp [Tree.ptr] at hb
        | node b1 cb lb kb rb =>
          simp only [Tree.ptr, Option.some.injEq] at hb
          subst hb
          exact ⟨_, hry.1, rfl⟩
    · intro pa hpa
      simp only at hpa
      obtain ⟨hq, nq, hnq, hslot⟩ := hsp pa hpa
      refine ⟨hq.2.1, hq.1.2.1, ?_, nq, hnq, ?_⟩
      · intro e
        exact hq.1.2.2 (Tree.ptr_mem_addrs ry pa e)
      · rcases hslot with ⟨h1, h2⟩ | ⟨h1, h2⟩
        · refine Or.inl ⟨h1, ?_, ?_⟩
          · intro e; exact (h2 nd e).2.1 rfl
          · intro e; exact (h2 y1 e).1.2.1 rfl
        · refine Or.inr ⟨h1, ?_, ?_⟩
          · intro e; exact (h2 nd e).2.1 rfl
          · intro e; exact (h2 y1 e).1.2.1 rfl



theorem rotLeft_length (t : RBTree) (nd y : Nat) (n ny : Node)
    (hn : Heap.read t.heap nd = some n) (hy : Heap.read t.heap y = some ny)
    (hny : n.right = some y) (hne : nd ≠ y)
    (hb : ∀ b, ny.left = some b → b ≠ nd ∧ b ≠ y ∧ ∃ nb, Heap.read t.heap b = some nb)
    (hp : ∀ pa, n.parent = some pa →
      pa ≠ nd ∧ pa ≠ y ∧ ny.left ≠ some pa ∧ ∃ np, Heap.read t.heap pa = some np) :
    ∀ t', rotLeft t (some nd) = Except.ok t' → t'.heap.length = t.heap.length := by
  have hndlt := Heap.read_lt _ _ _ hn
  have hylt := Heap.read_lt _ _ _ hy
  generalize hrun : rotLeft t (some nd) = res
  rcases hyl : ny.left with _ | b
  · rcases hpar : n.parent with _ | pa
    · simp [rotLeft, RBTree.rightOf, RBTree.leftOf, RBTree.parentOf, RBTree.load, RBTree.modify,
          RBTree.store, Heap.read_set, bind, Except.bind, pure, Except.pure, hn, hy, hny, hne,
          hne.symm, hyl, hpar, hndlt, hylt] at hrun
      subst hrun
      intro t1 e
      cases e
      simp
    · obtain ⟨hpa1, hpa2, -, np, hnp⟩ := hp pa hpar
      have hplt := Heap.read_lt _ _ _ hnp
      by_cases hleft : np.left = some nd
      · simp [rotLeft, RBTree.rightOf, RBTree.leftOf, RBTree.parentOf, RBTree.load, RBTree.modify,
          RBTree.store, Heap.read_set, bind, Except.bind, pure, Except.pure, hn, hy, hny, hne,
          hne.symm, hyl, hpar, hndlt, hylt, hnp, hplt, hpa1, hpa2, Ne.symm hpa1, Ne.symm hpa2, hleft] at hrun
        subst hrun
        intro t1 e
        cases e
        simp
      · have hleft2 : ¬ some nd = np.left := fun h => hleft h.symm
        simp [rotLeft, RBTree.rightOf, RBTree.leftOf, RBTree.parentOf, RBTree.load, RBTree.modify,
          RBTree.store, Heap.read_set, bind, Except.bind, pure, Except.pure, hn, hy, hny, hne,
          hne.symm, hyl, hpar, hndlt, hylt, hnp, hplt, hpa1, hpa2, Ne.symm hpa1, Ne.symm hpa2, hleft, hleft2] at hrun
        subst hrun
        intro t1 e
        cases e
        simp
  · obtain ⟨hb1, hb2, nb, hnb⟩ := hb b hyl
    have hblt := Heap.read_lt _ _ _ hnb
    rcases hpar : n.parent with _ | pa
    · simp [rotLeft, RBTree.rightOf, RBTree.leftOf, RBTree.parentOf, RBTree.load, RBTree.modify,
          RBTree.store, Heap.read_set, bind, Except.bind, pure, Except.pure, hn, hy, hny, hne,
          hne.symm, hyl, hpar, hndlt, hylt, hnb, hblt, hb1, hb2, Ne.symm hb1, Ne.symm hb2] at hrun
      subst hrun
      intro t1 e
      cases e
      simp
    · obtain ⟨hpa1, hpa2, hpa3, np, hnp⟩ := hp pa hpar
      have hpb : b ≠ pa := fun h => hpa3 (by rw [hyl, h])
      have hplt := Heap.read_lt _ _ _ hnp
      by_cases hleft : np.left = some nd
      · simp [rotLeft, RBTree.rightOf, RBTree.leftOf, RBTree.parentOf, RBTree.load, RBTree.modify,
          RBTree.store, Heap.read_set, bind, Except.bind, pure, Except.pure, hn, hy, hny, hne,
          hne.symm, hyl, hpar, hndlt, hylt, hnb, hblt, hb1, hb2, Ne.symm hb1, Ne.symm hb2, hnp, hplt, hpa1, hpa2, Ne.symm hpa1, Ne.symm hpa2, hpb, Ne.symm hpb, hleft] at hrun
        subst hrun
        intro t1 e
        cases e
        simp
      · have hleft2 : ¬ some nd = np.left := fun h => hleft h.symm
        simp [rotLeft, RBTree.rightOf, RBTree.leftOf, RBTree.parentOf, RBTree.load, RBTree.modify,
          RBTree.store, Heap.read_set, bind, Except.bind, pure, Except.pure, hn, hy, hny, hne,
          hne.symm, hyl, hpar, hndlt, hylt, hnb, hblt, hb1, hb2, Ne.symm hb1, Ne.symm hb2, hnp, hplt, hpa1, hpa2, Ne.symm hpa1, Ne.symm hpa2, hpb, Ne.symm hpb, hleft, hleft2] at hrun
        subst hrun
        intro t1 e
        cases e
        simp

theorem rotRight_length (t : RBTree) (nd y : Nat) (n ny : Node)
    (hn : Heap.read t.heap nd = some n) (hy : Heap.read t.heap y = some ny)
    (hny : n.left = some y) (hne : nd ≠ y)
    (hb : ∀ b, ny.right = some b → b ≠ nd ∧ b ≠ y ∧ ∃ nb, Heap.read t.heap b = some nb)
    (hp : ∀ pa, n.parent = some pa →
      pa ≠ nd ∧ pa ≠ y ∧ ny.right ≠ some pa ∧ ∃ np, Heap.read t.heap pa = some np) :
    ∀ t', rotRight t (some nd) = Except.ok t' → t'.heap.length = t.heap.length := by
  have hndlt := Heap.read_lt _ _ _ hn
  have hylt := Heap.read_lt _ _ _ hy
  generalize hrun : rotRight t (some nd) = res
  rcases hyl : ny.right with _ | b
  · rcases hpar : n.parent with _ | pa
    · simp [rotRight, RBTree.rightOf, RBTree.leftOf, RBTree.parentOf, RBTree.load, RBTree.modify,
          RBTree.store, Heap.read_set, bind, Except.bind, pure, Except.pure, hn, hy, hny, hne,
          hne.symm, hyl, hpar, hndlt, hylt] at hrun
      subst hrun
      intro t1 e
      cases e
      simp
    · obtain ⟨hpa1, hpa2, -, np, hnp⟩ := hp pa hpar
      have hplt := Heap.read_lt _ _ _ hnp
      by_cases hleft : np.left = some nd
      · simp [rotRight, RBTree.rightOf, RBTree.leftOf, RBTree.parentOf, RBTree.load, RBTree.modify,
          RBTree.store, Heap.read_set, bind, Except.bind, pure, Except.pure, hn, hy, hny, hne,
          hne.symm, hyl, hpar, hndlt, hylt, hnp, hplt, hpa1, hpa2, Ne.symm hpa1, Ne.symm hpa2, hleft] at hrun
        subst hrun
        intro t1 e
        cases e
        simp
      · have hleft2 : ¬ some nd = np.left := fun h => hleft h.symm
        by_cases hright : np.right = some nd
        · simp [rotRight, RBTree.rightOf, RBTree.leftOf, RBTree.parentOf, RBTree.load, RBTree.modify,
          RBTree.store, Heap.read_set, bind, Except.bind, pure, Except.pure, hn, hy, hny, hne,
          hne.symm, hyl, hpar, hndlt, hylt, hnp, hplt, hpa1, hpa2, Ne.symm hpa1, Ne.symm hpa2, hleft, hleft2, hright] at hrun
          subst hrun
          intro t1 e
          cases e
          simp
        · have hright2 : ¬ some nd = np.right := fun h => hright h.symm
          simp [rotRight, RBTree.rightOf, RBTree.leftOf, RBTree.parentOf, RBTree.load, RBTree.modify,
          RBTree.store, Heap.read_set, bind, Except.bind, pure, Except.pure, hn, hy, hny, hne,
          hne.symm, hyl, hpar, hndlt, hylt, hnp, hplt, hpa1, hpa2, Ne.symm hpa1, Ne.symm hpa2, hleft, hleft2, hright, hright2] at hrun
          subst hrun
          intro t1 e
          cases e
          simp
  · obtain ⟨hb1, hb2, nb, hnb⟩ := hb b hyl
    have hblt := Heap.read_lt _ _ _ hnb
    rcases hpar : n.parent with _ | pa
    · simp [rotRight, RBTree.rightOf, RBTree.leftOf, RBTree.parentOf, RBTree.load, RBTree.modify,
          RBTree.store, Heap.read_set, bind, Except.bind, pure, Except.pure, hn, hy, hny, hne,
          hne.symm, hyl, hpar, hndlt, hylt, hnb, hblt, hb1, hb2, Ne.symm hb1, Ne.symm hb2] at hrun
      subst hrun
      intro t1 e
      cases e
      simp
    · obtain ⟨hpa1, hpa2, hpa3, np, hnp⟩ := hp pa hpar
      have hpb : b ≠ pa := fun h => hpa3 (by rw [hyl, h])
      have hplt := Heap.read_lt _ _ _ hnp
      by_cases hleft : np.left = some nd
      · simp [rotRight, RBTree.rightOf, RBTree.leftOf, RBTree.parentOf, RBTree.load, RBTree.modify,
          RBTree.store, Heap.read_set, bind, Except.bind, pure, Except.pure, hn, hy, hny, hne,
          hne.symm, hyl, hpar, hndlt, hylt, hnb, hblt, hb1, hb2, Ne.symm hb1, Ne.symm hb2, hnp, hplt, hpa1, hpa2, Ne.symm hpa1, Ne.symm hpa2, hpb, Ne.symm hpb, hleft] at hrun
        subst hrun
        intro t1 e
        cases e
        simp
      · have hleft2 : ¬ some nd = np.left := fun h => hleft h.symm
        by_cases hright : np.right = some nd
        · simp [rotRight, RBTree.rightOf, RBTree.leftOf, RBTree.parentOf, RBTree.load, RBTree.modify,
          RBTree.store, Heap.read_set, bind, Except.bind, pure, Except.pure, hn, hy, hny, hne,
          hne.symm, hyl, hpar, hndlt, hylt, hnb, hblt, hb1, hb2, Ne.symm hb1, Ne.symm hb2, hnp, hplt, hpa1, hpa2, Ne.symm hpa1, Ne.symm hpa2, hpb, Ne.symm hpb, hleft, hleft2, hright] at hrun
          subst hrun
          intro t1 e
          cases e
          simp
        · have hright2 : ¬ some nd = np.right := fun h => hright h.symm
          simp [rotRight, RBTree.rightOf, RBTree.leftOf, RBTree.parentOf, RBTree.load, RBTree.modify,
          RBTree.store, Heap.read_set, bind, Except.bind, pure, Except.pure, hn, hy, hny, hne,
          hne.symm, hyl, hpar, hndlt, hylt, hnb, hblt, hb1, hb2, Ne.symm hb1, Ne.symm hb2, hnp, hplt, hpa1, hpa2, Ne.symm hpa1, Ne.symm hpa2, hpb, Ne.symm hpb, hleft, hleft2, hright, hright2] at hrun
          subst hrun
          intro t1 e
          cases e
          simp


theorem heap_ext (h h2 : Heap) (hlen : h2.length = h.length)
    (hr : ∀ x, Heap.read h2 x = Heap.read h x) : h2 = h := by
  apply List.ext_getElem?
  intro x
  have hx := hr x
  simp only [Heap.read, List.get?_eq_getElem?] at hx
  by_cases hlt : x < h.length
  · have h1 : x < h2.length := by omega
    rw [List.getElem?_eq_getElem hlt, List.getElem?_eq_getElem h1] at hx ⊢
    simpa using hx
  · rw [List.getElem?_eq_none (by omega), List.getElem?_eq_none (by omega)]

theorem rotLeft_effect (t : RBTree) (tr : Tree) (nd y : Nat) (n : Node)
    (hw : t.WellLinked tr) (hmem : nd ∈ tr.addrs) (hn : Heap.read t.heap nd = some n)
    (hny : n.right = some y) :
    ∃ t' ny, rotLeft t (some nd) = Except.ok t' ∧ t'.WellLinked (Tree.rotL nd tr) ∧
      t'.heap.length = t.heap.length ∧ Heap.read t.heap y = some ny ∧
      Heap.read t'.heap nd = some { n with right := ny.left, parent := some y } ∧
      Heap.read t'.heap y = some { ny with left := some nd, parent := n.parent } ∧
      (∀ b nb, ny.left = some b → Heap.read t.heap b = some nb →
        Heap.read t'.heap b = some { nb with parent := some nd }) ∧
      (∀ pa np, n.parent = some pa → Heap.read t.heap pa = some np →
        Heap.read t'.heap pa =
          some (if np.left = some nd then { np with left := some y }
                else { np with right := some y })) ∧
      (∀ x, x ≠ nd → x ≠ y → ny.left ≠ some x → n.parent ≠ some x →
        Heap.read t'.heap x = Heap.read t.heap x) ∧
      t'.root = (if n.parent = none then some y else t.root) := by
  obtain ⟨ny, hy, -, hne, hb, hp⟩ := rotLeft_pre t tr nd y n hw hmem hn hny
  have hb1 : ∀ b, ny.left = some b → b ≠ nd ∧ b ≠ y ∧ ∃ nb, Heap.read t.heap b = some nb := by
    intro b e
    obtain ⟨e1, e2, -, nb, e3, -⟩ := hb b e
    exact ⟨e1, e2, nb, e3⟩
  have hp1 : ∀ pa, n.parent = some pa →
      pa ≠ nd ∧ pa ≠ y ∧ ny.left ≠ some pa ∧ ∃ np, Heap.read t.heap pa = some np := by
    intro pa e
    obtain ⟨e1, e2, e3, np, e4, -⟩ := hp pa e
    exact ⟨e1, e2, e3, np, e4⟩
  obtain ⟨t', hrun, f1, f2, f3, f4, f5, f6⟩ := rotLeft_run t nd y n ny hn hy hny hne hb1 hp1
  obtain ⟨t2, hrun2, hw2⟩ := rotLeft_wellLinked t tr nd y n hw hmem hn hny
  rw [hrun] at hrun2
  cases hrun2
  exact ⟨t', ny, hrun, hw2, rotLeft_length t nd y n ny hn hy hny hne hb1 hp1 t' hrun, hy, f1, f2,
    f3, f4, f5, f6⟩

theorem rotRight_effect (t : RBTree) (tr : Tree) (nd y : Nat) (n : Node)
    (hw : t.WellLinked tr) (hmem : nd ∈ tr.addrs) (hn : Heap.read t.heap nd = some n)
    (hny : n.left = some y) :
    ∃ t' ny, rotRight t (some nd) = Except.ok t' ∧ t'.WellLinked (Tree.rotR nd tr) ∧
      t'.heap.length = t.heap.length ∧ Heap.read t.heap y = some ny ∧
      Heap.read t'.heap nd = some { n with left := ny.right, parent := some y } ∧
      Heap.read t'.heap y = some { ny with right := some nd, parent := n.parent } ∧
      (∀ b nb, ny.right = some b → Heap.read t.heap b = some nb →
        Heap.read t'.heap b = some { nb with parent := some nd }) ∧
      (∀ pa np, n.parent = some pa → Heap.read t.heap pa = some np →
        Heap.read t'.heap pa =
          some (if np.left = some nd then { np with left := some y }
                else if np.right = some nd then { np with right := some y } else np)) ∧
      (∀ x, x ≠ nd → x ≠ y → ny.right ≠ some x → n.parent ≠ some x →
        Heap.read t'.heap x = Heap.read t.heap x) ∧
      t'.root = (if n.parent = none then some y else t.root) := by
  obtain ⟨ny, hy, -, hne, hb, hp⟩ := rotRight_pre t tr nd y n hw hmem hn hny
  have hb1 : ∀ b, ny.right = some b → b ≠ nd ∧ b ≠ y ∧ ∃ nb, Heap.read t.heap b = some nb := by
    intro b e
    obtain ⟨e1, e2, -, nb, e3, -⟩ := hb b e
    exact ⟨e1, e2, nb, e3⟩
  have hp1 : ∀ pa, n.parent = some pa →
      pa ≠ nd ∧ pa ≠ y ∧ ny.right ≠ some pa ∧ ∃ np, Heap.read t.heap pa = some np := by
    intro pa e
    obtain ⟨e1, e2, e3, np, e4, -⟩ := hp pa e
    exact ⟨e1, e2, e3, np, e4⟩
  obtain ⟨t', hrun, f1, f2, f3, f4, f5, f6⟩ := rotRight_run t nd y n ny hn hy hny hne hb1 hp1
  obtain ⟨t2, hrun2, hw2⟩ := rotRight_wellLinked t tr nd y n hw hmem hn hny
  rw [hrun] at hrun2
  cases hrun2
  exact ⟨t', ny, hrun, hw2, rotRight_length t nd y n ny hn hy hny hne hb1 hp1 t' hrun, hy, f1,
    f2, f3, f4, f5, f6⟩

theorem rotLeft_then_rotRight (t : RBTree) (tr : Tree) (nd y : Nat) (n : Node)
    (hw : t.WellLinked tr) (hmem : nd ∈ tr.addrs) (hn : Heap.read t.heap nd = some n)
    (hny : n.right = some y) :
    ∃ t' t'', rotLeft t (some nd) = Except.ok t' ∧ rotRight t' (some y) = Except.ok t'' ∧
      t''.heap = t.heap ∧ t''.root = t.root := by
  obtain ⟨ny, hy, hnyp, hne, hb, hp⟩ := rotLeft_pre t tr nd y n hw hmem hn hny
  obtain ⟨t', ny1, hrun1, hw1, hlen1, hy1, F1, F2, F3, F4, F5, F6⟩ :=
    rotLeft_effect t tr nd y n hw hmem hn hny
  rw [hy] at hy1; cases hy1
  have hymem : y ∈ tr.addrs := by
    obtain ⟨nx, e1, -, e3, -⟩ := linked_mem t.heap nd tr none hw.2.1 hmem
    rw [hn] at e1; cases e1
    exact e3 y hny
  obtain ⟨t'', nd1, hrun2, hw2, hlen2, hnd1, G1, G2, G3, G4, G5, G6⟩ :=
    rotRight_effect t' (Tree.rotL nd tr) y nd _ hw1 (by rw [Tree.rotL_addrs]; exact hymem) F2 rfl
  rw [F1] at hnd1; cases hnd1
  simp only at G1 G2 G3 G4 G5 G6
  refine ⟨t', t'', hrun1, hrun2, ?_, ?_⟩
  · apply heap_ext _ _ (hlen2.trans hlen1)
    intro x
    by_cases hx1 : x = nd
    · subst hx1
      rw [G2, hn]
      cases n
      simp only at hny
      subst hny
      rfl
    by_cases hx2 : x = y
    · subst hx2
      rw [G1, hy]
      cases ny
      simp only at hnyp
      subst hnyp
      rfl
    by_cases hx3 : ny.left = some x
    · obtain ⟨-, -, -, nb, hnb, hnbp⟩ := hb x hx3
      rw [G3 x _ hx3 (F3 x nb hx3 hnb), hnb]
      cases nb
      simp only at hnbp
      subst hnbp
      rfl
    by_cases hx4 : n.parent = some x
    · obtain ⟨-, -, -, np, hnp, hslot⟩ := hp x hx4
      rw [G4 x _ hx4 (F4 x np hx4 hnp), hnp]
      rcases hslot with ⟨h1, h2, h3⟩ | ⟨h1, h2, h3⟩
      · cases np
        simp only at h1 h2 h3
        subst h1
        simp
      · cases np
        simp only at h1 h2 h3
        subst h1
        simp [h2, h3]
    · rw [G5 x hx2 hx1 hx3 hx4, F5 x hx1 hx2 hx3 hx4]
  · rw [G6, F6]
    have hroot := wellLinked_root_of_no_parent t tr nd n hw hmem hn
    by_cases hpn : n.parent = none
    · simp [hpn, hroot.1 hpn]
    · simp [hpn]

theorem rotRight_then_rotLeft (t : RBTree) (tr : Tree) (nd y : Nat) (n : Node)
    (hw : t.WellLinked tr) (hmem : nd ∈ tr.addrs) (hn : Heap.read t.heap nd = some n)
    (hny : n.left = some y) :
    ∃ t' t'', rotRight t (some nd) = Except.ok t' ∧ rotLeft t' (some y) = Except.ok t'' ∧
      t''.heap = t.heap ∧ t''.root = t.root := by
  obtain ⟨ny, hy, hnyp, hne, hb, hp⟩ := rotRight_pre t tr nd y n hw hmem hn hny
  obtain ⟨t', ny1, hrun1, hw1, hlen1, hy1, F1, F2, F3, F4, F5, F6⟩ :=
    rotRight_effect t tr nd y n hw hmem hn hny
  rw [hy] at hy1; cases hy1
  have hymem : y ∈ tr.addrs := by
    obtain ⟨nx, e1, e3, -, -⟩ := linked_mem t.heap nd tr none hw.2.1 hmem
    rw [hn] at e1; cases e1
    exact e3 y hny
  obtain ⟨t'', nd1, hrun2, hw2, hlen2, hnd1, G1, G2, G3, G4, G5, G6⟩ :=
    rotLeft_effect t' (Tree.rotR nd tr) y nd _ hw1 (by rw [Tree.rotR_addrs]; exact hymem) F2 rfl
  rw [F1] at hnd1; cases hnd1
  simp only at G1 G2 G3 G4 G5 G6
  refine ⟨t', t'', hrun1, hrun2, ?_, ?_⟩
  · apply heap_ext _ _ (hlen2.trans hlen1)
    intro x
    by_cases hx1 : x = nd
    · subst hx1
      rw [G2, hn]
      cases n
      simp only at hny
      subst hny
      rfl
    by_cases hx2 : x = y
    · subst hx2
      rw [G1, hy]
      cases ny
      simp only at hnyp
      subst hnyp
      rfl
    by_cases hx3 : ny.right = some x
    · obtain ⟨-, -, -, nb, hnb, hnbp⟩ := hb x hx3
      rw [G3 x _ hx3 (F3 x nb hx3 hnb), hnb]
      cases nb
      simp only at hnbp
      subst hnbp
      rfl
    by_cases hx4 : n.parent = some x
    · obtain ⟨-, -, -, np, hnp, hslot⟩ := hp x hx4
      rw [G4 x _ hx4 (F4 x np hx4 hnp), hnp]
      rcases hslot with ⟨h1, h2, h3⟩ | ⟨h1, h2, h3⟩
      · cases np
        simp only at h1 h2 h3
        subst h1
        simp
      · cases np
        simp only at h1 h2 h3
        subst h1
        simp [h2, h3]
    · rw [G5 x hx2 hx1 hx3 hx4, F5 x hx1 hx2 hx3 hx4]
  · rw [G6, F6]
    have hroot := wellLinked_root_of_no_parent t tr nd n hw hmem hn
    by_cases hpn : n.parent = none
    · simp [hpn, hroot.1 hpn]
    · simp [hpn]



/-- C17: in a consistently linked tree, `rotLeft` at a node `nd` with right child `y`
succeeds and leaves a consistently linked tree in which `y` sits where `nd` sat (the root
reference when `nd` was the root, otherwise the same child slot of the former parent of
`nd`), `nd` is the left child of `y`, the former left child of `y` is the right child of
`nd`, the parent references of `y`, `nd` and the moved child agree with these links, keys
and colours are untouched, and every other node is unchanged; `rotRight` at a node with
left child `y` does the mirror image. -/
theorem rotation_effect (t : RBTree) (tr : Tree) (nd : Nat) (n : Node)
    (hw : t.WellLinked tr) (hmem : nd ∈ tr.addrs) (hn : Heap.read t.heap nd = some n) :
    (∀ y, n.right = some y →
      ∃ t' ny, rotLeft t (some nd) = Except.ok t' ∧ Heap.read t.heap y = some ny ∧
        t'.WellLinked (Tree.rotL nd tr) ∧
        t'.root = (if t.root = some nd then some y else t.root) ∧
        (∀ pa np, n.parent = some pa → Heap.read t.heap pa = some np →
          (np.left = some nd ∧ Heap.read t'.heap pa = some { np with left := some y }) ∨
          (np.left ≠ some nd ∧ np.right = some nd ∧
            Heap.read t'.heap pa = some { np with right := some y })) ∧
        Heap.read t'.heap y = some { ny with left := some nd, parent := n.parent } ∧
        Heap.read t'.heap nd = some { n with right := ny.left, parent := some y } ∧
        (∀ b nb, ny.left = some b → Heap.read t.heap b = some nb →
          Heap.read t'.heap b = some { nb with parent := some nd }) ∧
        (∀ x, x ≠ nd → x ≠ y → ny.left ≠ some x → n.parent ≠ some x →
          Heap.read t'.heap x = Heap.read t.heap x)) ∧
    (∀ y, n.left = some y →
      ∃ t' ny, rotRight t (some nd) = Except.ok t' ∧ Heap.read t.heap y = some ny ∧
        t'.WellLinked (Tree.rotR nd tr) ∧
        t'.root = (if t.root = some nd then some y else t.root) ∧
        (∀ pa np, n.parent = some pa → Heap.read t.heap pa = some np →
          (np.left = some nd ∧ Heap.read t'.heap pa = some { np with left := some y }) ∨
          (np.left ≠ some nd ∧ np.right = some nd ∧
            Heap.read t'.heap pa = some { np with right := some y })) ∧
        Heap.read t'.heap y = some { ny with right := some nd, parent := n.parent } ∧
        Heap.read t'.heap nd = some { n with left := ny.right, parent := some y } ∧
        (∀ b nb, ny.right = some b → Heap.read t.heap b = some nb →
          Heap.read t'.heap b = some { nb with parent := some nd }) ∧
        (∀ x, x ≠ nd → x ≠ y → ny.right ≠ some x → n.parent ≠ some x →
          Heap.read t'.heap x = Heap.read t.heap x)) := by
  have hroot := wellLinked_root_of_no_parent t tr nd n hw hmem hn
  constructor
  · intro y hny
    obtain ⟨ny, hy, -, -, -, hp⟩ := rotLeft_pre t tr nd y n hw hmem hn hny
    obtain ⟨t', ny1, hrun, hw1, -, hy1, f1, f2, f3, f4, f5, f6⟩ :=
      rotLeft_effect t tr nd y n hw hmem hn hny
    rw [hy] at hy1; cases hy1
    refine ⟨t', ny, hrun, hy, hw1, ?_, ?_, f2, f1, f3, f5⟩
    · rw [f6]
      by_cases hpn : n.parent = none
      · simp [hpn, hroot.1 hpn]
      · have : t.root ≠ some nd := fun e => hpn (hroot.2 e)
        simp [hpn, this]
    · intro pa np hpa hnp
      obtain ⟨-, -, -, np1, hnp1, hslot⟩ := hp pa hpa
      rw [hnp] at hnp1; cases hnp1
      have h4 := f4 pa np hpa hnp
      rcases hslot with ⟨h1, -, -⟩ | ⟨h1, h2, -⟩
      · left
        exact ⟨h1, by rw [h4]; simp [h1]⟩
      · right
        exact ⟨h2, h1, by rw [h4]; simp [h2]⟩
  · intro y hny
    obtain ⟨ny, hy, -, -, -, hp⟩ := rotRight_pre t tr nd y n hw hmem hn hny
    obtain ⟨t', ny1, hrun, hw1, -, hy1, f1, f2, f3, f4, f5, f6⟩ :=
      rotRight_effect t tr nd y n hw hmem hn hny
    rw [hy] at hy1; cases hy1
    refine ⟨t', ny, hrun, hy, hw1, ?_, ?_, f2, f1, f3, f5⟩
    · rw [f6]
      by_cases hpn : n.parent = none
      · simp [hpn, hroot.1 hpn]
      · have : t.root ≠ some nd := fun e => hpn (hroot.2 e)
        simp [hpn, this]
    · intro pa np hpa hnp
      obtain ⟨-, -, -, np1, hnp1, hslot⟩ := hp pa hpa
      rw [hnp] at hnp1; cases hnp1
      have h4 := f4 pa np hpa hnp
      rcases hslot with ⟨h1, -, -⟩ | ⟨h1, h2, -⟩
      · left
        exact ⟨h1, by rw [h4]; simp [h1]⟩
      · right
        exact ⟨h2, h1, by rw [h4]; simp [h2, h1]⟩

/-- Witness of C17 at the root (address 0) of the tree 10, 20, 30. -/
theorem rotation_effect_witness :
    sample3.WellLinked sampleTree3 ∧ 0 ∈ sampleTree3.addrs ∧
      Heap.read sample3.heap 0 = some ⟨20, Color.BLACK, some 1, some 2, none⟩ ∧
      ((∀ y, (some 2 : Ptr) = some y →
        ∃ t' ny, rotLeft sample3 (some 0) = Except.ok t' ∧
          Heap.read sample3.heap y = some ny ∧
          t'.WellLinked (Tree.rotL 0 sampleTree3) ∧
          t'.root = (if sample3.root = some 0 then some y else sample3.root) ∧
          (∀ pa np, (none : Ptr) = some pa → Heap.read sample3.heap pa = some np →
            (np.left = some 0 ∧ Heap.read t'.heap pa = some { np with left := some y }) ∨
            (np.left ≠ some 0 ∧ np.right = some 0 ∧
              Heap.read t'.heap pa = some { np with right := some y })) ∧
          Heap.read t'.heap y = some { ny with left := some 0, parent := none } ∧
          Heap.read t'.heap 0 =
            some ⟨20, Color.BLACK, some 1, ny.left, some y⟩ ∧
          (∀ b nb, ny.left = some b → Heap.read sample3.heap b = some nb →
            Heap.read t'.heap b = some { nb with parent := some 0 }) ∧
          (∀ x, x ≠ 0 → x ≠ y → ny.left ≠ some x → (none : Ptr) ≠ some x →
            Heap.read t'.heap x = Heap.read sample3.heap x)) ∧
      (∀ y, (some 1 : Ptr) = some y →
        ∃ t' ny, rotRight sample3 (some 0) = Except.ok t' ∧
          Heap.read sample3.heap y = some ny ∧
          t'.WellLinked (Tree.rotR 0 sampleTree3) ∧
          t'.root = (if sample3.root = some 0 then some y else sample3.root) ∧
          (∀ pa np, (none : Ptr) = some pa → Heap.read sample3.heap pa = some np →
            (np.left = some 0 ∧ Heap.read t'.heap pa = some { np with left := some y }) ∨
            (np.left ≠ some 0 ∧ np.right = some 0 ∧
              Heap.read t'.heap pa = some { np with right := some y })) ∧
          Heap.read t'.heap y = some { ny with right := some 0, parent := none } ∧
          Heap.read t'.heap 0 =
            some ⟨20, Color.BLACK, ny.right, some 2, some y⟩ ∧
          (∀ b nb, ny.right = some b → Heap.read sample3.heap b = some nb →
            Heap.read t'.heap b = some { nb with parent := some 0 }) ∧
          (∀ x, x ≠ 0 → x ≠ y → ny.right ≠ some x → (none : Ptr) ≠ some x →
            Heap.read t'.heap x = Heap.read sample3.heap x))) :=
  ⟨by decide, by decide, by decide,
    rotation_effect sample3 sampleTree3 0 ⟨20, Color.BLACK, some 1, some 2, none⟩
      (by decide) (by decide) (by decide)⟩

/-- C20: in a consistently linked tree, `rotLeft` at a node `nd` with right child `y`
followed by `rotRight` at `y` succeeds and gives back the heap and the root reference it
started from; likewise `rotRight` at a node with left child `y` followed by `rotLeft` at
`y`. -/
theorem rotations_mutually_inverse (t : RBTree) (tr : Tree) (nd : Nat) (n : Node)
    (hw : t.WellLinked tr) (hmem : nd ∈ tr.addrs) (hn : Heap.read t.heap nd = some n) :
    (∀ y, n.right = some y →
      ∃ t' t'', rotLeft t (some nd) = Except.ok t' ∧ rotRight t' (some y) = Except.ok t'' ∧
        t''.heap = t.heap ∧ t''.root = t.root) ∧
    (∀ y, n.left = some y →
      ∃ t' t'', rotRight t (some nd) = Except.ok t' ∧ rotLeft t' (some y) = Except.ok t'' ∧
        t''.heap = t.heap ∧ t''.root = t.root) :=
  ⟨fun y hny => rotLeft_then_rotRight t tr nd y n hw hmem hn hny,
    fun y hny => rotRight_then_rotLeft t tr nd y n hw hmem hn hny⟩

/-- Witness of C20 at the root (address 0) of the tree 10, 20, 30. -/
theorem rotations_mutually_inverse_witness :
    sample3.WellLinked sampleTree3 ∧ 0 ∈ sampleTree3.addrs ∧
      Heap.read sample3.heap 0 = some ⟨20, Color.BLACK, some 1, some 2, none⟩ ∧
      ((∀ y, (some 2 : Ptr) = some y →
        ∃ t' t'', rotLeft sample3 (some 0) = Except.ok t' ∧
          rotRight t' (some y) = Except.ok t'' ∧
          t''.heap = sample3.heap ∧ t''.root = sample3.root) ∧
      (∀ y, (some 1 : Ptr) = some y →
        ∃ t' t'', rotRight sample3 (some 0) = Except.ok t' ∧
          rotLeft t' (some y) = Except.ok t'' ∧
          t''.heap = sample3.heap ∧ t''.root = sample3.root)) :=
  ⟨by decide, by decide, by decide,
    rotations_mutually_inverse sample3 sampleTree3 0 ⟨20, Color.BLACK, some 1, some 2, none⟩
      (by decide) (by decide) (by decide)⟩

theorem Heap.read_upd (h : Heap) (a : Nat) (f : Node → Node) (x : Nat) :
    Heap.read (Heap.upd h a f) x = if a = x then (Heap.read h x).map f else Heap.read h x := by
  unfold Heap.upd
  cases hr : Heap.read h a with
  | none =>
    by_cases hax : a = x
    · subst hax; simp [hr]
    · simp [hax]
  | some n =>
    have hlt := Heap.read_lt _ _ _ hr
    by_cases hax : a = x
    · subst hax; simp [Heap.read_set, hlt, hr]
    · simp [Heap.read_set, hax]

theorem Heap.length_upd (h : Heap) (a : Nat) (f : Node → Node) :
    (Heap.upd h a f).length = h.length := by
  unfold Heap.upd
  cases Heap.read h a <;> simp

theorem Heap.read_upd_map {β : Type} (h : Heap) (a : Nat) (f : Node → Node) (x : Nat)
    (g : Node → β) :
    (Heap.read (Heap.upd h a f) x).map g =
      if a = x then (Heap.read h x).map (fun n => g (f n)) else (Heap.read h x).map g := by
  rw [Heap.read_upd]
  by_cases hax : a = x
  · simp [hax, Option.map_map, Function.comp_def]
  · simp [hax]

theorem modify_upd (t : RBTree) (a : Nat) (f : Node → Node)
    (hs : (Heap.read t.heap a).isSome = true) :
    t.modify (some a) f = Except.ok { t with heap := Heap.upd t.heap a f } := by
  cases hr : Heap.read t.heap a with
  | none => simp [hr] at hs
  | some n => simp [RBTree.modify, RBTree.store, Heap.upd, hr, pure, Except.pure]

theorem leftOf_of_map (t : RBTree) (x : Nat) (v : Ptr)
    (h : (Heap.read t.heap x).map Node.left = some v) : t.leftOf (some x) = Except.ok v := by
  cases hr : Heap.read t.heap x with
  | none => simp [hr] at h
  | some n =>
    simp only [hr, Option.map_some', Option.some.injEq] at h
    simp [RBTree.leftOf, RBTree.load, hr, bind, Except.bind, pure, Except.pure, h]

theorem rightOf_of_map (t : RBTree) (x : Nat) (v : Ptr)
    (h : (Heap.read t.heap x).map Node.right = some v) : t.rightOf (some x) = Except.ok v := by
  cases hr : Heap.read t.heap x with
  | none => simp [hr] at h
  | some n =>
    simp only [hr, Option.map_some', Option.some.injEq] at h
    simp [RBTree.rightOf, RBTree.load, hr, bind, Except.bind, pure, Except.pure, h]

theorem parentOf_of_map (t : RBTree) (x : Nat) (v : Ptr)
    (h : (Heap.read t.heap x).map Node.parent = some v) : t.parentOf (some x) = Except.ok v := by
  cases hr : Heap.read t.heap x with
  | none => simp [hr] at h
  | some n =>
    simp only [hr, Option.map_some', Option.some.injEq] at h
    simp [RBTree.parentOf, RBTree.load, hr, bind, Except.bind, pure, Except.pure, h]

theorem Heap.isSome_read_upd (h : Heap) (a : Nat) (f : Node → Node) (x : Nat) :
    (Heap.read (Heap.upd h a f) x).isSome = (Heap.read h x).isSome := by
  rw [Heap.read_upd]
  by_cases hax : a = x
  · simp [hax]
  · simp [hax]


theorem Heap.read_updOpt_map {β : Type} (h : Heap) (p : Ptr) (f : Node → Node) (x : Nat)
    (g : Node → β) :
    (Heap.read (Heap.updOpt h p f) x).map g =
      if p = some x then (Heap.read h x).map (fun n => g (f n)) else (Heap.read h x).map g := by
  cases p with
  | none => simp [Heap.updOpt]
  | some a => simp [Heap.updOpt, Heap.read_upd_map]

theorem Heap.isSome_read_updOpt (h : Heap) (p : Ptr) (f : Node → Node) (x : Nat) :
    (Heap.read (Heap.updOpt h p f) x).isSome = (Heap.read h x).isSome := by
  cases p with
  | none => simp [Heap.updOpt]
  | some a => simp [Heap.updOpt, Heap.isSome_read_upd]

theorem ok_bind {ε α β : Type} (x : α) (f : α → Except ε β) :
    (Except.ok x >>= f) = f x := rfl

theorem setLeft_tail (t1 : RBTree) (n a : Nat) (nl : Ptr)
    (h1 : (Heap.read t1.heap a).isSome = true)
    (h2 : (Heap.read t1.heap n).map Node.left = some nl)
    (h3 : ∀ l, nl = some l → (Heap.read t1.heap l).isSome = true) :
    (do
      let y ← t1.modify (some a) (fun x => { x with parent := some n })
      let prevLeft ← y.leftOf (some n)
      let t ← y.modify (some n) (fun x => { x with left := some a })
      if prevLeft ≠ none then do
        let y ← t.modify prevLeft (fun x => { x with parent := none })
        pure (y, prevLeft)
      else do
        let y ← (pure t : Run RBTree)
        pure (y, prevLeft)) =
      (Except.ok
        ({ t1 with
            heap :=
              Heap.updOpt
                (Heap.upd (Heap.upd t1.heap a (fun x => { x with parent := some n })) n
                  (fun x => { x with left := some a }))
                nl (fun x => { x with parent := none }) },
          nl) : Run (RBTree × Ptr)) := by
  have hn : (Heap.read t1.heap n).isSome = true := by
    cases hr : Heap.read t1.heap n with
    | none => simp [hr] at h2
    | some v => rfl
  rw [modify_upd t1 a _ h1, ok_bind]
  rw [leftOf_of_map _ n nl (by
    simp only [Heap.read_upd_map]
    split <;> exact h2), ok_bind]
  rw [modify_upd _ n _ (by simp only [Heap.isSome_read_upd]; exact hn), ok_bind]
  cases nl with
  | none => rfl
  | some l =>
    rw [if_pos (by simp), modify_upd _ l _ (by
      simp only [Heap.isSome_read_upd]; exact h3 l rfl), ok_bind]
    rfl

theorem setLeft_run (t : RBTree) (n : Nat) (nn : Node) (m fp : Ptr) (slotLeft : Bool)
    (hn : Heap.read t.heap n = some nn) (hne : nn.left ≠ m)
    (hm : ∀ a, m = some a → ∃ na, Heap.read t.heap a = some na ∧ na.parent = fp)
    (hm0 : m = none → fp = none)
    (hfp : ∀ p, fp = some p →
      ∃ np, Heap.read t.heap p = some np ∧ (np.left = m ↔ slotLeft = true))
    (hl : ∀ l, nn.left = some l → (Heap.read t.heap l).isSome = true) :
    setLeft t (some n) m =
      Except.ok
        ({ t with
            heap :=
              Heap.updOpt
                (Heap.upd
                  (Heap.updOpt
                    (Heap.updOpt t.heap fp
                      (fun x => if slotLeft then { x with left := none }
                                else { x with right := none }))
                    m (fun x => { x with parent := some n }))
                  n (fun x => { x with left := m }))
                nn.left (fun x => { x with parent := none }) },
          nn.left) := by
  have e1 : t.leftOf (some n) = Except.ok nn.left := leftOf_of_map t n _ (by simp [hn])
  have hne2 : ¬ nn.left = m := hne
  cases m with
  | none =>
    have hfp0 := hm0 rfl
    subst hfp0
    have e2 : (Heap.read t.heap n).isSome = true := by simp [hn]
    cases hL : nn.left with
    | none => exact absurd hL hne
    | some l =>
      have e3 : (Heap.read (Heap.upd t.heap n (fun x => { x with left := none })) l).isSome
          = true := by
        rw [Heap.isSome_read_upd]; exact hl l hL
      simp only [setLeft, e1, hL, bind, Except.bind, pure, Except.pure, ne_eq,
        not_true_eq_false, if_false, reduceCtorEq, not_false_eq_true, if_true,
        modify_upd t n _ e2, Heap.updOpt]
      rw [modify_upd _ l _ e3]
  | some a =>
    obtain ⟨na, hna, hnap⟩ := hm a rfl
    have e2 : t.parentOf (some a) = Except.ok fp := parentOf_of_map t a _ (by simp [hna, hnap])
    have hnsome : (Heap.read t.heap a).isSome = true := by simp [hna]
    unfold setLeft
    rw [e1, ok_bind]
    dsimp only
    rw [if_neg hne2, if_pos (by simp), e2, ok_bind]
    cases fp with
    | none =>
      rw [if_neg (by simp), pure_bind]
      exact setLeft_tail t n a nn.left hnsome (by simp [hn]) hl
    | some p =>
      obtain ⟨np, hnp, hslot⟩ := hfp p rfl
      have e4 : t.leftOf (some p) = Except.ok np.left := leftOf_of_map t p _ (by simp [hnp])
      have e5 : (Heap.read t.heap p).isSome = true := by simp [hnp]
      rw [if_pos (by simp), e4, ok_bind]
      cases hs : slotLeft with
      | true =>
        have hleft : np.left = some a := hslot.2 hs
        have hpn : p ≠ n := by
          intro e
          subst e
          rw [hn] at hnp
          cases hnp
          exact hne hleft
        rw [if_pos hleft, modify_upd t p _ e5, ok_bind]
        refine (setLeft_tail _ n a nn.left ?_ ?_ ?_).trans ?_
        · simp only [Heap.isSome_read_upd]; exact hnsome
        · simp only [Heap.read_upd_map, hpn, if_false]; simp [hn]
        · intro l hL
          simp only [Heap.isSome_read_upd]; exact hl l hL
        · simp [Heap.updOpt]
      | false =>
        have hleft : ¬ np.left = some a := fun h => by
          have := hslot.1 h
          rw [hs] at this
          cases this
        rw [if_neg hleft, modify_upd t p _ e5, ok_bind]
        refine (setLeft_tail _ n a nn.left ?_ ?_ ?_).trans ?_
        · simp only [Heap.isSome_read_upd]; exact hnsome
        · simp only [Heap.read_upd_map]
          split <;> simp [hn]
        · intro l hL
          simp only [Heap.isSome_read_upd]; exact hl l hL
        · simp [Heap.updOpt]


theorem heapLinked_node (h : Heap) (hL : HeapLinked h) (a : Nat) (n : Node)
    (hr : Heap.read h a = some n) : NodeLinked h a n :=
  hL a (Heap.read_lt h a n hr) n hr

theorem Heap.read_updOpt (h : Heap) (p : Ptr) (f : Node → Node) (x : Nat) :
    Heap.read (Heap.updOpt h p f) x =
      if p = some x then (Heap.read h x).map f else Heap.read h x := by
  cases p with
  | none => simp [Heap.updOpt]
  | some a => simp [Heap.updOpt, Heap.read_upd]

theorem Heap.read_four (h : Heap) (p1 p2 p4 : Ptr) (a3 : Nat) (f1 f2 f3 f4 : Node → Node)
    (x : Nat) (v : Node) (hx : Heap.read h x = some v) :
    Heap.read (Heap.updOpt (Heap.upd (Heap.updOpt (Heap.updOpt h p1 f1) p2 f2) a3 f3) p4 f4) x =
      some ((if p4 = some x then f4 else id) ((if a3 = x then f3 else id)
        ((if p2 = some x then f2 else id) ((if p1 = some x then f1 else id) v)))) := by
  rw [Heap.read_updOpt, Heap.read_upd, Heap.read_updOpt, Heap.read_updOpt, hx]
  by_cases h1 : p1 = some x <;> by_cases h2 : p2 = some x <;> by_cases h3 : a3 = x <;>
    by_cases h4 : p4 = some x <;> simp [h1, h2, h3, h4]

theorem Heap.read_four_none (h : Heap) (p1 p2 p4 : Ptr) (a3 : Nat) (f1 f2 f3 f4 : Node → Node)
    (x : Nat) (hx : Heap.read h x = none) :
    Heap.read (Heap.updOpt (Heap.upd (Heap.updOpt (Heap.updOpt h p1 f1) p2 f2) a3 f3) p4 f4) x =
      none := by
  rw [Heap.read_updOpt, Heap.read_upd, Heap.read_updOpt, Heap.read_updOpt, hx]
  simp


theorem setLeft_spec (t : RBTree) (n : Nat) (nn : Node) (m : Ptr)
    (hL : HeapLinked t.heap) (hn : Heap.read t.heap n = some nn)
    (hm : ∀ a, m = some a → (Heap.read t.heap a).isSome = true) :
    (nn.left = m → setLeft t (some n) m = Except.ok (t, none)) ∧
    (nn.left ≠ m →
      ∃ t', setLeft t (some n) m = Except.ok (t', nn.left) ∧ t'.root = t.root ∧
        t'.dumper = t.dumper ∧
        (Heap.read t'.heap n).map Node.left = some m ∧
        (∀ a, m = some a → (Heap.read t'.heap a).map Node.parent = some (some n)) ∧
        (∀ a x, m = some a →
          ((Heap.read t.heap x).map Node.left = some (some a) →
            (Heap.read t'.heap x).map Node.left = some none) ∧
          ((Heap.read t.heap x).map Node.right = some (some a) →
            (Heap.read t'.heap x).map Node.right = some none)) ∧
        (∀ l, nn.left = some l → (Heap.read t'.heap l).map Node.parent = some none) ∧
        (∀ x, (Heap.read t'.heap x).map Node.key = (Heap.read t.heap x).map Node.key ∧
          (Heap.read t'.heap x).map Node.color = (Heap.read t.heap x).map Node.color) ∧
        (∀ x, x ≠ n → (∀ a, m = some a → (Heap.read t.heap x).map Node.left ≠ some (some a)) →
          (Heap.read t'.heap x).map Node.left = (Heap.read t.heap x).map Node.left) ∧
        (∀ x, (∀ a, m = some a → (Heap.read t.heap x).map Node.right ≠ some (some a)) →
          (Heap.read t'.heap x).map Node.right = (Heap.read t.heap x).map Node.right) ∧
        (∀ x, some x ≠ m → some x ≠ nn.left →
          (Heap.read t'.heap x).map Node.parent = (Heap.read t.heap x).map Node.parent)) := by
  constructor
  · intro h
    have e1 : t.leftOf (some n) = Except.ok nn.left := leftOf_of_map t n _ (by simp [hn])
    unfold setLeft
    rw [e1, ok_bind]
    dsimp only
    rw [if_pos h]
    rfl
  · intro hne
    -- the former parent of the incoming node and the slot it holds the node in
    have hdata : ∃ (fp : Ptr) (slotLeft : Bool),
        (∀ a, m = some a → ∃ na, Heap.read t.heap a = some na ∧ na.parent = fp) ∧
        (m = none → fp = none) ∧
        (∀ p, fp = some p → ∃ np, Heap.read t.heap p = some np ∧
          (np.left = m ↔ slotLeft = true) ∧ (np.right = m ↔ slotLeft = false)) := by
      cases m with
      | none => exact ⟨none, false, by simp, by simp, by simp⟩
      | some a =>
        cases hna : Heap.read t.heap a with
        | none =>
          have := hm a rfl
          simp [hna] at this
        | some na =>
          obtain ⟨-, -, hpar, -⟩ := heapLinked_node _ hL a na hna
          cases hp : na.parent with
          | none =>
            refine ⟨none, false, ?_, by simp, by simp⟩
            intro a1 e; cases e; exact ⟨na, hna, hp⟩
          | some p =>
            obtain ⟨np, hnp, hslot⟩ := hpar p hp
            obtain ⟨-, -, -, hboth⟩ := heapLinked_node _ hL p np hnp
            refine ⟨some p, decide (np.left = some a), ?_, by simp, ?_⟩
            · intro a1 e; cases e; exact ⟨na, hna, hp⟩
            · intro p1 e
              cases e
              refine ⟨np, hnp, by simp, ?_⟩
              simp only [decide_eq_false_iff_not]
              constructor
              · intro hr hl
                have := hboth (hl.trans hr.symm)
                rw [this] at hl
                cases hl
              · intro hl
                rcases hslot with h1 | h1
                · exact absurd h1 hl
                · exact h1
    obtain ⟨fp, slotLeft, hA, h0, hP⟩ := hdata
    have hchild : ∀ l, nn.left = some l → (Heap.read t.heap l).isSome = true := by
      intro l hl
      obtain ⟨hc, -, -, -⟩ := heapLinked_node _ hL n nn hn
      obtain ⟨nc, hnc, -⟩ := hc l hl
      simp [Option.mem_def.1 hnc]
    have hrun := setLeft_run t n nn m fp slotLeft hn hne hA h0
      (by
        intro p e
        obtain ⟨np, e1, e2, -⟩ := hP p e
        exact ⟨np, e1, e2⟩) hchild
    -- whoever holds the incoming node in a slot is its former parent
    have hholder : ∀ a x nx, m = some a → Heap.read t.heap x = some nx →
        (nx.left = some a ∨ nx.right = some a) → fp = some x := by
      intro a x nx e hx hslot
      obtain ⟨na, hna, hnap⟩ := hA a e
      obtain ⟨hc1, hc2, -, -⟩ := heapLinked_node _ hL x nx hx
      rcases hslot with h1 | h1
      · obtain ⟨nc, hnc, hp⟩ := hc1 a h1
        rw [Option.mem_def.1 hnc] at hna; cases hna
        rw [← hnap, hp]
      · obtain ⟨nc, hnc, hp⟩ := hc2 a h1
        rw [Option.mem_def.1 hnc] at hna; cases hna
        rw [← hnap, hp]
    have hH := fun x v hx => Heap.read_four t.heap fp m nn.left n
      (fun x => if slotLeft then { x with left := none } else { x with right := none })
      (fun x => { x with parent := some n }) (fun x => { x with left := m })
      (fun x => { x with parent := none }) x v hx
    have hH0 := fun x hx => Heap.read_four_none t.heap fp m nn.left n
      (fun x => if slotLeft then { x with left := none } else { x with right := none })
      (fun x => { x with parent := some n }) (fun x => { x with left := m })
      (fun x => { x with parent := none }) x hx
    generalize
      Heap.updOpt (Heap.upd (Heap.updOpt (Heap.updOpt t.heap fp
        (fun x => if slotLeft then { x with left := none } else { x with right := none }))
        m (fun x => { x with parent := some n })) n (fun x => { x with left := m }))
        nn.left (fun x => { x with parent := none }) = H at hrun hH hH0
    refine ⟨_, hrun, rfl, rfl, ?_, ?_, ?_, ?_, ?_, ?_, ?_, ?_⟩
    · rw [hH n nn hn]
      by_cases h4 : nn.left = some n <;> simp [h4]
    · intro a e
      subst e
      obtain ⟨na, hna, -⟩ := hA a rfl
      rw [hH a na hna]
      by_cases h3 : n = a <;> simp [h3, hne]
    · intro a x e
      subst e
      constructor
      · intro hx
        obtain ⟨nx, hnx, hxl⟩ := Option.map_eq_some'.1 hx
        have hfp := hholder a x nx rfl hnx (Or.inl hxl)
        subst hfp
        obtain ⟨np, hnp, hs1, -⟩ := hP x rfl
        rw [hnx] at hnp; cases hnp
        have hs : slotLeft = true := hs1.1 hxl
        subst hs
        have hxn : ¬ n = x := by
          intro e
          subst e
          rw [hn] at hnx; cases hnx
          exact hne hxl
        rw [hH x nx hnx]
        by_cases h2 : some a = some x <;> by_cases h4 : nn.left = some x <;> simp [h2, h4, hxn]
      · intro hx
        obtain ⟨nx, hnx, hxr⟩ := Option.map_eq_some'.1 hx
        have hfp := hholder a x nx rfl hnx (Or.inr hxr)
        subst hfp
        obtain ⟨np, hnp, -, hs1⟩ := hP x rfl
        rw [hnx] at hnp; cases hnp
        have hs : slotLeft = false := hs1.1 hxr
        subst hs
        rw [hH x nx hnx]
        by_cases h2 : some a = some x <;> by_cases h3 : n = x <;>
          by_cases h4 : nn.left = some x <;> simp [h2, h3, h4]
    · intro l hl
      have := hchild l hl
      obtain ⟨nl, hnl⟩ := Option.isSome_iff_exists.1 this
      rw [hH l nl hnl]
      simp [hl]
    · intro x
      cases hx : Heap.read t.heap x with
      | none => rw [hH0 x hx]; simp
      | some v =>
        rw [hH x v hx]
        cases slotLeft <;> by_cases h1 : fp = some x <;> by_cases h2 : m = some x <;>
          by_cases h3 : n = x <;> by_cases h4 : nn.left = some x <;> simp [h1, h2, h3, h4]
    · intro x hxn hxl
      cases hx : Heap.read t.heap x with
      | none => rw [hH0 x hx]
      | some v =>
        rw [hH x v hx]
        have h3 : ¬ n = x := fun e => hxn e.symm
        by_cases h1 : fp = some x
        · obtain ⟨np, hnp, hs1, -⟩ := hP x h1
          rw [hx] at hnp; cases hnp
          have hs : slotLeft = false := by
            cases hs : slotLeft with
            | false => rfl
            | true =>
              have hvl := hs1.2 hs
              cases m with
              | none =>
                have := h0 rfl
                rw [this] at h1
                cases h1
              | some a =>
                have := hxl a rfl
                simp [hx, hvl] at this
          subst hs
          by_cases h2 : m = some x <;> by_cases h4 : nn.left = some x <;> simp [h1, h2, h3, h4]
        · by_cases h2 : m = some x <;> by_cases h4 : nn.left = some x <;> simp [h1, h2, h3, h4]
    · intro x hxr
      cases hx : Heap.read t.heap x with
      | none => rw [hH0 x hx]
      | some v =>
        rw [hH x v hx]
        by_cases h1 : fp = some x
        · obtain ⟨np, hnp, -, hs1⟩ := hP x h1
          rw [hx] at hnp; cases hnp
          have hs : slotLeft = true := by
            cases hs : slotLeft with
            | true => rfl
            | false =>
              have hvl := hs1.2 hs
              cases m with
              | none =>
                have := h0 rfl
                rw [this] at h1
                cases h1
              | some a =>
                have := hxr a rfl
                simp [hx, hvl] at this
          subst hs
          by_cases h2 : m = some x <;> by_cases h3 : n = x <;>
            by_cases h4 : nn.left = some x <;> simp [h1, h2, h3, h4]
        · by_cases h2 : m = some x <;> by_cases h3 : n = x <;>
            by_cases h4 : nn.left = some x <;> simp [h1, h2, h3, h4]
    · intro x hxm hxl
      cases hx : Heap.read t.heap x with
      | none => rw [hH0 x hx]
      | some v =>
        rw [hH x v hx]
        have h2 : ¬ m = some x := fun e => hxm e.symm
        have h4 : ¬ nn.left = some x := fun e => hxl e.symm
        cases slotLeft <;> by_cases h1 : fp = some x <;> by_cases h3 : n = x <;>
          simp [h1, h2, h3, h4]


theorem setRight_tail (t1 : RBTree) (n a : Nat) (nl : Ptr)
    (h1 : (Heap.read t1.heap a).isSome = true)
    (h2 : (Heap.read t1.heap n).map Node.right = some nl)
    (h3 : ∀ l, nl = some l → (Heap.read t1.heap l).isSome = true) :
    (do
      let y ← t1.modify (some a) (fun x => { x with parent := some n })
      let prevRight ← y.rightOf (some n)
      let t ← y.modify (some n) (fun x => { x with right := some a })
      if prevRight ≠ none then do
        let y ← t.modify prevRight (fun x => { x with parent := none })
        pure (y, prevRight)
      else do
        let y ← (pure t : Run RBTree)
        pure (y, prevRight)) =
      (Except.ok
        ({ t1 with
            heap :=
              Heap.updOpt
                (Heap.upd (Heap.upd t1.heap a (fun x => { x with parent := some n })) n
                  (fun x => { x with right := some a }))
                nl (fun x => { x with parent := none }) },
          nl) : Run (RBTree × Ptr)) := by
  have hn : (Heap.read t1.heap n).isSome = true := by
    cases hr : Heap.read t1.heap n with
    | none => simp [hr] at h2
    | some v => rfl
  rw [modify_upd t1 a _ h1, ok_bind]
  rw [rightOf_of_map _ n nl (by
    simp only [Heap.read_upd_map]
    split <;> exact h2), ok_bind]
  rw [modify_upd _ n _ (by simp only [Heap.isSome_read_upd]; exact hn), ok_bind]
  cases nl with
  | none => rfl
  | some l =>
    rw [if_pos (by simp), modify_upd _ l _ (by
      simp only [Heap.isSome_read_upd]; exact h3 l rfl), ok_bind]
    rfl

theorem setRight_run (t : RBTree) (n : Nat) (nn : Node) (m fp : Ptr) (slotLeft : Bool)
    (hn : Heap.read t.heap n = some nn) (hne : nn.right ≠ m)
    (hm : ∀ a, m = some a → ∃ na, Heap.read t.heap a = some na ∧ na.parent = fp)
    (hm0 : m = none → fp = none)
    (hfp : ∀ p, fp = some p →
      ∃ np, Heap.read t.heap p = some np ∧ (np.left = m ↔ slotLeft = true) ∧
        (slotLeft = false → np.right = m))
    (hl : ∀ l, nn.right = some l → (Heap.read t.heap l).isSome = true) :
    setRight t (some n) m =
      Except.ok
        ({ t with
            heap :=
              Heap.updOpt
                (Heap.upd
                  (Heap.updOpt
                    (Heap.updOpt t.heap fp
                      (fun x => if slotLeft then { x with left := none }
                                else { x with right := none }))
                    m (fun x => { x with parent := some n }))
                  n (fun x => { x with right := m }))
                nn.right (fun x => { x with parent := none }) },
          nn.right) := by
  have e1 : t.rightOf (some n) = Except.ok nn.right := rightOf_of_map t n _ (by simp [hn])
  have hne2 : ¬ nn.right = m := hne
  cases m with
  | none =>
    have hfp0 := hm0 rfl
    subst hfp0
    have e2 : (Heap.read t.heap n).isSome = true := by simp [hn]
    cases hL : nn.right with
    | none => exact absurd hL hne
    | some l =>
      have e3 : (Heap.read (Heap.upd t.heap n (fun x => { x with right := none })) l).isSome
          = true := by
        rw [Heap.isSome_read_upd]; exact hl l hL
      simp only [setRight, e1, hL, bind, Except.bind, pure, Except.pure, ne_eq,
        not_true_eq_false, if_false, reduceCtorEq, not_false_eq_true, if_true,
        modify_upd t n _ e2, Heap.updOpt]
      rw [modify_upd _ l _ e3]
  | some a =>
    obtain ⟨na, hna, hnap⟩ := hm a rfl
    have e2 : t.parentOf (some a) = Except.ok fp := parentOf_of_map t a _ (by simp [hna, hnap])
    have hnsome : (Heap.read t.heap a).isSome = true := by simp [hna]
    unfold setRight
    rw [e1, ok_bind]
    dsimp only
    rw [if_neg hne2, if_pos (by simp), e2, ok_bind]
    cases fp with
    | none =>
      rw [if_neg (by simp), pure_bind]
      exact setRight_tail t n a nn.right hnsome (by simp [hn]) hl
    | some p =>
      obtain ⟨np, hnp, hslot, hright⟩ := hfp p rfl
      have e4 : t.leftOf (some p) = Except.ok np.left := leftOf_of_map t p _ (by simp [hnp])
      have e5 : (Heap.read t.heap p).isSome = true := by simp [hnp]
      rw [if_pos (by simp), e4, ok_bind]
      cases hs : slotLeft with
      | true =>
        have hleft : np.left = some a := hslot.2 hs
        rw [if_pos hleft, modify_upd t p _ e5, ok_bind]
        refine (setRight_tail _ n a nn.right ?_ ?_ ?_).trans ?_
        · simp only [Heap.isSome_read_upd]; exact hnsome
        · simp only [Heap.read_upd_map]
          split <;> simp [hn]
        · intro l hL
          simp only [Heap.isSome_read_upd]; exact hl l hL
        · simp [Heap.updOpt]
      | false =>
        have hleft : ¬ np.left = some a := fun h => by
          have := hslot.1 h
          rw [hs] at this
          cases this
        have hpn : p ≠ n := by
          intro e
          subst e
          rw [hn] at hnp
          cases hnp
          exact hne (hright hs)
        rw [if_neg hleft, modify_upd t p _ e5, ok_bind]
        refine (setRight_tail _ n a nn.right ?_ ?_ ?_).trans ?_
        · simp only [Heap.isSome_read_upd]; exact hnsome
        · simp only [Heap.read_upd_map, hpn, if_false]; simp [hn]
        · intro l hL
          simp only [Heap.isSome_read_upd]; exact hl l hL
        · simp [Heap.updOpt]



theorem setRight_spec (t : RBTree) (n : Nat) (nn : Node) (m : Ptr)
    (hL : HeapLinked t.heap) (hn : Heap.read t.heap n = some nn)
    (hm : ∀ a, m = some a → (Heap.read t.heap a).isSome = true) :
    (nn.right = m → setRight t (some n) m = Except.ok (t, none)) ∧
    (nn.right ≠ m →
      ∃ t', setRight t (some n) m = Except.ok (t', nn.right) ∧ t'.root = t.root ∧
        t'.dumper = t.dumper ∧
        (Heap.read t'.heap n).map Node.right = some m ∧
        (∀ a, m = some a → (Heap.read t'.heap a).map Node.parent = some (some n)) ∧
        (∀ a x, m = some a →
          ((Heap.read t.heap x).map Node.left = some (some a) →
            (Heap.read t'.heap x).map Node.left = some none) ∧
          ((Heap.read t.heap x).map Node.right = some (some a) →
            (Heap.read t'.heap x).map Node.right = some none)) ∧
        (∀ l, nn.right = some l → (Heap.read t'.heap l).map Node.parent = some none) ∧
        (∀ x, (Heap.read t'.heap x).map Node.key = (Heap.read t.heap x).map Node.key ∧
          (Heap.read t'.heap x).map Node.color = (Heap.read t.heap x).map Node.color) ∧
        (∀ x, (∀ a, m = some a → (Heap.read t.heap x).map Node.left ≠ some (some a)) →
          (Heap.read t'.heap x).map Node.left = (Heap.read t.heap x).map Node.left) ∧
        (∀ x, x ≠ n → (∀ a, m = some a → (Heap.read t.heap x).map Node.right ≠ some (some a)) →
          (Heap.read t'.heap x).map Node.right = (Heap.read t.heap x).map Node.right) ∧
        (∀ x, some x ≠ m → some x ≠ nn.right →
          (Heap.read t'.heap x).map Node.parent = (Heap.read t.heap x).map Node.parent)) := by
  constructor
  · intro h
    have e1 : t.rightOf (some n) = Except.ok nn.right := rightOf_of_map t n _ (by simp [hn])
    unfold setRight
    rw [e1, ok_bind]
    dsimp only
    rw [if_pos h]
    rfl
  · intro hne
    -- the former parent of the incoming node and the slot it holds the node in
    have hdata : ∃ (fp : Ptr) (slotLeft : Bool),
        (∀ a, m = some a → ∃ na, Heap.read t.heap a = some na ∧ na.parent = fp) ∧
        (m = none → fp = none) ∧
        (∀ p, fp = some p → ∃ np, Heap.read t.heap p = some np ∧
          (np.left = m ↔ slotLeft = true) ∧ (np.right = m ↔ slotLeft = false)) := by
      cases m with
      | none => exact ⟨none, false, by simp, by simp, by simp⟩
      | some a =>
        cases hna : Heap.read t.heap a with
        | none =>
          have := hm a rfl
          simp [hna] at this
        | some na =>
          obtain ⟨-, -, hpar, -⟩ := heapLinked_node _ hL a na hna
          cases hp : na.parent with
          | none =>
            refine ⟨none, false, ?_, by simp, by simp⟩
            intro a1 e; cases e; exact ⟨na, hna, hp⟩
          | some p =>
            obtain ⟨np, hnp, hslot⟩ := hpar p hp
            obtain ⟨-, -, -, hboth⟩ := heapLinked_node _ hL p np hnp
            refine ⟨some p, decide (np.left = some a), ?_, by simp, ?_⟩
            · intro a1 e; cases e; exact ⟨na, hna, hp⟩
            · intro p1 e
              cases e
              refine ⟨np, hnp, by simp, ?_⟩
              simp only [decide_eq_false_iff_not]
              constructor
              · intro hr hl
                have := hboth (hl.trans hr.symm)
                rw [this] at hl
                cases hl
              · intro hl
                rcases hslot with h1 | h1
                · exact absurd h1 hl
                · exact h1
    obtain ⟨fp, slotLeft, hA, h0, hP⟩ := hdata
    have hchild : ∀ l, nn.right = some l → (Heap.read t.heap l).isSome = true := by
      intro l hl
      obtain ⟨-, hc, -, -⟩ := heapLinked_node _ hL n nn hn
      obtain ⟨nc, hnc, -⟩ := hc l hl
      simp [Option.mem_def.1 hnc]
    have hrun := setRight_run t n nn m fp slotLeft hn hne hA h0
      (by
        intro p e
        obtain ⟨np, e1, e2, e3⟩ := hP p e
        exact ⟨np, e1, e2, e3.2⟩) hchild
    -- whoever holds the incoming node in a slot is its former parent
    have hholder : ∀ a x nx, m = some a → Heap.read t.heap x = some nx →
        (nx.left = some a ∨ nx.right = some a) → fp = some x := by
      intro a x nx e hx hslot
      obtain ⟨na, hna, hnap⟩ := hA a e
      obtain ⟨hc1, hc2, -, -⟩ := heapLinked_node _ hL x nx hx
      rcases hslot with h1 | h1
      · obtain ⟨nc, hnc, hp⟩ := hc1 a h1
        rw [Option.mem_def.1 hnc] at hna; cases hna
        rw [← hnap, hp]
      · obtain ⟨nc, hnc, hp⟩ := hc2 a h1
        rw [Option.mem_def.1 hnc] at hna; cases hna
        rw [← hnap, hp]
    have hH := fun x v hx => Heap.read_four t.heap fp m nn.right n
      (fun x => if slotLeft then { x with left := none } else { x with right := none })
      (fun x => { x with parent := some n }) (fun x => { x with right := m })
      (fun x => { x with parent := none }) x v hx
    have hH0 := fun x hx => Heap.read_four_none t.heap fp m nn.right n
      (fun x => if slotLeft then { x with left := none } else { x with right := none })
      (fun x => { x with parent := some n }) (fun x => { x with right := m })
      (fun x => { x with parent := none }) x hx
    generalize
      Heap.updOpt (Heap.upd (Heap.updOpt (Heap.updOpt t.heap fp
        (fun x => if slotLeft then { x with left := none } else { x with right := none }))
        m (fun x => { x with parent := some n })) n (fun x => { x with right := m }))
        nn.right (fun x => { x with parent := none }) = H at hrun hH hH0
    refine ⟨_, hrun, rfl, rfl, ?_, ?_, ?_, ?_, ?_, ?_, ?_, ?_⟩
    · rw [hH n nn hn]
      by_cases h4 : nn.right = some n <;> simp [h4]
    · intro a e
      subst e
      obtain ⟨na, hna, -⟩ := hA a rfl
      rw [hH a na hna]
      by_cases h3 : n = a <;> simp [h3, hne]
    · intro a x e
      subst e
      constructor
      · intro hx
        obtain ⟨nx, hnx, hxl⟩ := Option.map_eq_some'.1 hx
        have hfp := hholder a x nx rfl hnx (Or.inl hxl)
        subst hfp
        obtain ⟨np, hnp, hs1, -⟩ := hP x rfl
        rw [hnx] at hnp; cases hnp
        have hs : slotLeft = true := hs1.1 hxl
        subst hs
        rw [hH x nx hnx]
        by_cases h2 : some a = some x <;> by_cases h3 : n = x <;>
          by_cases h4 : nn.right = some x <;> simp [h2, h3, h4]
      · intro hx
        obtain ⟨nx, hnx, hxr⟩ := Option.map_eq_some'.1 hx
        have hfp := hholder a x nx rfl hnx (Or.inr hxr)
        subst hfp
        obtain ⟨np, hnp, -, hs1⟩ := hP x rfl
        rw [hnx] at hnp; cases hnp
        have hs : slotLeft = false := hs1.1 hxr
        subst hs
        have hxn : ¬ n = x := by
          intro e
          subst e
          rw [hn] at hnx; cases hnx
          exact hne hxr
        rw [hH x nx hnx]
        by_cases h2 : some a = some x <;> by_cases h4 : nn.right = some x <;> simp [h2, h4, hxn]
    · intro l hl
      have := hchild l hl
      obtain ⟨nl, hnl⟩ := Option.isSome_iff_exists.1 this
      rw [hH l nl hnl]
      simp [hl]
    · intro x
      cases hx : Heap.read t.heap x with
      | none => rw [hH0 x hx]; simp
      | some v =>
        rw [hH x v hx]
        cases slotLeft <;> by_cases h1 : fp = some x <;> by_cases h2 : m = some x <;>
          by_cases h3 : n = x <;> by_cases h4 : nn.right = some x <;> simp [h1, h2, h3, h4]
    · intro x hxl
      cases hx : Heap.read t.heap x with
      | none => rw [hH0 x hx]
      | some v =>
        rw [hH x v hx]
        by_cases h1 : fp = some x
        · obtain ⟨np, hnp, hs1, -⟩ := hP x h1
          rw [hx] at hnp; cases hnp
          have hs : slotLeft = false := by
            cases hs : slotLeft with
            | false => rfl
            | true =>
              have hvl := hs1.2 hs
              cases m with
              | none =>
                have := h0 rfl
                rw [this] at h1
                cases h1
              | some a =>
                have := hxl a rfl
                simp [hx, hvl] at this
          subst hs
          by_cases h2 : m = some x <;> by_cases h3 : n = x <;>
            by_cases h4 : nn.right = some x <;> simp [h1, h2, h3, h4]
        · by_cases h2 : m = some x <;> by_cases h3 : n = x <;>
            by_cases h4 : nn.right = some x <;> simp [h1, h2, h3, h4]
    · intro x hxn hxr
      cases hx : Heap.read t.heap x with
      | none => rw [hH0 x hx]
      | some v =>
        rw [hH x v hx]
        have h3 : ¬ n = x := fun e => hxn e.symm
        by_cases h1 : fp = some x
        · obtain ⟨np, hnp, -, hs1⟩ := hP x h1
          rw [hx] at hnp; cases hnp
          have hs : slotLeft = true := by
            cases hs : slotLeft with
            | true => rfl
            | false =>
              have hvl := hs1.2 hs
              cases m with
              | none =>
                have := h0 rfl
                rw [this] at h1
                cases h1
              | some a =>
                have := hxr a rfl
                simp [hx, hvl] at this
          subst hs
          by_cases h2 : m = some x <;> by_cases h4 : nn.right = some x <;> simp [h1, h2, h3, h4]
        · by_cases h2 : m = some x <;> by_cases h4 : nn.right = some x <;> simp [h1, h2, h3, h4]
    · intro x hxm hxl
      cases hx : Heap.read t.heap x with
      | none => rw [hH0 x hx]
      | some v =>
        rw [hH x v hx]
        have h2 : ¬ m = some x := fun e => hxm e.symm
        have h4 : ¬ nn.right = some x := fun e => hxl e.symm
        cases slotLeft <;> by_cases h1 : fp = some x <;> by_cases h3 : n = x <;>
          simp [h1, h2, h3, h4]



/-- C15: contract of `setLeft` and `setRight` on a consistently linked set of nodes (a
present child exists and refers back to its holder, a present parent exists and holds
the node, and no node holds the same child in both slots).  For an existing node `n`
and an incoming `m` that is absent or existing: if `m` already is the left child of `n`,
`setLeft` returns `nullptr` and changes nothing; otherwise it returns the previous left
child of `n`, and afterwards the left child of `n` is `m`, the parent of `m` is `n`, the
slot that held `m` before (left or right) holds nothing, the parent of the previous left
child is absent, keys and colours are untouched, and no other left, right or parent
field has changed.  `setRight` does the same with the right slot of `n`. -/
theorem setLeft_setRight_contract (t : RBTree) (n : Nat) (nn : Node) (m : Ptr)
    (hL : HeapLinked t.heap) (hn : Heap.read t.heap n = some nn)
    (hm : ∀ a ∈ m, (Heap.read t.heap a).isSome = true) :
    ((nn.left = m → setLeft t (some n) m = Except.ok (t, none)) ∧
     (nn.left ≠ m →
      ∃ t', setLeft t (some n) m = Except.ok (t', nn.left) ∧ t'.root = t.root ∧
        t'.dumper = t.dumper ∧
        (Heap.read t'.heap n).map Node.left = some m ∧
        (∀ a, m = some a → (Heap.read t'.heap a).map Node.parent = some (some n)) ∧
        (∀ a x, m = some a →
          ((Heap.read t.heap x).map Node.left = some (some a) →
            (Heap.read t'.heap x).map Node.left = some none) ∧
          ((Heap.read t.heap x).map Node.right = some (some a) →
            (Heap.read t'.heap x).map Node.right = some none)) ∧
        (∀ l, nn.left = some l → (Heap.read t'.heap l).map Node.parent = some none) ∧
        (∀ x, (Heap.read t'.heap x).map Node.key = (Heap.read t.heap x).map Node.key ∧
          (Heap.read t'.heap x).map Node.color = (Heap.read t.heap x).map Node.color) ∧
        (∀ x, x ≠ n → (∀ a, m = some a → (Heap.read t.heap x).map Node.left ≠ some (some a)) →
          (Heap.read t'.heap x).map Node.left = (Heap.read t.heap x).map Node.left) ∧
        (∀ x, (∀ a, m = some a → (Heap.read t.heap x).map Node.right ≠ some (some a)) →
          (Heap.read t'.heap x).map Node.right = (Heap.read t.heap x).map Node.right) ∧
        (∀ x, some x ≠ m → some x ≠ nn.left →
          (Heap.read t'.heap x).map Node.parent = (Heap.read t.heap x).map Node.parent))) ∧
    ((nn.right = m → setRight t (some n) m = Except.ok (t, none)) ∧
     (nn.right ≠ m →
      ∃ t', setRight t (some n) m = Except.ok (t', nn.right) ∧ t'.root = t.root ∧
        t'.dumper = t.dumper ∧
        (Heap.read t'.heap n).map Node.right = some m ∧
        (∀ a, m = some a → (Heap.read t'.heap a).map Node.parent = some (some n)) ∧
        (∀ a x, m = some a →
          ((Heap.read t.heap x).map Node.left = some (some a) →
            (Heap.read t'.heap x).map Node.left = some none) ∧
          ((Heap.read t.heap x).map Node.right = some (some a) →
            (Heap.read t'.heap x).map Node.right = some none)) ∧
        (∀ l, nn.right = some l → (Heap.read t'.heap l).map Node.parent = some none) ∧
        (∀ x, (Heap.read t'.heap x).map Node.key = (Heap.read t.heap x).map Node.key ∧
          (Heap.read t'.heap x).map Node.color = (Heap.read t.heap x).map Node.color) ∧
        (∀ x, (∀ a, m = some a → (Heap.read t.heap x).map Node.left ≠ some (some a)) →
          (Heap.read t'.heap x).map Node.left = (Heap.read t.heap x).map Node.left) ∧
        (∀ x, x ≠ n → (∀ a, m = some a → (Heap.read t.heap x).map Node.right ≠ some (some a)) →
          (Heap.read t'.heap x).map Node.right = (Heap.read t.heap x).map Node.right) ∧
        (∀ x, some x ≠ m → some x ≠ nn.right →
          (Heap.read t'.heap x).map Node.parent = (Heap.read t.heap x).map Node.parent))) :=
  ⟨setLeft_spec t n nn m hL hn (fun a e => hm a e),
    setRight_spec t n nn m hL hn (fun a e => hm a e)⟩

/-- Witness of C15 on the tree 10, 20, 30: the leaf 10 (address 1) is given the node 30
(address 2), until then the right child of the root. -/
theorem setLeft_setRight_contract_witness :
    HeapLinked sample3.heap ∧
      Heap.read sample3.heap 1 = some ⟨10, Color.RED, none, none, some 0⟩ ∧
      (∀ a ∈ (some 2 : Ptr), (Heap.read sample3.heap a).isSome = true) ∧
      (((none : Ptr) = some 2 → setLeft sample3 (some 1) (some 2) = Except.ok (sample3, none)) ∧
       ((none : Ptr) ≠ some 2 →
        ∃ t', setLeft sample3 (some 1) (some 2) = Except.ok (t', none) ∧
          t'.root = sample3.root ∧ t'.dumper = sample3.dumper ∧
          (Heap.read t'.heap 1).map Node.left = some (some 2) ∧
          (∀ a, (some 2 : Ptr) = some a →
            (Heap.read t'.heap a).map Node.parent = some (some 1)) ∧
          (∀ a x, (some 2 : Ptr) = some a →
            ((Heap.read sample3.heap x).map Node.left = some (some a) →
              (Heap.read t'.heap x).map Node.left = some none) ∧
            ((Heap.read sample3.heap x).map Node.right = some (some a) →
              (Heap.read t'.heap x).map Node.right = some none)) ∧
          (∀ l, (none : Ptr) = some l → (Heap.read t'.heap l).map Node.parent = some none) ∧
          (∀ x, (Heap.read t'.heap x).map Node.key = (Heap.read sample3.heap x).map Node.key ∧
            (Heap.read t'.heap x).map Node.color =
              (Heap.read sample3.heap x).map Node.color) ∧
          (∀ x, x ≠ 1 →
            (∀ a, (some 2 : Ptr) = some a →
              (Heap.read sample3.heap x).map Node.left ≠ some (some a)) →
            (Heap.read t'.heap x).map Node.left = (Heap.read sample3.heap x).map Node.left) ∧
          (∀ x,
            (∀ a, (some 2 : Ptr) = some a →
              (Heap.read sample3.heap x).map Node.right ≠ some (some a)) →
            (Heap.read t'.heap x).map Node.right = (Heap.read sample3.heap x).map Node.right) ∧
          (∀ x, some x ≠ (some 2 : Ptr) → some x ≠ (none : Ptr) →
            (Heap.read t'.heap x).map Node.parent =
              (Heap.read sample3.heap x).map Node.parent))) ∧
      (((none : Ptr) = some 2 → setRight sample3 (some 1) (some 2) = Except.ok (sample3, none)) ∧
       ((none : Ptr) ≠ some 2 →
        ∃ t', setRight sample3 (some 1) (some 2) = Except.ok (t', none) ∧
          t'.root = sample3.root ∧ t'.dumper = sample3.dumper ∧
          (Heap.read t'.heap 1).map Node.right = some (some 2) ∧
          (∀ a, (some 2 : Ptr) = some a →
            (Heap.read t'.heap a).map Node.parent = some (some 1)) ∧
          (∀ a x, (some 2 : Ptr) = some a →
            ((Heap.read sample3.heap x).map Node.left = some (some a) →
              (Heap.read t'.heap x).map Node.left = some none) ∧
            ((Heap.read sample3.heap x).map Node.right = some (some a) →
              (Heap.read t'.heap x).map Node.right = some none)) ∧
          (∀ l, (none : Ptr) = some l → (Heap.read t'.heap l).map Node.parent = some none) ∧
          (∀ x, (Heap.read t'.heap x).map Node.key = (Heap.read sample3.heap x).map Node.key ∧
            (Heap.read t'.heap x).map Node.color =
              (Heap.read sample3.heap x).map Node.color) ∧
          (∀ x,
            (∀ a, (some 2 : Ptr) = some a →
              (Heap.read sample3.heap x).map Node.left ≠ some (some a)) →
            (Heap.read t'.heap x).map Node.left = (Heap.read sample3.heap x).map Node.left) ∧
          (∀ x, x ≠ 1 →
            (∀ a, (some 2 : Ptr) = some a →
              (Heap.read sample3.heap x).map Node.right ≠ some (some a)) →
            (Heap.read t'.heap x).map Node.right = (Heap.read sample3.heap x).map Node.right) ∧
          (∀ x, some x ≠ (some 2 : Ptr) → some x ≠ (none : Ptr) →
            (Heap.read t'.heap x).map Node.parent =
              (Heap.read sample3.heap x).map Node.parent))) :=
  ⟨by decide, by decide, by decide,
    setLeft_setRight_contract sample3 1 ⟨10, Color.RED, none, none, some 0⟩ (some 2)
      (by decide) (by decide) (by decide)⟩

end xi
